import Mathlib

/-!
# GenericTypeErasurePrototype

A shallow embedding of `GenericTypeErasure.h` (the generic erasure base), of
`Shape.h` (the Shape operation-set mixin) and of the concrete type `Square`
from `main.cpp`, followed by theorems about them.

Conventions of the embedding.

* Concrete types are drawn from a universe of codes `U` with carrier
  `El : U → Type`; a function pointer obtained from a function template
  (`createDrawFunction<ShapeT>()`, `createDeleter<TypeT>()`, ...) is represented
  by the code of the type it was instantiated for.
* Objects live in a store indexed by addresses.  `nullptr` is `none`.
  A `static_cast` from an opaque pointer followed by an access is defined only
  when a live object of the named type is stored at that address.
* `std::cout` is a list of inserted items.
* Concrete types are value types: copy construction yields an equal value.
* `new` draws on an allocation budget and throws `std::bad_alloc` when the
  budget is exhausted; `delete` returns one unit to the budget; addresses are
  never reused.
-/

namespace TypeErasure

/-! ## GenericTypeErasure.h: setup and const propagation -/

/-- The storage mode: `enum class TypeErasureSetup`. -/
inductive TypeErasureSetup
  | Owning
  | Ref
  | ConstRef
  deriving DecidableEq, Repr

/-- The const propagation policy: `enum class ConstPropagation`. -/
inductive ConstPropagation
  | Propagate
  | Bypass
  | AlwaysConst
  deriving DecidableEq, Repr

/-- The function `deriveConstPropagation` (GenericTypeErasure.h, lines 14-22). -/
def deriveConstPropagation : TypeErasureSetup → ConstPropagation
  | .Owning => .Propagate
  | .Ref => .Bypass
  | .ConstRef => .AlwaysConst

/-! ## Output, exceptions, outcomes -/

/-- One item inserted into `std::cout` by `operator<<`. -/
inductive Item
  | str (s : String)
  | int (i : Int)
  deriving DecidableEq, Repr

/-- The exceptions the library can raise. -/
inductive Exn
  | bad_function_call
  | bad_alloc
  deriving DecidableEq, Repr

/-- The outcome of running a piece of the program: normal completion with a
result, an exception together with the state left behind, undefined behaviour,
or rejection of the call by the compiler. -/
inductive Outcome (ε α : Type)
  | ok (a : α)
  | threw (e : Exn) (post : ε)
  | undefined
  | rejected
  deriving DecidableEq, Repr

/-! ## Concrete types and the object store -/

/-- What a concrete type must provide to be wrapped (structural conformance):
the member `draw() const`, the free `draw(const T&)`, the member
`setName(std::string)`, the free `setName(T&, std::string)`, and its
destructor.  Drawing and destruction are described by the items they write to
`std::cout`. -/
structure Conforming (T : Type) where
  draw : T → List Item
  drawFree : T → List Item
  setName : T → String → T
  setNameFree : T → String → T
  dtor : T → List Item

/-- An address of the object store. -/
abbrev Addr := Nat

/-- An opaque pointer (`void*` or `const void*`); `none` is `nullptr`. -/
abbrev Ptr := Option Addr

/-- An object together with the code of its concrete type. -/
abbrev Obj (U : Type) (El : U → Type) := Sigma El

/-- The program state outside the wrappers: the object store (a cell is `none`
once its object has been destroyed), the number of allocations `new` can still
satisfy, and what has been written to `std::cout`. -/
structure World (U : Type) (El : U → Type) where
  cells : List (Option (Obj U El))
  budget : Nat
  cout : List Item

section Store

variable {U : Type} [DecidableEq U] {El : U → Type}

/-- The live object at an address, if any. -/
def World.load (σ : World U El) (a : Addr) : Option (Obj U El) :=
  (σ.cells[a]?).join

/-- Overwrite the object at an address. -/
def World.store (σ : World U El) (a : Addr) (o : Obj U El) : World U El :=
  ⟨σ.cells.set a (some o), σ.budget, σ.cout⟩

/-- Place a new object in a fresh cell, consuming one unit of budget. -/
def World.alloc (σ : World U El) (o : Obj U El) : Addr × World U El :=
  (σ.cells.length, ⟨σ.cells ++ [some o], σ.budget - 1, σ.cout⟩)

/-- Release the cell at an address; the memory it took can be allocated again. -/
def World.free (σ : World U El) (a : Addr) : World U El :=
  ⟨σ.cells.set a none, σ.budget + 1, σ.cout⟩

/-- Append items to `std::cout`. -/
def World.print (σ : World U El) (out : List Item) : World U El :=
  ⟨σ.cells, σ.budget, σ.cout ++ out⟩

/-- View an object as a value of the concrete type `u`; `none` when the object
is of another type. -/
def Obj.castTo (o : Obj U El) (u : U) : Option (El u) :=
  if h : o.1 = u then some (h ▸ o.2) else none

/-- The value reached by `*static_cast<T*>(p)` for the type `T` coded by `u`;
`none` when no live object of that type is at `p` (undefined behaviour). -/
def World.derefAs (σ : World U El) (u : U) (p : Ptr) : Option (El u) :=
  match p with
  | none => none
  | some a =>
    match σ.load a with
    | none => none
    | some o => o.castTo u

end Store

/-! ## The concrete type's own operations, applied through a typed pointer -/

section ConcreteOps

variable {U : Type} [DecidableEq U] {El : U → Type}

/-- The call `static_cast<const T*>(p)->draw()`. -/
def Concrete.draw (ops : ∀ u, Conforming (El u)) (u : U) (p : Ptr) (σ : World U El) :
    Outcome (World U El) (World U El) :=
  match σ.derefAs u p with
  | none => .undefined
  | some v => .ok (σ.print ((ops u).draw v))

/-- The call `draw(*static_cast<const T*>(p))`. -/
def Concrete.drawFree (ops : ∀ u, Conforming (El u)) (u : U) (p : Ptr) (σ : World U El) :
    Outcome (World U El) (World U El) :=
  match σ.derefAs u p with
  | none => .undefined
  | some v => .ok (σ.print ((ops u).drawFree v))

/-- The call `static_cast<T*>(p)->setName(value)`. -/
def Concrete.setName (ops : ∀ u, Conforming (El u)) (u : U) (p : Ptr) (value : String)
    (σ : World U El) : Outcome (World U El) (World U El) :=
  match p, σ.derefAs u p with
  | some a, some v => .ok (σ.store a ⟨u, (ops u).setName v value⟩)
  | _, _ => .undefined

/-- The call `setName(*static_cast<T*>(p), value)`. -/
def Concrete.setNameFree (ops : ∀ u, Conforming (El u)) (u : U) (p : Ptr) (value : String)
    (σ : World U El) : Outcome (World U El) (World U El) :=
  match p, σ.derefAs u p with
  | some a, some v => .ok (σ.store a ⟨u, (ops u).setNameFree v value⟩)
  | _, _ => .undefined

/-- The expression `delete static_cast<const T*>(p)`: nothing for `nullptr`,
otherwise the destructor runs and the cell is released.  `none` is undefined
behaviour (no live object of that type at `p`). -/
def Concrete.delete (ops : ∀ u, Conforming (El u)) (u : U) (p : Ptr) (σ : World U El) :
    Option (World U El) :=
  match p with
  | none => some σ
  | some a =>
    match σ.derefAs u (some a) with
    | none => none
    | some v => some ((σ.print ((ops u).dtor v)).free a)

end ConcreteOps

/-! ## GenericTypeErasure.h: FunctionPtr -/

/-- The class template `FunctionPtr<Signature, defaultValue>` (lines 27-53):
its only member is `mPtr`; `none` is the null function pointer. -/
structure FunctionPtr (S : Type) where
  mPtr : Option S
  deriving DecidableEq, Repr

/-- The move constructor (line 32): the new object takes `other.mPtr` and
`other.mPtr` becomes `defaultValue`.  Returns the new object and `other`. -/
def FunctionPtr.moveCtor {S : Type} (defaultValue : Option S) (other : FunctionPtr S) :
    FunctionPtr S × FunctionPtr S :=
  (⟨other.mPtr⟩, ⟨defaultValue⟩)

/-- The copy assignment (line 34, defaulted). -/
def FunctionPtr.copyAssign {S : Type} (_self other : FunctionPtr S) : FunctionPtr S :=
  ⟨other.mPtr⟩

/-- The move assignment (lines 35-41); `same` is `std::addressof(other) == this`.
Returns `*this` and `other` afterwards. -/
def FunctionPtr.moveAssign {S : Type} (defaultValue : Option S) (same : Bool)
    (self other : FunctionPtr S) : FunctionPtr S × FunctionPtr S :=
  if same then (self, self) else (⟨other.mPtr⟩, ⟨defaultValue⟩)

/-- The call operator (lines 43-49): `std::bad_function_call` on a null pointer,
otherwise the stored function is called; `apply` says how a stored function is
run on the arguments and `post` is the state at the point of the call. -/
def FunctionPtr.call {S ε α : Type} (f : FunctionPtr S) (apply : S → Outcome ε α) (post : ε) :
    Outcome ε α :=
  match f.mPtr with
  | none => .threw .bad_function_call post
  | some fn => apply fn

/-! ## GenericTypeErasure.h: the owning pointer, deleters and duplicators -/

/-- The values of type `void (*)(const void*)` used as deleters: the lambda of
`createDeleter<TypeT>()` (lines 181-186) and the empty lambda of
`noopDuplicator` (line 96). -/
inductive Deleter (U : Type)
  | deleteAs (u : U)
  | noop
  deriving DecidableEq, Repr

/-- The type `OwningPtrType = std::unique_ptr<void, void (*)(const void*)>`. -/
structure OwningPtrType (U : Type) where
  ptr : Ptr
  deleter : Deleter U
  deriving DecidableEq, Repr

/-- The values of type `DuplicatorSignature` that occur: the lambda of
`createDuplicator<TypeT>()` (lines 172-179) and `noopDuplicator` (lines 95-97). -/
inductive DuplicatorSignature (U : Type)
  | duplicateAs (u : U)
  | noopDuplicator
  deriving DecidableEq, Repr

/-- The function `createDeleter<TypeT>()`. -/
def createDeleter {U : Type} (u : U) : Deleter U := .deleteAs u

/-- The function `createDuplicator<TypeT>()`. -/
def createDuplicator {U : Type} (u : U) : DuplicatorSignature U := .duplicateAs u

section Owning

variable {U : Type} [DecidableEq U] {El : U → Type}

/-- Calling a deleter on a pointer. -/
def Deleter.invoke (ops : ∀ u, Conforming (El u)) (d : Deleter U) (p : Ptr) (σ : World U El) :
    Option (World U El) :=
  match d with
  | .noop => some σ
  | .deleteAs u => Concrete.delete ops u p σ

/-- The destructor of `std::unique_ptr`: the deleter is called iff the pointer
is not null. -/
def OwningPtrType.dtor (ops : ∀ u, Conforming (El u)) (self : OwningPtrType U) (σ : World U El) :
    Option (World U El) :=
  match self.ptr with
  | none => some σ
  | some a => self.deleter.invoke ops (some a) σ

/-- The move constructor of `std::unique_ptr`: returns the new pointer and the
source, which is left null. -/
def OwningPtrType.moveCtor (other : OwningPtrType U) : OwningPtrType U × OwningPtrType U :=
  (⟨other.ptr, other.deleter⟩, ⟨none, other.deleter⟩)

/-- The move assignment of `std::unique_ptr`, `reset(other.release())` followed
by assignment of the deleter: the object held before is deleted with the
deleter held before.  Returns `*this`, `other` and the world afterwards;
`none` is undefined behaviour. -/
def OwningPtrType.moveAssign (ops : ∀ u, Conforming (El u)) (same : Bool)
    (self other : OwningPtrType U) (σ : World U El) :
    Option (OwningPtrType U × OwningPtrType U × World U El) :=
  if same then some (self, self, σ)
  else
    match self.dtor ops σ with
    | none => none
    | some σ1 => some (⟨other.ptr, other.deleter⟩, ⟨none, other.deleter⟩, σ1)

/-- Calling a duplicator on an owning pointer.  For the lambda of
`createDuplicator<TypeT>()`, `new TypeT(*static_cast<TypeT*>(ptr.get()))`
allocates first and then copies the object `ptr` holds; the new pointer gets
`ptr.get_deleter()`. -/
def DuplicatorSignature.invoke (d : DuplicatorSignature U)
    (ptr : OwningPtrType U) (σ : World U El) :
    Outcome (World U El) (OwningPtrType U × World U El) :=
  match d with
  | .noopDuplicator => .ok (⟨none, .noop⟩, σ)
  | .duplicateAs u =>
    if σ.budget = 0 then .threw .bad_alloc σ
    else
      match σ.derefAs u ptr.ptr with
      | none => .undefined
      | some v => .ok (⟨some (σ.alloc ⟨u, v⟩).1, ptr.deleter⟩, (σ.alloc ⟨u, v⟩).2)

end Owning

/-! ## Overload sets and their resolution -/

/-- Whether a pointer obtained from the wrapper is `void*` or `const void*`. -/
inductive Access
  | mutablePtr
  | constPtr
  deriving DecidableEq, Repr

/-- One overload of a member function (or of a friend taking the wrapper by
reference): whether it is const-qualified (takes `const ShapeTE&`), its
requires-clause as a test on the const propagation policy, and a payload. -/
structure Overload (β : Type) where
  constThis : Bool
  constraint : ConstPropagation → Bool
  payload : β

/-- An overload is viable for an object when its constraint holds and a const
object is only passed to a const-qualified overload. -/
def Overload.viable {β : Type} (o : Overload β) (cp : ConstPropagation) (objConst : Bool) : Bool :=
  o.constraint cp && (o.constThis || !objConst)

/-- Overload resolution on the object argument: among the viable overloads the
ones whose qualification matches the object exactly are better; the call is
well-formed when there is a single best one. -/
def resolveOverload {β : Type} (os : List (Overload β)) (cp : ConstPropagation)
    (objConst : Bool) : Option (Overload β) :=
  match (os.filter (fun o => o.viable cp objConst)).filter (fun o => o.constThis == objConst) with
  | [o] => some o
  | _ :: _ :: _ => none
  | [] =>
    match os.filter (fun o => o.viable cp objConst) with
    | [o] => some o
    | _ => none

/-- The four overloads of `BaseTE::rawPtrAccess` (lines 142-164) with their
return types. -/
def rawPtrAccessOverloads : List (Overload Access) :=
  [ ⟨false, fun cp => cp == .Propagate, .mutablePtr⟩,
    ⟨true, fun cp => cp == .Propagate, .constPtr⟩,
    ⟨true, fun cp => cp == .AlwaysConst, .constPtr⟩,
    ⟨true, fun cp => cp == .Bypass, .mutablePtr⟩ ]

/-- The two member overloads of `ShapeTE::setName` (Shape.h, lines 101-105
and 112-116). -/
def memberSetNameOverloads : List (Overload Unit) :=
  [ ⟨false, fun cp => cp != .AlwaysConst, ()⟩,
    ⟨true, fun cp => cp == .Bypass, ()⟩ ]

/-- The two friend overloads of `setName` (Shape.h, lines 106-110 and 117-121). -/
def friendSetNameOverloads : List (Overload Unit) :=
  [ ⟨false, fun cp => cp != .AlwaysConst, ()⟩,
    ⟨true, fun cp => cp != .Bypass, ()⟩ ]

/-- The type of `rawPtrAccess()` called on a wrapper of the given setup and
constness; `none` when no overload can be called. -/
def rawPtrAccessType (setup : TypeErasureSetup) (objConst : Bool) : Option Access :=
  (resolveOverload rawPtrAccessOverloads (deriveConstPropagation setup) objConst).map
    (fun o => o.payload)

/-- Whether a call of `setName` on a wrapper of the given setup and constness
compiles against an overload set: an overload is selected, and in its body
`rawPtrAccess()`, called on the wrapper as that overload sees it, yields the
`void*` that the set-name trampoline takes. -/
def setNameAccepted (os : List (Overload Unit)) (setup : TypeErasureSetup) (objConst : Bool) :
    Bool :=
  match resolveOverload os (deriveConstPropagation setup) objConst with
  | none => false
  | some o => rawPtrAccessType setup o.constThis == some .mutablePtr

/-! ## GenericTypeErasure.h: BaseTE -/

/-- The empty class `Nothing` (lines 24-25). -/
structure Nothing where
  deriving DecidableEq, Repr

/-- The alias `TypeErasureSetupPtrType<setup>` (lines 55-69). -/
@[reducible]
def UsedPtrType (U : Type) : TypeErasureSetup → Type
  | .Owning => OwningPtrType U
  | .Ref => Ptr
  | .ConstRef => Ptr

/-- The alias `DuplicatorType` (lines 169-170). -/
@[reducible]
def DuplicatorType (U : Type) : TypeErasureSetup → Type
  | .Owning => FunctionPtr (DuplicatorSignature U)
  | .Ref => Nothing
  | .ConstRef => Nothing

/-- The default value of the duplicator slot, `noopDuplicator` (line 170). -/
def duplicatorDefault (U : Type) : Option (DuplicatorSignature U) := some .noopDuplicator

/-- The class template `BaseTE<setup>`: the members `mData` and `mDuplicator`
(lines 188-189). -/
structure BaseTE (U : Type) (setup : TypeErasureSetup) where
  mData : UsedPtrType U setup
  mDuplicator : DuplicatorType U setup

section Base

variable {U : Type} [DecidableEq U] {El : U → Type}

/-- The stored pointer: `mData.get()` for Owning, `mData` otherwise. -/
def BaseTE.get : {setup : TypeErasureSetup} → BaseTE U setup → Ptr
  | .Owning, b => OwningPtrType.ptr b.mData
  | .Ref, b => b.mData
  | .ConstRef, b => b.mData

/-- The accessor `rawPtrAccess()` (lines 142-164) called on a wrapper of the
given constness: the static type of the result and the stored pointer. -/
def BaseTE.rawPtrAccess {setup : TypeErasureSetup} (b : BaseTE U setup) (objConst : Bool) :
    Option (Access × Ptr) :=
  (rawPtrAccessType setup objConst).map (fun a => (a, b.get))

/-- The Owning constructor `BaseTE(TypeT&& value)` (lines 102-106) on an object
of type `u` at address `r`: `new` allocates, the object is copied, and deleter
and duplicator are captured for `u`. -/
def BaseTE.ctorOwning (u : U) (r : Addr) (σ : World U El) :
    Outcome (World U El) (BaseTE U .Owning × World U El) :=
  if σ.budget = 0 then .threw .bad_alloc σ
  else
    match σ.derefAs u (some r) with
    | none => .undefined
    | some v =>
      .ok (⟨⟨some (σ.alloc ⟨u, v⟩).1, createDeleter u⟩, ⟨some (createDuplicator u)⟩⟩,
        (σ.alloc ⟨u, v⟩).2)

/-- The non-owning constructor `BaseTE(TypeT& value)` (lines 108-111): the
address of the object is recorded. -/
def BaseTE.ctorRef : (setup : TypeErasureSetup) → Addr → Option (BaseTE U setup)
  | .Owning, _ => none
  | .Ref, r => some ⟨some r, ⟨⟩⟩
  | .ConstRef, r => some ⟨some r, ⟨⟩⟩

/-- The copy constructors (lines 113-118): defaulted for the reference setups;
for Owning `mData` is what `other.mDuplicator` returns for `other.mData`, and
the duplicator is copied. -/
def BaseTE.copyCtor : {setup : TypeErasureSetup} → BaseTE U setup → World U El →
    Outcome (World U El) (BaseTE U setup × World U El)
  | .Owning, other, σ =>
    match FunctionPtr.call other.mDuplicator (fun d => d.invoke other.mData σ) σ with
    | .ok (p, σ1) => .ok (⟨p, other.mDuplicator⟩, σ1)
    | .threw e σ1 => .threw e σ1
    | .undefined => .undefined
    | .rejected => .rejected
  | .Ref, other, σ => .ok (other, σ)
  | .ConstRef, other, σ => .ok (other, σ)

/-- The move constructor (line 119, defaulted): member-wise move.  Returns the
new object and `other` afterwards. -/
def BaseTE.moveCtor : {setup : TypeErasureSetup} → BaseTE U setup →
    BaseTE U setup × BaseTE U setup
  | .Owning, other =>
    (⟨(OwningPtrType.moveCtor other.mData).1,
        (FunctionPtr.moveCtor (duplicatorDefault U) other.mDuplicator).1⟩,
      ⟨(OwningPtrType.moveCtor other.mData).2,
        (FunctionPtr.moveCtor (duplicatorDefault U) other.mDuplicator).2⟩)
  | .Ref, other => (other, other)
  | .ConstRef, other => (other, other)

/-- The copy assignments (lines 121-133); `same` is
`std::addressof(other) == this`.  For Owning the duplicator is assigned first
and then `mData` is move-assigned from what the new duplicator returns.  An
exception leaves `*this` as it is at that point. -/
def BaseTE.copyAssign (ops : ∀ u, Conforming (El u)) (same : Bool) :
    {setup : TypeErasureSetup} → BaseTE U setup → BaseTE U setup → World U El →
    Outcome (BaseTE U setup × World U El) (BaseTE U setup × World U El)
  | .Owning, self, other, σ =>
    if same then .ok (self, σ)
    else
      match FunctionPtr.call (FunctionPtr.copyAssign self.mDuplicator other.mDuplicator)
          (fun d => d.invoke other.mData σ) σ with
      | .ok (p, σ1) =>
        match OwningPtrType.moveAssign ops false self.mData p σ1 with
        | none => .undefined
        | some (d, _, σ2) =>
          .ok (⟨d, FunctionPtr.copyAssign self.mDuplicator other.mDuplicator⟩, σ2)
      | .threw e σ1 =>
        .threw e (⟨self.mData, FunctionPtr.copyAssign self.mDuplicator other.mDuplicator⟩, σ1)
      | .undefined => .undefined
      | .rejected => .rejected
  | .Ref, _, other, σ => .ok (other, σ)
  | .ConstRef, _, other, σ => .ok (other, σ)

/-- The move assignments (lines 135-138, defaulted): member-wise move
assignment.  Returns `*this`, `other` and the world afterwards; `none` is
undefined behaviour. -/
def BaseTE.moveAssign (ops : ∀ u, Conforming (El u)) (same : Bool) :
    {setup : TypeErasureSetup} → BaseTE U setup → BaseTE U setup → World U El →
    Option (BaseTE U setup × BaseTE U setup × World U El)
  | .Owning, self, other, σ =>
    match OwningPtrType.moveAssign ops same self.mData other.mData σ with
    | none => none
    | some (d, od, σ1) =>
      some (⟨d, (FunctionPtr.moveAssign (duplicatorDefault U) same self.mDuplicator
            other.mDuplicator).1⟩,
        ⟨od, (FunctionPtr.moveAssign (duplicatorDefault U) same self.mDuplicator
            other.mDuplicator).2⟩, σ1)
  | .Ref, _, other, σ => some (other, other, σ)
  | .ConstRef, _, other, σ => some (other, other, σ)

/-- The destructor (implicit): the members are destroyed; only the owning
pointer does anything.  `none` is undefined behaviour. -/
def BaseTE.dtor (ops : ∀ u, Conforming (El u)) :
    {setup : TypeErasureSetup} → BaseTE U setup → World U El → Option (World U El)
  | .Owning, self, σ => OwningPtrType.dtor ops self.mData σ
  | .Ref, _, σ => some σ
  | .ConstRef, _, σ => some σ

end Base

/-! ## Shape.h: ShapeTECommon -/

/-- The values of type `void (*)(const void*)` used as draw trampolines: the
lambda of `createDrawFunction<ShapeT>()` (lines 33-37) and the lambda of
`createDrawFreeFunction<ShapeT>()` (lines 39-43). -/
inductive DrawSignature (U : Type)
  | memberOf (u : U)
  | freeOf (u : U)
  deriving DecidableEq, Repr

/-- The values of type `void (*)(void*, std::string)` used as set-name
trampolines: the lambda of `createSetNameFunction<ShapeT>()` (lines 45-50) and
the lambda of `createSetNameFreeFunction<ShapeT>()` (lines 52-57). -/
inductive SetNameSignature (U : Type)
  | memberOf (u : U)
  | freeOf (u : U)
  deriving DecidableEq, Repr

/-- The function `createDrawFunction<ShapeT>()`. -/
def createDrawFunction {U : Type} (u : U) : DrawSignature U := .memberOf u

/-- The function `createDrawFreeFunction<ShapeT>()`. -/
def createDrawFreeFunction {U : Type} (u : U) : DrawSignature U := .freeOf u

/-- The function `createSetNameFunction<ShapeT>()`. -/
def createSetNameFunction {U : Type} (u : U) : SetNameSignature U := .memberOf u

/-- The function `createSetNameFreeFunction<ShapeT>()`. -/
def createSetNameFreeFunction {U : Type} (u : U) : SetNameSignature U := .freeOf u

/-- The class `ShapeTECommon`: the four trampoline slots (lines 59-63). -/
structure ShapeTECommon (U : Type) where
  mDrawFunction : FunctionPtr (DrawSignature U)
  mDrawFreeFunction : FunctionPtr (DrawSignature U)
  mSetNameFunction : FunctionPtr (SetNameSignature U)
  mSetNameFreeFunction : FunctionPtr (SetNameSignature U)
  deriving DecidableEq, Repr

/-- The constructor `ShapeTECommon(std::type_identity<ShapeT>)` (lines 16-19). -/
def ShapeTECommon.ctor {U : Type} (u : U) : ShapeTECommon U :=
  ⟨⟨some (createDrawFunction u)⟩, ⟨some (createDrawFreeFunction u)⟩,
    ⟨some (createSetNameFunction u)⟩, ⟨some (createSetNameFreeFunction u)⟩⟩

/-- The move constructor (line 22, defaulted): every slot is moved, with the
null pointer as default value.  Returns the new object and `other`. -/
def ShapeTECommon.moveCtor {U : Type} (other : ShapeTECommon U) :
    ShapeTECommon U × ShapeTECommon U :=
  (⟨(FunctionPtr.moveCtor none other.mDrawFunction).1,
      (FunctionPtr.moveCtor none other.mDrawFreeFunction).1,
      (FunctionPtr.moveCtor none other.mSetNameFunction).1,
      (FunctionPtr.moveCtor none other.mSetNameFreeFunction).1⟩,
    ⟨(FunctionPtr.moveCtor none other.mDrawFunction).2,
      (FunctionPtr.moveCtor none other.mDrawFreeFunction).2,
      (FunctionPtr.moveCtor none other.mSetNameFunction).2,
      (FunctionPtr.moveCtor none other.mSetNameFreeFunction).2⟩)

/-- The copy assignment (line 24, defaulted). -/
def ShapeTECommon.copyAssign {U : Type} (self other : ShapeTECommon U) : ShapeTECommon U :=
  ⟨FunctionPtr.copyAssign self.mDrawFunction other.mDrawFunction,
    FunctionPtr.copyAssign self.mDrawFreeFunction other.mDrawFreeFunction,
    FunctionPtr.copyAssign self.mSetNameFunction other.mSetNameFunction,
    FunctionPtr.copyAssign self.mSetNameFreeFunction other.mSetNameFreeFunction⟩

/-- The move assignment (line 25, defaulted).  Returns `*this` and `other`. -/
def ShapeTECommon.moveAssign {U : Type} (same : Bool) (self other : ShapeTECommon U) :
    ShapeTECommon U × ShapeTECommon U :=
  (⟨(FunctionPtr.moveAssign none same self.mDrawFunction other.mDrawFunction).1,
      (FunctionPtr.moveAssign none same self.mDrawFreeFunction other.mDrawFreeFunction).1,
      (FunctionPtr.moveAssign none same self.mSetNameFunction other.mSetNameFunction).1,
      (FunctionPtr.moveAssign none same self.mSetNameFreeFunction other.mSetNameFreeFunction).1⟩,
    ⟨(FunctionPtr.moveAssign none same self.mDrawFunction other.mDrawFunction).2,
      (FunctionPtr.moveAssign none same self.mDrawFreeFunction other.mDrawFreeFunction).2,
      (FunctionPtr.moveAssign none same self.mSetNameFunction other.mSetNameFunction).2,
      (FunctionPtr.moveAssign none same self.mSetNameFreeFunction other.mSetNameFreeFunction).2⟩)

section Trampolines

variable {U : Type} [DecidableEq U] {El : U → Type}

/-- Calling a draw trampoline with an opaque pointer. -/
def DrawSignature.invoke (ops : ∀ u, Conforming (El u)) (f : DrawSignature U) (p : Ptr)
    (σ : World U El) : Outcome (World U El) (World U El) :=
  match f with
  | .memberOf u => Concrete.draw ops u p σ
  | .freeOf u => Concrete.drawFree ops u p σ

/-- Calling a set-name trampoline with an opaque pointer and a name. -/
def SetNameSignature.invoke (ops : ∀ u, Conforming (El u)) (f : SetNameSignature U) (p : Ptr)
    (value : String) (σ : World U El) : Outcome (World U El) (World U El) :=
  match f with
  | .memberOf u => Concrete.setName ops u p value σ
  | .freeOf u => Concrete.setNameFree ops u p value σ

end Trampolines

/-! ## Shape.h: ShapeTE -/

/-- The class template `ShapeTE<setup>`, derived from `BaseTE<setup>` and
`ShapeTECommon` (line 79). -/
structure ShapeTE (U : Type) (setup : TypeErasureSetup) where
  base : BaseTE U setup
  common : ShapeTECommon U

section Shape

variable {U : Type} [DecidableEq U] {El : U → Type}

/-- The constructor `ShapeTE(ShapeT&& shape)` (lines 88-90) applied to an
lvalue of type `u` at address `r`: the base is built from the object and the
trampolines are built for `u`. -/
def ShapeTE.ctor : (setup : TypeErasureSetup) → U → Addr → World U El →
    Outcome (World U El) (ShapeTE U setup × World U El)
  | .Owning, u, r, σ =>
    match BaseTE.ctorOwning u r σ with
    | .ok (b, σ1) => .ok (⟨b, ShapeTECommon.ctor u⟩, σ1)
    | .threw e σ1 => .threw e σ1
    | .undefined => .undefined
    | .rejected => .rejected
  | .Ref, u, r, σ =>
    match BaseTE.ctorRef .Ref r with
    | some b => .ok (⟨b, ShapeTECommon.ctor u⟩, σ)
    | none => .rejected
  | .ConstRef, u, r, σ =>
    match BaseTE.ctorRef .ConstRef r with
    | some b => .ok (⟨b, ShapeTECommon.ctor u⟩, σ)
    | none => .rejected

/-- The copy constructor (line 92, defaulted): base, then trampolines. -/
def ShapeTE.copyCtor {setup : TypeErasureSetup} (other : ShapeTE U setup) (σ : World U El) :
    Outcome (World U El) (ShapeTE U setup × World U El) :=
  match other.base.copyCtor σ with
  | .ok (b, σ1) => .ok (⟨b, other.common⟩, σ1)
  | .threw e σ1 => .threw e σ1
  | .undefined => .undefined
  | .rejected => .rejected

/-- The move constructor (line 93, defaulted).  Returns the new wrapper and
`other` afterwards. -/
def ShapeTE.moveCtor {setup : TypeErasureSetup} (other : ShapeTE U setup) :
    ShapeTE U setup × ShapeTE U setup :=
  (⟨other.base.moveCtor.1, other.common.moveCtor.1⟩,
    ⟨other.base.moveCtor.2, other.common.moveCtor.2⟩)

/-- The copy assignment (line 95, defaulted): the base is assigned, then the
trampolines.  An exception from the base leaves the trampolines unassigned. -/
def ShapeTE.copyAssign (ops : ∀ u, Conforming (El u)) (same : Bool) {setup : TypeErasureSetup}
    (self other : ShapeTE U setup) (σ : World U El) :
    Outcome (ShapeTE U setup × World U El) (ShapeTE U setup × World U El) :=
  match BaseTE.copyAssign ops same self.base other.base σ with
  | .ok (b, σ1) => .ok (⟨b, ShapeTECommon.copyAssign self.common other.common⟩, σ1)
  | .threw e (b, σ1) => .threw e (⟨b, self.common⟩, σ1)
  | .undefined => .undefined
  | .rejected => .rejected

/-- The move assignment (line 96, defaulted).  Returns `*this`, `other` and
the world afterwards; `none` is undefined behaviour. -/
def ShapeTE.moveAssign (ops : ∀ u, Conforming (El u)) (same : Bool) {setup : TypeErasureSetup}
    (self other : ShapeTE U setup) (σ : World U El) :
    Option (ShapeTE U setup × ShapeTE U setup × World U El) :=
  match BaseTE.moveAssign ops same self.base other.base σ with
  | none => none
  | some (b, ob, σ1) =>
    some (⟨b, (ShapeTECommon.moveAssign same self.common other.common).1⟩,
      ⟨ob, (ShapeTECommon.moveAssign same self.common other.common).2⟩, σ1)

/-- The destructor (implicit).  `none` is undefined behaviour. -/
def ShapeTE.dtor (ops : ∀ u, Conforming (El u)) {setup : TypeErasureSetup}
    (self : ShapeTE U setup) (σ : World U El) : Option (World U El) :=
  BaseTE.dtor ops self.base σ

/-- The member `draw() const` (line 98): `mDrawFunction(rawPtrAccess())`. -/
def ShapeTE.draw (ops : ∀ u, Conforming (El u)) {setup : TypeErasureSetup}
    (self : ShapeTE U setup) (σ : World U El) : Outcome (World U El) (World U El) :=
  match self.base.rawPtrAccess true with
  | none => .rejected
  | some (_, p) => self.common.mDrawFunction.call (fun f => f.invoke ops p σ) σ

/-- The friend `draw(const ShapeTE&)` (line 99):
`shape.mDrawFreeFunction(shape.rawPtrAccess())`. -/
def ShapeTE.drawFree (ops : ∀ u, Conforming (El u)) {setup : TypeErasureSetup}
    (shape : ShapeTE U setup) (σ : World U El) : Outcome (World U El) (World U El) :=
  match shape.base.rawPtrAccess true with
  | none => .rejected
  | some (_, p) => shape.common.mDrawFreeFunction.call (fun f => f.invoke ops p σ) σ

/-- The member `setName` (lines 101-105 and 112-116) called on a wrapper of the
given constness: the call is resolved against the member overloads, and the
selected body passes `rawPtrAccess()` to `mSetNameFunction`, which takes a
`void*`. -/
def ShapeTE.setName (ops : ∀ u, Conforming (El u)) {setup : TypeErasureSetup}
    (self : ShapeTE U setup) (objConst : Bool) (value : String) (σ : World U El) :
    Outcome (World U El) (World U El) :=
  match resolveOverload memberSetNameOverloads (deriveConstPropagation setup) objConst with
  | none => .rejected
  | some o =>
    match self.base.rawPtrAccess o.constThis with
    | some (.mutablePtr, p) =>
      self.common.mSetNameFunction.call (fun f => f.invoke ops p value σ) σ
    | _ => .rejected

/-- The friend `setName` (lines 106-110 and 117-121) called on a wrapper of the
given constness: as the member, against the friend overloads and through
`mSetNameFreeFunction`. -/
def ShapeTE.setNameFree (ops : ∀ u, Conforming (El u)) {setup : TypeErasureSetup}
    (shape : ShapeTE U setup) (objConst : Bool) (value : String) (σ : World U El) :
    Outcome (World U El) (World U El) :=
  match resolveOverload friendSetNameOverloads (deriveConstPropagation setup) objConst with
  | none => .rejected
  | some o =>
    match shape.base.rawPtrAccess o.constThis with
    | some (.mutablePtr, p) =>
      shape.common.mSetNameFreeFunction.call (fun f => f.invoke ops p value σ) σ
    | _ => .rejected

end Shape

/-! ## main.cpp: Square -/

/-- The struct `Square` (main.cpp, lines 6-19). -/
structure Square where
  name : String
  sideLength : Int
  deriving DecidableEq, Repr

/-- The member `Square::draw() const` (line 10). -/
def Square.draw (sq : Square) : List Item :=
  [.str "Square ", .str sq.name, .str " ", .int sq.sideLength, .str " draw\n"]

/-- The member `Square::setName` (line 11). -/
def Square.setName (sq : Square) (value : String) : Square :=
  ⟨value, sq.sideLength⟩

/-- The friend `draw(const Square&)` (lines 13-15). -/
def Square.drawFree (square : Square) : List Item :=
  [.str "Square ", .str square.name, .str " ", .int square.sideLength, .str " draw free\n"]

/-- The friend `setName(Square&, std::string)` (line 16). -/
def Square.setNameFree (square : Square) (value : String) : Square :=
  ⟨value, square.sideLength⟩

/-- The destructor `Square::~Square()` (line 18). -/
def Square.dtor (sq : Square) : List Item :=
  [.str "Square ", .str sq.name, .str " ", .int sq.sideLength, .str " destroyed\n"]

/-- The concrete types of main.cpp. -/
inductive MainType
  | square
  deriving DecidableEq, Repr

/-- The carrier of each concrete type of main.cpp. -/
@[reducible]
def MainEl : MainType → Type
  | .square => Square

/-- The operations each concrete type of main.cpp provides. -/
def mainOps : ∀ u, Conforming (MainEl u)
  | .square => ⟨Square.draw, Square.drawFree, Square.setName, Square.setNameFree, Square.dtor⟩

/-- The object `sq` of main.cpp, line 22. -/
def mySquare : Square := ⟨"MySquare", 3⟩

/-- A world holding `sq` at address 0, before anything has been printed, in
which two allocations can succeed. -/
def mainWorld : World MainType MainEl :=
  ⟨[some ⟨.square, mySquare⟩], 2, []⟩

/-- The wrapper `shape` of main.cpp, line 27, as constructed from `sq` in
`mainWorld`: its copy of `sq` is at address 1. -/
def mainShape : ShapeTE MainType .Owning :=
  ⟨⟨⟨some 1, createDeleter .square⟩, ⟨some (createDuplicator .square)⟩⟩,
    ShapeTECommon.ctor .square⟩

/-- The world after `shape` has been constructed in `mainWorld`. -/
def mainWorldShape : World MainType MainEl :=
  ⟨[some ⟨.square, mySquare⟩, some ⟨.square, mySquare⟩], 1, []⟩

/-- The wrapper `shapeRef` of main.cpp, line 28, constructed on `sq`. -/
def mainShapeRef : ShapeTE MainType .Ref :=
  ⟨⟨some 0, ⟨⟩⟩, ShapeTECommon.ctor .square⟩

/-- The wrapper `shapeConstRef` of main.cpp, line 29, constructed on `sq`. -/
def mainShapeConstRef : ShapeTE MainType .ConstRef :=
  ⟨⟨some 0, ⟨⟩⟩, ShapeTECommon.ctor .square⟩

/-- The value the wrapper `assign` of main.cpp, line 67, is constructed from. -/
def anotherSquare : Square := ⟨"AnotherSquare", 4⟩

/-- The wrapper `assign` of main.cpp, line 67, holding its value at address 2. -/
def mainAssign : ShapeTE MainType .Owning :=
  ⟨⟨⟨some 2, createDeleter .square⟩, ⟨some (createDuplicator .square)⟩⟩,
    ShapeTECommon.ctor .square⟩

/-- A world holding `sq`, the value of `shape` and the value of `assign`, in
which one allocation can succeed. -/
def mainWorldAssign : World MainType MainEl :=
  ⟨[some ⟨.square, mySquare⟩, some ⟨.square, mySquare⟩, some ⟨.square, anotherSquare⟩], 1, []⟩

/-- The world `mainWorldAssign` after the value of `assign` has been destroyed. -/
def mainWorldAssigned : World MainType MainEl :=
  ⟨[some ⟨.square, mySquare⟩, some ⟨.square, mySquare⟩, none], 2, anotherSquare.dtor⟩

/-! ## Vocabulary of the statements -/

section Vocabulary

variable {U : Type} [DecidableEq U] {El : U → Type}

/-- The base of a wrapper stores the address `a` and, for Owning, the deleter
and the duplicator captured for the concrete type `u`. -/
def BaseTE.CapturedFor : {setup : TypeErasureSetup} → BaseTE U setup → U → Addr → Prop
  | .Owning, b, u, a =>
    b.mData = ⟨some a, createDeleter u⟩ ∧ b.mDuplicator = ⟨some (createDuplicator u)⟩
  | .Ref, b, _, a => b.mData = some a
  | .ConstRef, b, _, a => b.mData = some a

/-- The wrapper holds (Owning) or refers to (Ref, ConstRef) the value `v` of
concrete type `u`, stored at address `a`, with everything captured for `u`. -/
def ShapeTE.Wraps {setup : TypeErasureSetup} (w : ShapeTE U setup) (σ : World U El) (u : U)
    (a : Addr) (v : El u) : Prop :=
  w.base.CapturedFor u a ∧ w.common = ShapeTECommon.ctor u ∧ σ.derefAs u (some a) = some v

/-- The non-owning wrappers of the object of type `u` at address `r`: those
constructed on it, and the copies of such wrappers. -/
inductive RefersTo (El : U → Type) (u : U) (r : Addr) :
    {setup : TypeErasureSetup} → ShapeTE U setup → Prop
  | constructed {setup : TypeErasureSetup} (w : ShapeTE U setup) (σ σ1 : World U El) :
      setup ≠ .Owning → ShapeTE.ctor setup u r σ = .ok (w, σ1) → RefersTo El u r w
  | copied {setup : TypeErasureSetup} (w c : ShapeTE U setup) (σ σ1 : World U El) :
      RefersTo El u r w → ShapeTE.copyCtor w σ = .ok (c, σ1) → RefersTo El u r c

/-- The slot of an Owning wrapper is empty or holds a live object that its
deleter was captured for, so that the slot can be destroyed or replaced. -/
def ShapeTE.Disposable (w : ShapeTE U .Owning) (σ : World U El) : Prop :=
  OwningPtrType.ptr w.base.mData = none ∨
    ∃ u a v, w.base.mData = ⟨some a, createDeleter u⟩ ∧ σ.derefAs u (some a) = some v

end Vocabulary

/-! ## Programs: sequences of public operations on several wrappers -/

/-- A wrapper of some storage mode. -/
abbrev AnyShape (U : Type) := Sigma (ShapeTE U)

/-- The state of a program: the world and its wrapper objects, indexed in the
order of their construction; a wrapper is `none` once it has been destroyed. -/
structure State (U : Type) (El : U → Type) where
  world : World U El
  wrappers : List (Option (AnyShape U))

/-- The public operations of the wrappers, applied to wrapper objects named by
their index (non-const objects), and to objects named by their address. -/
inductive Op (U : Type)
  | construct (setup : TypeErasureSetup) (u : U) (r : Addr)
  | copyConstruct (src : Nat)
  | moveConstruct (src : Nat)
  | copyAssign (dst src : Nat)
  | moveAssign (dst src : Nat)
  | draw (w : Nat)
  | drawFree (w : Nat)
  | setName (w : Nat) (value : String)
  | setNameFree (w : Nat) (value : String)
  | destroy (w : Nat)
  deriving DecidableEq, Repr

/-- Whether the operation moves from a wrapper. -/
def Op.isMove {U : Type} : Op U → Bool
  | .moveConstruct _ => true
  | .moveAssign _ _ => true
  | _ => false

/-- The trampoline slots after they have been moved from: all null. -/
def ShapeTECommon.null (U : Type) : ShapeTECommon U :=
  ⟨⟨none⟩, ⟨none⟩, ⟨none⟩, ⟨none⟩⟩

/-- Whether all four trampoline slots hold a function. -/
def ShapeTECommon.allSet {U : Type} (c : ShapeTECommon U) : Bool :=
  c.mDrawFunction.mPtr.isSome && c.mDrawFreeFunction.mPtr.isSome &&
    c.mSetNameFunction.mPtr.isSome && c.mSetNameFreeFunction.mPtr.isSome

section Programs

variable {U : Type} [DecidableEq U] {El : U → Type}

/-- The live wrapper object of a given index. -/
def State.wrapper? (st : State U El) (i : Nat) : Option (AnyShape U) :=
  (st.wrappers[i]?).join

/-- The state in which no wrapper has been constructed yet. -/
def State.init (σ : World U El) : State U El := ⟨σ, []⟩

/-- Lift the outcome of an operation that only changes the world. -/
def State.liftWorld (st : State U El) :
    Outcome (World U El) (World U El) → Outcome (State U El) (State U El)
  | .ok σ1 => .ok ⟨σ1, st.wrappers⟩
  | .threw e σ1 => .threw e ⟨σ1, st.wrappers⟩
  | .undefined => .undefined
  | .rejected => .rejected

/-- Lift the outcome of a constructor: the new wrapper gets the next index; an
exception leaves no new wrapper. -/
def State.liftCtor (st : State U El) {setup : TypeErasureSetup} :
    Outcome (World U El) (ShapeTE U setup × World U El) → Outcome (State U El) (State U El)
  | .ok (w, σ1) => .ok ⟨σ1, st.wrappers ++ [some ⟨setup, w⟩]⟩
  | .threw e σ1 => .threw e ⟨σ1, st.wrappers⟩
  | .undefined => .undefined
  | .rejected => .rejected

/-- One operation of a program.  Using a wrapper that is not alive is
undefined; an operation between wrappers of different storage modes does not
compile. -/
def step (ops : ∀ u, Conforming (El u)) (st : State U El) : Op U →
    Outcome (State U El) (State U El)
  | .construct setup u r =>
    st.liftCtor (ShapeTE.ctor setup u r st.world)
  | .copyConstruct src =>
    match st.wrapper? src with
    | none => .undefined
    | some ⟨_, w⟩ => st.liftCtor (ShapeTE.copyCtor w st.world)
  | .moveConstruct src =>
    match st.wrapper? src with
    | none => .undefined
    | some ⟨setup, w⟩ =>
      .ok ⟨st.world, st.wrappers.set src (some ⟨setup, (ShapeTE.moveCtor w).2⟩) ++
        [some ⟨setup, (ShapeTE.moveCtor w).1⟩]⟩
  | .copyAssign dst src =>
    match st.wrapper? dst, st.wrapper? src with
    | some ⟨sd, d⟩, some ⟨ss, s⟩ =>
      if h : ss = sd then
        match ShapeTE.copyAssign ops (dst == src) d (h ▸ s) st.world with
        | .ok (d1, σ1) => .ok ⟨σ1, st.wrappers.set dst (some ⟨sd, d1⟩)⟩
        | .threw e (d1, σ1) => .threw e ⟨σ1, st.wrappers.set dst (some ⟨sd, d1⟩)⟩
        | .undefined => .undefined
        | .rejected => .rejected
      else .rejected
    | _, _ => .undefined
  | .moveAssign dst src =>
    match st.wrapper? dst, st.wrapper? src with
    | some ⟨sd, d⟩, some ⟨ss, s⟩ =>
      if h : ss = sd then
        match ShapeTE.moveAssign ops (dst == src) d (h ▸ s) st.world with
        | none => .undefined
        | some (d1, s1, σ1) =>
          .ok ⟨σ1, (st.wrappers.set src (some ⟨sd, s1⟩)).set dst (some ⟨sd, d1⟩)⟩
      else .rejected
    | _, _ => .undefined
  | .draw w =>
    match st.wrapper? w with
    | none => .undefined
    | some ⟨_, x⟩ => st.liftWorld (ShapeTE.draw ops x st.world)
  | .drawFree w =>
    match st.wrapper? w with
    | none => .undefined
    | some ⟨_, x⟩ => st.liftWorld (ShapeTE.drawFree ops x st.world)
  | .setName w value =>
    match st.wrapper? w with
    | none => .undefined
    | some ⟨_, x⟩ => st.liftWorld (ShapeTE.setName ops x false value st.world)
  | .setNameFree w value =>
    match st.wrapper? w with
    | none => .undefined
    | some ⟨_, x⟩ => st.liftWorld (ShapeTE.setNameFree ops x false value st.world)
  | .destroy w =>
    match st.wrapper? w with
    | none => .undefined
    | some ⟨_, x⟩ =>
      match ShapeTE.dtor ops x st.world with
      | none => .undefined
      | some σ1 => .ok ⟨σ1, st.wrappers.set w none⟩

/-- Run a sequence of operations.  An exception is caught and the program goes
on from the state the exception left; `none` when an operation is undefined
or does not compile. -/
def run (ops : ∀ u, Conforming (El u)) : State U El → List (Op U) → Option (State U El)
  | st, [] => some st
  | st, op :: rest =>
    match step ops st op with
    | .ok st1 => run ops st1 rest
    | .threw _ st1 => run ops st1 rest
    | .undefined => none
    | .rejected => none

end Programs

section VocabularyPrograms

variable {U : Type} {El : U → Type}

/-- Every wrapper object of the state, alive or not yet destroyed, has
trampoline slots with the property `P`. -/
def State.AllCommons (P : ShapeTECommon U → Prop) (st : State U El) : Prop :=
  ∀ w : AnyShape U, some w ∈ st.wrappers → P w.2.common

end VocabularyPrograms

/-! ## Objects of main.cpp as program states -/

/-- A world holding `sq` at address 0 in which one allocation can succeed. -/
def mainWorldOne : World MainType MainEl :=
  ⟨[some ⟨.square, mySquare⟩], 1, []⟩

/-- The program state after `Shape shape{sq};` in `mainWorld`. -/
def mainStateShape : State MainType MainEl :=
  ⟨mainWorldShape, [some ⟨.Owning, mainShape⟩]⟩

/-- The wrapper `shape` of main.cpp after it has been moved from. -/
def mainShapeMoved : ShapeTE MainType .Owning :=
  ⟨⟨⟨none, createDeleter .square⟩, ⟨some .noopDuplicator⟩⟩, ShapeTECommon.null MainType⟩

/-- The world after `shape` has been constructed in `mainWorldOne`: no further
allocation can succeed. -/
def mainWorldFull : World MainType MainEl :=
  ⟨[some ⟨.square, mySquare⟩, some ⟨.square, mySquare⟩], 0, []⟩

/-- The moved-from wrapper `shape` after a copy assignment into it has failed
with `std::bad_alloc`: null pointer, the duplicator of the source. -/
def mainShapeHalfAssigned : ShapeTE MainType .Owning :=
  ⟨⟨⟨none, createDeleter .square⟩, ⟨some (createDuplicator .square)⟩⟩,
    ShapeTECommon.null MainType⟩

/-! ## Vocabulary of the statements about programs -/

section VocabularyOwnership

variable {U : Type} [DecidableEq U] {El : U → Type}

/-- The concrete type of the live object at an address, if any. -/
def World.typeAt (σ : World U El) (a : Addr) : Option U :=
  (σ.load a).map Sigma.fst

/-- The allocation a wrapper holds: the stored pointer of an Owning wrapper;
a reference wrapper holds none. -/
def AnyShape.held : AnyShape U → Option Addr
  | ⟨.Owning, w⟩ => OwningPtrType.ptr w.base.mData
  | ⟨.Ref, _⟩ => none
  | ⟨.ConstRef, _⟩ => none

/-- The allocation held by the wrapper object of a given index, in a table of
wrapper objects. -/
def ownerOf (f : Nat → Option (AnyShape U)) (i : Nat) : Option Addr :=
  (f i).bind AnyShape.held

/-- The wrapper object `i` of the state is a live Owning wrapper whose stored
pointer is `a`. -/
def State.Holds (st : State U El) (i : Nat) (a : Addr) : Prop :=
  ownerOf st.wrapper? i = some a

/-- What is required of an Owning wrapper in a world whose first `n0` cells are
externally owned.  Either its pointer is null, or it points to a live object
outside those cells and its deleter was captured for the type of that object.
When `strict` is set, moreover, an empty wrapper has the no-op duplicator and
null trampolines, and a wrapper holding an object has the duplicator and the
trampolines captured for the type of the object. -/
def ShapeTE.SoundOwning (strict : Bool) (n0 : Nat) (σ : World U El) (w : ShapeTE U .Owning) :
    Prop :=
  (OwningPtrType.ptr w.base.mData = none ∧
    (strict = true →
      w.base.mDuplicator = ⟨some .noopDuplicator⟩ ∧ w.common = ShapeTECommon.null U)) ∨
  (∃ u a, n0 ≤ a ∧ w.base.mData = ⟨some a, createDeleter u⟩ ∧ σ.typeAt a = some u ∧
    (strict = true →
      w.base.mDuplicator = ⟨some (createDuplicator u)⟩ ∧ w.common = ShapeTECommon.ctor u))

/-- What is required of a reference wrapper, given the world `σ0` of the
externally owned objects: its pointer is not null.  When `strict` is set,
moreover, its trampolines are null or were captured for the type of the
externally owned object it points to. -/
def ShapeTE.SoundRef (strict : Bool) (σ0 : World U El) {setup : TypeErasureSetup}
    (w : ShapeTE U setup) : Prop :=
  ∃ r, w.base.get = some r ∧
    (strict = true →
      w.common = ShapeTECommon.null U ∨
      ∃ u, w.common = ShapeTECommon.ctor u ∧ σ0.typeAt r = some u)

/-- What is required of a wrapper of any storage mode. -/
def AnyShape.Sound (strict : Bool) (σ0 σ : World U El) : AnyShape U → Prop
  | ⟨.Owning, w⟩ => w.SoundOwning strict σ0.cells.length σ
  | ⟨.Ref, w⟩ => w.SoundRef strict σ0
  | ⟨.ConstRef, w⟩ => w.SoundRef strict σ0

/-- The invariant of programs started in the world `σ0` with no wrappers, for a
world `σ` and a table `f` of wrapper objects: every wrapper is sound; no two
wrappers hold the same allocation; every live object outside the externally
owned cells is held by a wrapper; the externally owned objects are alive with
the type they had; and the store has not shrunk. -/
structure Coherent (strict : Bool) (σ0 σ : World U El) (f : Nat → Option (AnyShape U)) :
    Prop where
  each : ∀ i w, f i = some w → w.Sound strict σ0 σ
  unique : ∀ i j a, ownerOf f i = some a → ownerOf f j = some a → i = j
  heldBy : ∀ a, σ0.cells.length ≤ a → (σ.typeAt a).isSome = true → ∃ i, ownerOf f i = some a
  external : ∀ r u, σ0.typeAt r = some u → σ.typeAt r = some u
  length : σ0.cells.length ≤ σ.cells.length

/-- The invariant, for a state. -/
def State.Coherent (strict : Bool) (σ0 : World U El) (st : State U El) : Prop :=
  TypeErasure.Coherent strict σ0 st.world st.wrapper?

/-- The operation constructs reference wrappers only on externally owned
objects, under their own type. -/
def Op.onExternal (σ0 : World U El) : Op U → Prop
  | .construct setup u r => setup ≠ .Owning → σ0.typeAt r = some u
  | _ => True

/-- Whether no operation of the run fails with `std::bad_alloc`. -/
def allocationSucceeds (ops : ∀ u, Conforming (El u)) : State U El → List (Op U) → Bool
  | _, [] => true
  | st, op :: rest =>
    match step ops st op with
    | .ok st1 => allocationSucceeds ops st1 rest
    | .threw e st1 => e != .bad_alloc && allocationSucceeds ops st1 rest
    | .undefined => true
    | .rejected => true

/-- The operation is applied to a reference wrapper (MutableRef or ConstRef):
it constructs one, or its first operand is one. -/
def Op.onReference (st : State U El) : Op U → Prop
  | .construct setup _ _ => setup ≠ .Owning
  | .copyConstruct i => ∃ w, st.wrapper? i = some w ∧ w.1 ≠ .Owning
  | .moveConstruct i => ∃ w, st.wrapper? i = some w ∧ w.1 ≠ .Owning
  | .copyAssign i _ => ∃ w, st.wrapper? i = some w ∧ w.1 ≠ .Owning
  | .moveAssign i _ => ∃ w, st.wrapper? i = some w ∧ w.1 ≠ .Owning
  | .draw i => ∃ w, st.wrapper? i = some w ∧ w.1 ≠ .Owning
  | .drawFree i => ∃ w, st.wrapper? i = some w ∧ w.1 ≠ .Owning
  | .setName i _ => ∃ w, st.wrapper? i = some w ∧ w.1 ≠ .Owning
  | .setNameFree i _ => ∃ w, st.wrapper? i = some w ∧ w.1 ≠ .Owning
  | .destroy i => ∃ w, st.wrapper? i = some w ∧ w.1 ≠ .Owning

end VocabularyOwnership

section VocabularySteps

variable {U : Type} [DecidableEq U] {El : U → Type}

/-- The outcome of an operation keeps the invariant: the state it completes
with is coherent, and so is the state an exception leaves; with `strict`,
exceptions other than `std::bad_alloc` only. -/
def Preserved (strict : Bool) (σ0 : World U El) (o : Outcome (State U El) (State U El)) :
    Prop :=
  (∀ st1, o = .ok st1 → st1.Coherent strict σ0) ∧
  (∀ e st1, o = .threw e st1 → (strict = true → e ≠ .bad_alloc) → st1.Coherent strict σ0)

end VocabularySteps

section VocabularyRelease

variable {U : Type} {El : U → Type}

/-- The allocation whose holder an operation destroys, or assigns to from
another wrapper object: the allocation held by the wrapper object `destroy`
is applied to, and by the left operand of an assignment that is not a
self-assignment. -/
def Op.releases (st : State U El) : Op U → Option Addr
  | .destroy i => ownerOf st.wrapper? i
  | .copyAssign dst src => if dst = src then none else ownerOf st.wrapper? dst
  | .moveAssign dst src => if dst = src then none else ownerOf st.wrapper? dst
  | _ => none

/-- The objects of the store `σ` in the store `σ1`: the one at `rel` is no
longer alive, the others are alive or not as before, with the type they had. -/
def World.ReleasedOnly (σ σ1 : World U El) (rel : Option Addr) : Prop :=
  ∀ a, a < σ.cells.length → σ1.typeAt a = if rel = some a then none else σ.typeAt a

end VocabularyRelease

section VocabularyReleaseSteps

variable {U : Type} {El : U → Type}

/-- The outcome of an operation started in the store `σ` has released `rel`
only if it completes, and nothing if it throws. -/
def Releasing (σ : World U El) (rel : Option Addr) (o : Outcome (State U El) (State U El)) :
    Prop :=
  (∀ st1, o = .ok st1 → World.ReleasedOnly σ st1.world rel) ∧
  (∀ e st1, o = .threw e st1 → World.ReleasedOnly σ st1.world none)

end VocabularyReleaseSteps

/-! # Theorems -/

/-! ## The object store -/

section StoreLemmas

variable {U : Type} {El : U → Type}

theorem Obj.castTo_mk [DecidableEq U] (u : U) (v : El u) :
    Obj.castTo (⟨u, v⟩ : Obj U El) u = some v := by
  simp [Obj.castTo]

theorem World.load_lt {σ : World U El} {a : Addr} {o : Obj U El} (h : σ.load a = some o) :
    a < σ.cells.length := by
  unfold World.load at h
  by_contra hlt
  have : σ.cells[a]? = none := List.getElem?_eq_none (Nat.le_of_not_lt hlt)
  simp [this] at h

theorem World.derefAs_some [DecidableEq U] {σ : World U El} {u : U} {a : Addr} {v : El u} :
    σ.derefAs u (some a) = some v ↔ σ.load a = some ⟨u, v⟩ := by
  cases hl : σ.load a with
  | none => simp [World.derefAs, hl]
  | some o =>
    obtain ⟨u1, v1⟩ := o
    by_cases hu : u1 = u
    · subst hu
      simp [World.derefAs, hl, Obj.castTo]
    · simp only [World.derefAs, hl, Obj.castTo, hu, dite_false]
      constructor
      · intro h
        cases h
      · intro h
        injection h with h
        injection h with h1 h2
        exact absurd h1 hu

theorem World.derefAs_lt [DecidableEq U] {σ : World U El} {u : U} {a : Addr} {v : El u}
    (h : σ.derefAs u (some a) = some v) : a < σ.cells.length :=
  World.load_lt (World.derefAs_some.mp h)

theorem World.load_print (σ : World U El) (out : List Item) (a : Addr) :
    (σ.print out).load a = σ.load a := rfl

theorem World.load_alloc_old (σ : World U El) (o : Obj U El) {a : Addr}
    (h : a < σ.cells.length) : (σ.alloc o).2.load a = σ.load a := by
  simp [World.load, World.alloc, List.getElem?_append_left h]

theorem World.load_alloc_new (σ : World U El) (o : Obj U El) :
    (σ.alloc o).2.load (σ.alloc o).1 = some o := by
  simp [World.load, World.alloc]

theorem World.load_store_same (σ : World U El) (o : Obj U El) {a : Addr}
    (h : a < σ.cells.length) : (σ.store a o).load a = some o := by
  simp [World.load, World.store, h]

theorem World.load_store_other (σ : World U El) (o : Obj U El) {a b : Addr} (h : b ≠ a) :
    (σ.store b o).load a = σ.load a := by
  simp [World.load, World.store, List.getElem?_set_ne h]

theorem World.load_free_other (σ : World U El) {a b : Addr} (h : b ≠ a) :
    (σ.free b).load a = σ.load a := by
  simp [World.load, World.free, List.getElem?_set_ne h]

theorem World.derefAs_congr [DecidableEq U] {σ τ : World U El} {a : Addr}
    (h : τ.load a = σ.load a) (u : U) :
    τ.derefAs u (some a) = σ.derefAs u (some a) := by
  simp [World.derefAs, h]

end StoreLemmas

/-! ## The objects of main.cpp -/

/-- The wrapper `mainShape` and the world `mainWorldShape` are what
`Shape shape{sq}` produces in `mainWorld`. -/
theorem mainShape_constructed :
    ShapeTE.ctor .Owning MainType.square 0 mainWorld = .ok (mainShape, mainWorldShape) := rfl

/-- The wrapper `mainShapeRef` is what `ShapeRef shapeRef{sq}` produces. -/
theorem mainShapeRef_constructed :
    ShapeTE.ctor .Ref MainType.square 0 mainWorld = .ok (mainShapeRef, mainWorld) := rfl

/-- The wrapper `mainShapeConstRef` is what `ShapeConstRef shapeConstRef{sq}`
produces. -/
theorem mainShapeConstRef_constructed :
    ShapeTE.ctor .ConstRef MainType.square 0 mainWorld = .ok (mainShapeConstRef, mainWorld) :=
  rfl

/-- The draw calls of main.cpp, lines 31-37: all three wrappers write what
`sq.draw()` and `draw(sq)` write. -/
theorem main_draws :
    ShapeTE.draw mainOps mainShape mainWorldShape =
      .ok (mainWorldShape.print mySquare.draw) ∧
    ShapeTE.draw mainOps mainShapeRef mainWorldShape =
      .ok (mainWorldShape.print mySquare.draw) ∧
    ShapeTE.draw mainOps mainShapeConstRef mainWorldShape =
      .ok (mainWorldShape.print mySquare.draw) ∧
    ShapeTE.drawFree mainOps mainShape mainWorldShape =
      .ok (mainWorldShape.print mySquare.drawFree) ∧
    ShapeTE.drawFree mainOps mainShapeRef mainWorldShape =
      .ok (mainWorldShape.print mySquare.drawFree) ∧
    ShapeTE.drawFree mainOps mainShapeConstRef mainWorldShape =
      .ok (mainWorldShape.print mySquare.drawFree) :=
  ⟨rfl, rfl, rfl, rfl, rfl, rfl⟩

/-! ## Dispatch through a wrapper -/

section Dispatch

variable {U : Type} [DecidableEq U] {El : U → Type}

omit [DecidableEq U] in
theorem BaseTE.get_of_capturedFor {setup : TypeErasureSetup} {b : BaseTE U setup} {u : U}
    {a : Addr} (h : b.CapturedFor u a) : b.get = some a := by
  cases setup with
  | Owning =>
    obtain ⟨h1, _⟩ := h
    simp [BaseTE.get, h1]
  | Ref => exact h
  | ConstRef => exact h

theorem ShapeTE.draw_eq (ops : ∀ u, Conforming (El u)) {setup : TypeErasureSetup}
    (w : ShapeTE U setup) (σ : World U El) :
    ShapeTE.draw ops w σ = w.common.mDrawFunction.call (fun f => f.invoke ops w.base.get σ) σ := by
  cases setup <;> rfl

theorem ShapeTE.drawFree_eq (ops : ∀ u, Conforming (El u)) {setup : TypeErasureSetup}
    (w : ShapeTE U setup) (σ : World U El) :
    ShapeTE.drawFree ops w σ =
      w.common.mDrawFreeFunction.call (fun f => f.invoke ops w.base.get σ) σ := by
  cases setup <;> rfl

theorem ShapeTE.setName_eq (ops : ∀ u, Conforming (El u)) {setup : TypeErasureSetup}
    (w : ShapeTE U setup) (objConst : Bool) (value : String) (σ : World U El) :
    ShapeTE.setName ops w objConst value σ =
      if setNameAccepted memberSetNameOverloads setup objConst then
        w.common.mSetNameFunction.call (fun f => f.invoke ops w.base.get value σ) σ
      else .rejected := by
  cases setup <;> cases objConst <;> rfl

theorem ShapeTE.setNameFree_eq (ops : ∀ u, Conforming (El u)) {setup : TypeErasureSetup}
    (w : ShapeTE U setup) (objConst : Bool) (value : String) (σ : World U El) :
    ShapeTE.setNameFree ops w objConst value σ =
      if setNameAccepted friendSetNameOverloads setup objConst then
        w.common.mSetNameFreeFunction.call (fun f => f.invoke ops w.base.get value σ) σ
      else .rejected := by
  cases setup <;> cases objConst <;> rfl

theorem ShapeTE.Wraps.draw (ops : ∀ u, Conforming (El u)) {setup : TypeErasureSetup}
    {w : ShapeTE U setup} {σ : World U El} {u : U} {a : Addr} {v : El u}
    (h : w.Wraps σ u a v) : ShapeTE.draw ops w σ = .ok (σ.print ((ops u).draw v)) := by
  obtain ⟨hb, hc, hv⟩ := h
  rw [ShapeTE.draw_eq, BaseTE.get_of_capturedFor hb, hc]
  simp [ShapeTECommon.ctor, FunctionPtr.call, createDrawFunction, DrawSignature.invoke,
    Concrete.draw, hv]

theorem ShapeTE.Wraps.drawFree (ops : ∀ u, Conforming (El u)) {setup : TypeErasureSetup}
    {w : ShapeTE U setup} {σ : World U El} {u : U} {a : Addr} {v : El u}
    (h : w.Wraps σ u a v) : ShapeTE.drawFree ops w σ = .ok (σ.print ((ops u).drawFree v)) := by
  obtain ⟨hb, hc, hv⟩ := h
  rw [ShapeTE.drawFree_eq, BaseTE.get_of_capturedFor hb, hc]
  simp [ShapeTECommon.ctor, FunctionPtr.call, createDrawFreeFunction, DrawSignature.invoke,
    Concrete.drawFree, hv]

theorem ShapeTE.Wraps.setName (ops : ∀ u, Conforming (El u)) {setup : TypeErasureSetup}
    {w : ShapeTE U setup} {σ : World U El} {u : U} {a : Addr} {v : El u}
    (h : w.Wraps σ u a v) (objConst : Bool)
    (hacc : setNameAccepted memberSetNameOverloads setup objConst = true) (value : String) :
    ShapeTE.setName ops w objConst value σ =
      .ok (σ.store a ⟨u, (ops u).setName v value⟩) := by
  obtain ⟨hb, hc, hv⟩ := h
  rw [ShapeTE.setName_eq, BaseTE.get_of_capturedFor hb, hc, if_pos hacc]
  simp [ShapeTECommon.ctor, FunctionPtr.call, createSetNameFunction, SetNameSignature.invoke,
    Concrete.setName, hv]

theorem ShapeTE.Wraps.setNameFree (ops : ∀ u, Conforming (El u)) {setup : TypeErasureSetup}
    {w : ShapeTE U setup} {σ : World U El} {u : U} {a : Addr} {v : El u}
    (h : w.Wraps σ u a v) (objConst : Bool)
    (hacc : setNameAccepted friendSetNameOverloads setup objConst = true) (value : String) :
    ShapeTE.setNameFree ops w objConst value σ =
      .ok (σ.store a ⟨u, (ops u).setNameFree v value⟩) := by
  obtain ⟨hb, hc, hv⟩ := h
  rw [ShapeTE.setNameFree_eq, BaseTE.get_of_capturedFor hb, hc, if_pos hacc]
  simp [ShapeTECommon.ctor, FunctionPtr.call, createSetNameFreeFunction,
    SetNameSignature.invoke, Concrete.setNameFree, hv]

/-- A wrapper keeps wrapping its value in any world that has the same object
at the wrapper's address. -/
theorem ShapeTE.Wraps.transport {setup : TypeErasureSetup} {w : ShapeTE U setup}
    {σ τ : World U El} {u : U} {a : Addr} {v : El u} (h : w.Wraps σ u a v)
    (hl : τ.load a = σ.load a) : w.Wraps τ u a v :=
  ⟨h.1, h.2.1, (World.derefAs_congr hl u).trans h.2.2⟩

theorem ShapeTE.ctor_owning {u : U} {r : Addr} {v : El u} {σ : World U El}
    (hv : σ.derefAs u (some r) = some v) (hb : σ.budget ≠ 0) :
    ∃ w : ShapeTE U .Owning, ShapeTE.ctor .Owning u r σ = .ok (w, (σ.alloc ⟨u, v⟩).2) ∧
      w.Wraps (σ.alloc ⟨u, v⟩).2 u σ.cells.length v := by
  refine ⟨⟨⟨⟨some σ.cells.length, createDeleter u⟩, ⟨some (createDuplicator u)⟩⟩,
    ShapeTECommon.ctor u⟩, ?_, ⟨rfl, rfl⟩, rfl, ?_⟩
  · simp [ShapeTE.ctor, BaseTE.ctorOwning, hb, hv, World.alloc]
  · exact World.derefAs_some.mpr (World.load_alloc_new σ ⟨u, v⟩)

theorem ShapeTE.ctor_nonOwning {setup : TypeErasureSetup} (hs : setup ≠ .Owning) (u : U)
    (r : Addr) (σ : World U El) :
    ∃ w : ShapeTE U setup, ShapeTE.ctor setup u r σ = .ok (w, σ) ∧
      w.base.CapturedFor u r ∧ w.common = ShapeTECommon.ctor u := by
  cases setup with
  | Owning => exact absurd rfl hs
  | Ref => exact ⟨_, rfl, rfl, rfl⟩
  | ConstRef => exact ⟨_, rfl, rfl, rfl⟩

end Dispatch

/-! ## C1 -/

section C1

variable {U : Type} [DecidableEq U] {El : U → Type}

/-- C1: for every conforming concrete value `v` of type `u` (the object at
address `r`) and every storage mode, construction of a wrapper from it
succeeds (for Owning, when `new` can allocate), and on the fresh wrapper the
member form of draw writes exactly what `v.draw()` writes and the free form
writes exactly what `draw(v)` writes; for the reference modes this is the
direct call on the object itself, for Owning the wrapper addresses a copy of
`v` made at construction, distinct from the object. -/
theorem C1_fresh_wrapper_dispatches (ops : ∀ u, Conforming (El u)) (setup : TypeErasureSetup)
    (u : U) (r : Addr) (v : El u) (σ : World U El)
    (hv : σ.derefAs u (some r) = some v) (hb : setup = .Owning → σ.budget ≠ 0) :
    ∃ (w : ShapeTE U setup) (σ1 : World U El),
      ShapeTE.ctor setup u r σ = .ok (w, σ1) ∧
      ShapeTE.draw ops w σ1 = .ok (σ1.print ((ops u).draw v)) ∧
      ShapeTE.drawFree ops w σ1 = .ok (σ1.print ((ops u).drawFree v)) ∧
      ShapeTE.draw ops w σ1 = Concrete.draw ops u (some r) σ1 ∧
      ShapeTE.drawFree ops w σ1 = Concrete.drawFree ops u (some r) σ1 ∧
      (setup ≠ .Owning → w.base.get = some r ∧ σ1 = σ) ∧
      (setup = .Owning → w.base.get ≠ some r ∧ σ1.derefAs u w.base.get = some v) := by
  by_cases hs : setup = .Owning
  · subst hs
    obtain ⟨w, hw, hwr⟩ := ShapeTE.ctor_owning hv (hb rfl)
    have hr : (σ.alloc ⟨u, v⟩).2.derefAs u (some r) = some v :=
      (World.derefAs_congr (World.load_alloc_old σ ⟨u, v⟩ (World.derefAs_lt hv)) u).trans hv
    have hg : w.base.get = some σ.cells.length := BaseTE.get_of_capturedFor hwr.1
    refine ⟨w, _, hw, hwr.draw ops, hwr.drawFree ops, ?_, ?_, fun h => absurd rfl h, fun _ => ?_⟩
    · rw [hwr.draw ops]; simp [Concrete.draw, hr]
    · rw [hwr.drawFree ops]; simp [Concrete.drawFree, hr]
    · rw [hg]
      refine ⟨?_, hwr.2.2⟩
      intro h
      have h1 : σ.cells.length = r := Option.some.inj h
      have h2 : r < σ.cells.length := World.derefAs_lt hv
      rw [h1] at h2
      exact Nat.lt_irrefl _ h2
  · obtain ⟨w, hw, hcap, hcom⟩ := ShapeTE.ctor_nonOwning hs u r σ
    have hwr : w.Wraps σ u r v := ⟨hcap, hcom, hv⟩
    refine ⟨w, σ, hw, hwr.draw ops, hwr.drawFree ops, ?_, ?_,
      fun _ => ⟨BaseTE.get_of_capturedFor hcap, rfl⟩, fun h => absurd h hs⟩
    · rw [hwr.draw ops]; simp [Concrete.draw, hv]
    · rw [hwr.drawFree ops]; simp [Concrete.drawFree, hv]

/-- C1 at `sq` of main.cpp wrapped as `Shape`. -/
theorem C1_fresh_wrapper_dispatches_witness :
    mainWorld.derefAs MainType.square (some 0) = some mySquare ∧
    (TypeErasureSetup.Owning = .Owning → mainWorld.budget ≠ 0) ∧
    ∃ (w : ShapeTE MainType .Owning) (σ1 : World MainType MainEl),
      ShapeTE.ctor .Owning MainType.square 0 mainWorld = .ok (w, σ1) ∧
      ShapeTE.draw mainOps w σ1 = .ok (σ1.print ((mainOps .square).draw mySquare)) ∧
      ShapeTE.drawFree mainOps w σ1 = .ok (σ1.print ((mainOps .square).drawFree mySquare)) ∧
      ShapeTE.draw mainOps w σ1 = Concrete.draw mainOps .square (some 0) σ1 ∧
      ShapeTE.drawFree mainOps w σ1 = Concrete.drawFree mainOps .square (some 0) σ1 ∧
      (TypeErasureSetup.Owning ≠ .Owning → w.base.get = some 0 ∧ σ1 = mainWorld) ∧
      (TypeErasureSetup.Owning = .Owning →
        w.base.get ≠ some 0 ∧ σ1.derefAs .square w.base.get = some mySquare) :=
  ⟨rfl, fun _ => by decide,
    C1_fresh_wrapper_dispatches mainOps .Owning .square 0 mySquare mainWorld rfl
      (fun _ => by decide)⟩

end C1

/-! ## Owning wrappers: copying, mutating, destroying -/

section OwningLemmas

variable {U : Type} [DecidableEq U] {El : U → Type}

omit [DecidableEq U] in
theorem World.load_free_same (σ : World U El) (a : Addr) : (σ.free a).load a = none := by
  by_cases h : a < σ.cells.length
  · simp [World.load, World.free, h]
  · have hn : (σ.cells.set a none)[a]? = none :=
      List.getElem?_eq_none (by rw [List.length_set]; exact Nat.le_of_not_lt h)
    simp [World.load, World.free, hn]

/-- Copy construction of an Owning wrapper that holds a value allocates a new
cell holding an equal value and captures the same functions. -/
theorem ShapeTE.Wraps.copyCtor {w : ShapeTE U .Owning} {σ : World U El} {u : U} {a : Addr}
    {v : El u} (h : w.Wraps σ u a v) (hb : σ.budget ≠ 0) :
    ∃ c : ShapeTE U .Owning, ShapeTE.copyCtor w σ = .ok (c, (σ.alloc ⟨u, v⟩).2) ∧
      c.Wraps (σ.alloc ⟨u, v⟩).2 u σ.cells.length v ∧ w.Wraps (σ.alloc ⟨u, v⟩).2 u a v ∧
      c.base.mDuplicator = w.base.mDuplicator ∧ c.common = w.common := by
  obtain ⟨⟨hd, hdup⟩, hc, hv⟩ := h
  refine ⟨⟨⟨⟨some σ.cells.length, createDeleter u⟩, ⟨some (createDuplicator u)⟩⟩,
    ShapeTECommon.ctor u⟩, ?_, ⟨⟨rfl, rfl⟩, rfl, ?_⟩, ⟨⟨hd, hdup⟩, hc, ?_⟩, hdup.symm, hc.symm⟩
  · obtain ⟨⟨md, mdup⟩, com⟩ := w
    simp only at hd hdup hc
    subst hd hdup hc
    simp [ShapeTE.copyCtor, BaseTE.copyCtor, FunctionPtr.call, DuplicatorSignature.invoke,
      createDuplicator, hb, hv, World.alloc, createDeleter]
  · exact World.derefAs_some.mpr (World.load_alloc_new σ ⟨u, v⟩)
  · exact (World.derefAs_congr (World.load_alloc_old σ ⟨u, v⟩ (World.derefAs_lt hv)) u).trans hv

/-- Destroying an Owning wrapper that holds a value runs the destructor of the
value and releases its cell. -/
theorem ShapeTE.Wraps.dtor (ops : ∀ u, Conforming (El u)) {w : ShapeTE U .Owning}
    {σ : World U El} {u : U} {a : Addr} {v : El u} (h : w.Wraps σ u a v) :
    ShapeTE.dtor ops w σ = some ((σ.print ((ops u).dtor v)).free a) := by
  obtain ⟨⟨hd, _⟩, _, hv⟩ := h
  simp [ShapeTE.dtor, BaseTE.dtor, OwningPtrType.dtor, hd, Deleter.invoke, createDeleter,
    Concrete.delete, hv]

/-- Overwriting the value of one object leaves a wrapper of another object as
it is. -/
theorem ShapeTE.Wraps.store_other {setup : TypeErasureSetup} {w : ShapeTE U setup}
    {σ : World U El} {u : U} {a : Addr} {v : El u} (h : w.Wraps σ u a v) {b : Addr}
    (hne : b ≠ a) (o : Obj U El) : w.Wraps (σ.store b o) u a v :=
  h.transport (World.load_store_other σ o hne)

/-- Overwriting the value of the wrapped object with a value of the same type
makes the wrapper wrap the new value. -/
theorem ShapeTE.Wraps.store_same {setup : TypeErasureSetup} {w : ShapeTE U setup}
    {σ : World U El} {u : U} {a : Addr} {v : El u} (h : w.Wraps σ u a v) (v1 : El u) :
    w.Wraps (σ.store a ⟨u, v1⟩) u a v1 :=
  ⟨h.1, h.2.1, World.derefAs_some.mpr (World.load_store_same σ _ (World.derefAs_lt h.2.2))⟩

/-- Destroying another object leaves a wrapper as it is. -/
theorem ShapeTE.Wraps.free_other {setup : TypeErasureSetup} {w : ShapeTE U setup}
    {σ : World U El} {u : U} {a : Addr} {v : El u} (h : w.Wraps σ u a v) {b : Addr}
    (hne : b ≠ a) (out : List Item) : w.Wraps ((σ.print out).free b) u a v :=
  h.transport ((World.load_free_other (σ.print out) hne).trans (World.load_print σ out a))

end OwningLemmas

/-! ## C2 -/

section C2

variable {U : Type} [DecidableEq U] {El : U → Type}

/-- C2: for every Owning wrapper `w` holding a value `v` (at address `a`), copy
construction (when `new` can allocate) gives a wrapper `c` holding an equal
value in a different cell `a1`, whose draw, in both forms, gives the same
result as that of `w`; afterwards `setName` on `c` (member or free form)
changes the value of `c` only, so `w` still holds `v` and still draws `v`;
`setName` on `w` leaves `c` holding and drawing `v`; destroying `c` releases
the cell of `c` only and `w` still holds `v`, and destroying `w` releases the
cell of `w` only and `c` still holds `v`. -/
theorem C2_owning_copy_is_independent (ops : ∀ u, Conforming (El u)) (w : ShapeTE U .Owning)
    (σ : World U El) (u : U) (a : Addr) (v : El u)
    (hw : w.Wraps σ u a v) (hb : σ.budget ≠ 0) :
    ∃ (c : ShapeTE U .Owning) (σ1 : World U El) (a1 : Addr),
      ShapeTE.copyCtor w σ = .ok (c, σ1) ∧ a1 ≠ a ∧
      w.Wraps σ1 u a v ∧ c.Wraps σ1 u a1 v ∧
      ShapeTE.draw ops c σ1 = ShapeTE.draw ops w σ1 ∧
      ShapeTE.drawFree ops c σ1 = ShapeTE.drawFree ops w σ1 ∧
      (∀ s, ∃ σ2, ShapeTE.setName ops c false s σ1 = .ok σ2 ∧
        c.Wraps σ2 u a1 ((ops u).setName v s) ∧ w.Wraps σ2 u a v ∧
        ShapeTE.draw ops w σ2 = .ok (σ2.print ((ops u).draw v))) ∧
      (∀ s, ∃ σ2, ShapeTE.setNameFree ops c false s σ1 = .ok σ2 ∧
        c.Wraps σ2 u a1 ((ops u).setNameFree v s) ∧ w.Wraps σ2 u a v ∧
        ShapeTE.draw ops w σ2 = .ok (σ2.print ((ops u).draw v))) ∧
      (∀ s, ∃ σ2, ShapeTE.setName ops w false s σ1 = .ok σ2 ∧
        w.Wraps σ2 u a ((ops u).setName v s) ∧ c.Wraps σ2 u a1 v ∧
        ShapeTE.draw ops c σ2 = .ok (σ2.print ((ops u).draw v))) ∧
      (∀ s, ∃ σ2, ShapeTE.setNameFree ops w false s σ1 = .ok σ2 ∧
        w.Wraps σ2 u a ((ops u).setNameFree v s) ∧ c.Wraps σ2 u a1 v ∧
        ShapeTE.draw ops c σ2 = .ok (σ2.print ((ops u).draw v))) ∧
      (∃ σ2, ShapeTE.dtor ops c σ1 = some σ2 ∧ σ2.load a1 = none ∧ w.Wraps σ2 u a v) ∧
      (∃ σ2, ShapeTE.dtor ops w σ1 = some σ2 ∧ σ2.load a = none ∧ c.Wraps σ2 u a1 v) := by
  obtain ⟨c, hcopy, hc, hw1, _, _⟩ := hw.copyCtor hb
  have hne : σ.cells.length ≠ a := Nat.ne_of_gt (World.derefAs_lt hw.2.2)
  refine ⟨c, _, σ.cells.length, hcopy, hne, hw1, hc, ?_, ?_, ?_, ?_, ?_, ?_, ?_, ?_⟩
  · rw [hc.draw ops, hw1.draw ops]
  · rw [hc.drawFree ops, hw1.drawFree ops]
  · intro s
    have hw2 := hw1.store_other hne ⟨u, (ops u).setName v s⟩
    exact ⟨_, hc.setName ops false rfl s, hc.store_same _, hw2, hw2.draw ops⟩
  · intro s
    have hw2 := hw1.store_other hne ⟨u, (ops u).setNameFree v s⟩
    exact ⟨_, hc.setNameFree ops false rfl s, hc.store_same _, hw2, hw2.draw ops⟩
  · intro s
    have hc2 := hc.store_other hne.symm ⟨u, (ops u).setName v s⟩
    exact ⟨_, hw1.setName ops false rfl s, hw1.store_same _, hc2, hc2.draw ops⟩
  · intro s
    have hc2 := hc.store_other hne.symm ⟨u, (ops u).setNameFree v s⟩
    exact ⟨_, hw1.setNameFree ops false rfl s, hw1.store_same _, hc2, hc2.draw ops⟩
  · exact ⟨_, hc.dtor ops, World.load_free_same _ _, hw1.free_other hne _⟩
  · exact ⟨_, hw1.dtor ops, World.load_free_same _ _, hc.free_other hne.symm _⟩

/-- C2 at the wrapper `shape` of main.cpp, copied as in line 51. -/
theorem C2_owning_copy_is_independent_witness :
    mainShape.Wraps mainWorldShape .square 1 mySquare ∧ mainWorldShape.budget ≠ 0 ∧
    ∃ (c : ShapeTE MainType .Owning) (σ1 : World MainType MainEl) (a1 : Addr),
      ShapeTE.copyCtor mainShape mainWorldShape = .ok (c, σ1) ∧ a1 ≠ 1 ∧
      mainShape.Wraps σ1 .square 1 mySquare ∧ c.Wraps σ1 .square a1 mySquare ∧
      ShapeTE.draw mainOps c σ1 = ShapeTE.draw mainOps mainShape σ1 ∧
      ShapeTE.drawFree mainOps c σ1 = ShapeTE.drawFree mainOps mainShape σ1 ∧
      (∀ s, ∃ σ2, ShapeTE.setName mainOps c false s σ1 = .ok σ2 ∧
        c.Wraps σ2 .square a1 ((mainOps .square).setName mySquare s) ∧
        mainShape.Wraps σ2 .square 1 mySquare ∧
        ShapeTE.draw mainOps mainShape σ2 = .ok (σ2.print ((mainOps .square).draw mySquare))) ∧
      (∀ s, ∃ σ2, ShapeTE.setNameFree mainOps c false s σ1 = .ok σ2 ∧
        c.Wraps σ2 .square a1 ((mainOps .square).setNameFree mySquare s) ∧
        mainShape.Wraps σ2 .square 1 mySquare ∧
        ShapeTE.draw mainOps mainShape σ2 = .ok (σ2.print ((mainOps .square).draw mySquare))) ∧
      (∀ s, ∃ σ2, ShapeTE.setName mainOps mainShape false s σ1 = .ok σ2 ∧
        mainShape.Wraps σ2 .square 1 ((mainOps .square).setName mySquare s) ∧
        c.Wraps σ2 .square a1 mySquare ∧
        ShapeTE.draw mainOps c σ2 = .ok (σ2.print ((mainOps .square).draw mySquare))) ∧
      (∀ s, ∃ σ2, ShapeTE.setNameFree mainOps mainShape false s σ1 = .ok σ2 ∧
        mainShape.Wraps σ2 .square 1 ((mainOps .square).setNameFree mySquare s) ∧
        c.Wraps σ2 .square a1 mySquare ∧
        ShapeTE.draw mainOps c σ2 = .ok (σ2.print ((mainOps .square).draw mySquare))) ∧
      (∃ σ2, ShapeTE.dtor mainOps c σ1 = some σ2 ∧ σ2.load a1 = none ∧
        mainShape.Wraps σ2 .square 1 mySquare) ∧
      (∃ σ2, ShapeTE.dtor mainOps mainShape σ1 = some σ2 ∧ σ2.load 1 = none ∧
        c.Wraps σ2 .square a1 mySquare) :=
  ⟨⟨⟨rfl, rfl⟩, rfl, rfl⟩, by decide,
    C2_owning_copy_is_independent mainOps mainShape mainWorldShape .square 1 mySquare
      ⟨⟨rfl, rfl⟩, rfl, rfl⟩ (by decide)⟩

end C2

/-! ## C3 -/

section C3

variable {U : Type} [DecidableEq U] {El : U → Type}

/-- Every non-owning wrapper of an object, constructed or copied, stores the
address of that object and the trampolines of its type. -/
theorem RefersTo.captured {u : U} {r : Addr} {setup : TypeErasureSetup} {w : ShapeTE U setup}
    (h : RefersTo El u r w) :
    setup ≠ .Owning ∧ w.base.CapturedFor u r ∧ w.common = ShapeTECommon.ctor u := by
  induction h with
  | constructed w σ σ1 hs hc =>
    obtain ⟨w1, hw1, hcap, hcom⟩ := ShapeTE.ctor_nonOwning hs u r σ
    rw [hw1] at hc
    injection hc with hc
    injection hc with hc _
    subst hc
    exact ⟨hs, hcap, hcom⟩
  | copied w c σ σ1 hw hc ih =>
    obtain ⟨hs, hcap, hcom⟩ := ih
    cases setup with
    | Owning => exact absurd rfl hs
    | Ref =>
      simp only [ShapeTE.copyCtor, BaseTE.copyCtor] at hc
      injection hc with hc
      injection hc with hc _
      subst hc
      exact ⟨hs, hcap, hcom⟩
    | ConstRef =>
      simp only [ShapeTE.copyCtor, BaseTE.copyCtor] at hc
      injection hc with hc
      injection hc with hc _
      subst hc
      exact ⟨hs, hcap, hcom⟩

/-- C3: let `R` be an externally owned object of type `u` at address `r` with
value `v`, and `m` a MutableRef wrapper of `R` (constructed on `R`, or a copy
of such a wrapper).  The member `setName(s)` through `m` (const or not)
succeeds and changes `R` itself to `v.setName(s)`; afterwards `R` drawn
directly, and every MutableRef or ConstRef wrapper of `R`, constructed or
copied, drawn in either form, shows the new value.  The same holds for the
free form `setName(m, s)` on a non-const `m`, with the free `setName` of the
concrete type. -/
theorem C3_reference_wrappers_alias (ops : ∀ u, Conforming (El u)) (u : U) (r : Addr)
    (v : El u) (σ : World U El) (hR : σ.derefAs u (some r) = some v)
    (m : ShapeTE U .Ref) (hm : RefersTo El u r m) (objConst : Bool) (s : String) :
    (∃ σ1, ShapeTE.setName ops m objConst s σ = .ok σ1 ∧
      σ1.derefAs u (some r) = some ((ops u).setName v s) ∧
      Concrete.draw ops u (some r) σ1 = .ok (σ1.print ((ops u).draw ((ops u).setName v s))) ∧
      ∀ (setup : TypeErasureSetup) (w : ShapeTE U setup), RefersTo El u r w →
        ShapeTE.draw ops w σ1 = .ok (σ1.print ((ops u).draw ((ops u).setName v s))) ∧
        ShapeTE.drawFree ops w σ1 =
          .ok (σ1.print ((ops u).drawFree ((ops u).setName v s)))) ∧
    (∃ σ1, ShapeTE.setNameFree ops m false s σ = .ok σ1 ∧
      σ1.derefAs u (some r) = some ((ops u).setNameFree v s) ∧
      Concrete.draw ops u (some r) σ1 =
        .ok (σ1.print ((ops u).draw ((ops u).setNameFree v s))) ∧
      ∀ (setup : TypeErasureSetup) (w : ShapeTE U setup), RefersTo El u r w →
        ShapeTE.draw ops w σ1 = .ok (σ1.print ((ops u).draw ((ops u).setNameFree v s))) ∧
        ShapeTE.drawFree ops w σ1 =
          .ok (σ1.print ((ops u).drawFree ((ops u).setNameFree v s)))) := by
  obtain ⟨_, hcap, hcom⟩ := hm.captured
  have hmw : m.Wraps σ u r v := ⟨hcap, hcom, hR⟩
  have hacc : setNameAccepted memberSetNameOverloads .Ref objConst = true := by
    cases objConst <;> rfl
  constructor
  · have h1 := hmw.store_same ((ops u).setName v s)
    refine ⟨_, hmw.setName ops objConst hacc s, h1.2.2, ?_, ?_⟩
    · simp [Concrete.draw, h1.2.2]
    · intro setup w hw
      obtain ⟨_, hcapw, hcomw⟩ := hw.captured
      have hww : w.Wraps (σ.store r ⟨u, (ops u).setName v s⟩) u r ((ops u).setName v s) :=
        ⟨hcapw, hcomw, h1.2.2⟩
      exact ⟨hww.draw ops, hww.drawFree ops⟩
  · have h1 := hmw.store_same ((ops u).setNameFree v s)
    refine ⟨_, hmw.setNameFree ops false rfl s, h1.2.2, ?_, ?_⟩
    · simp [Concrete.draw, h1.2.2]
    · intro setup w hw
      obtain ⟨_, hcapw, hcomw⟩ := hw.captured
      have hww : w.Wraps (σ.store r ⟨u, (ops u).setNameFree v s⟩) u r
          ((ops u).setNameFree v s) := ⟨hcapw, hcomw, h1.2.2⟩
      exact ⟨hww.draw ops, hww.drawFree ops⟩

/-- C3 at `sq` of main.cpp and the wrapper `shapeRef` of line 28, renamed as
in line 105. -/
theorem C3_reference_wrappers_alias_witness :
    mainWorld.derefAs MainType.square (some 0) = some mySquare ∧
    RefersTo MainEl MainType.square 0 mainShapeRef ∧
    (∃ σ1, ShapeTE.setName mainOps mainShapeRef false "Käse" mainWorld = .ok σ1 ∧
      σ1.derefAs .square (some 0) = some ((mainOps .square).setName mySquare "Käse") ∧
      Concrete.draw mainOps .square (some 0) σ1 =
        .ok (σ1.print ((mainOps .square).draw ((mainOps .square).setName mySquare "Käse"))) ∧
      ∀ (setup : TypeErasureSetup) (w : ShapeTE MainType setup),
        RefersTo MainEl MainType.square 0 w →
        ShapeTE.draw mainOps w σ1 =
          .ok (σ1.print ((mainOps .square).draw ((mainOps .square).setName mySquare "Käse"))) ∧
        ShapeTE.drawFree mainOps w σ1 =
          .ok (σ1.print
            ((mainOps .square).drawFree ((mainOps .square).setName mySquare "Käse")))) ∧
    (∃ σ1, ShapeTE.setNameFree mainOps mainShapeRef false "Käse" mainWorld = .ok σ1 ∧
      σ1.derefAs .square (some 0) = some ((mainOps .square).setNameFree mySquare "Käse") ∧
      Concrete.draw mainOps .square (some 0) σ1 =
        .ok (σ1.print
          ((mainOps .square).draw ((mainOps .square).setNameFree mySquare "Käse"))) ∧
      ∀ (setup : TypeErasureSetup) (w : ShapeTE MainType setup),
        RefersTo MainEl MainType.square 0 w →
        ShapeTE.draw mainOps w σ1 =
          .ok (σ1.print
            ((mainOps .square).draw ((mainOps .square).setNameFree mySquare "Käse"))) ∧
        ShapeTE.drawFree mainOps w σ1 =
          .ok (σ1.print
            ((mainOps .square).drawFree ((mainOps .square).setNameFree mySquare "Käse")))) :=
  ⟨rfl, RefersTo.constructed mainShapeRef mainWorld mainWorld (by decide) rfl,
    C3_reference_wrappers_alias mainOps .square 0 mySquare mainWorld rfl mainShapeRef
      (RefersTo.constructed mainShapeRef mainWorld mainWorld (by decide) rfl) false "Käse"⟩

end C3

/-! ## C4 -/

section C4

variable {U : Type} [DecidableEq U] {El : U → Type}

theorem Concrete.setName_ok (ops : ∀ u, Conforming (El u)) {u : U} {r : Addr} {v : El u}
    {σ : World U El} (hR : σ.derefAs u (some r) = some v) (s : String) :
    Concrete.setName ops u (some r) s σ = .ok (σ.store r ⟨u, (ops u).setName v s⟩) := by
  simp [Concrete.setName, hR]

theorem Concrete.setNameFree_ok (ops : ∀ u, Conforming (El u)) {u : U} {r : Addr} {v : El u}
    {σ : World U El} (hR : σ.derefAs u (some r) = some v) (s : String) :
    Concrete.setNameFree ops u (some r) s σ = .ok (σ.store r ⟨u, (ops u).setNameFree v s⟩) := by
  simp [Concrete.setNameFree, hR]

/-- C4: let `R` be an object of type `u` at address `r` with value `v`.  An
Owning wrapper `o`, a MutableRef wrapper `m` and a ConstRef wrapper `k` can be
constructed from `R` (when `new` can allocate), and `o` holds a copy of `v` in
a cell other than `r`.  Changing `R` directly (member or free `setName`) or
through `m` (member or free form) overwrites the object at `r` and nothing
else.  Whatever value `v1` the object at `r` is overwritten with, `R`, `m` and
`k` then draw `v1`, in both forms, while `o` still draws `v`.  And `setName` on
`o` (member or free form) leaves `R` with the value `v`. -/
theorem C4_owning_wrapper_independent_of_source (ops : ∀ u, Conforming (El u)) (u : U)
    (r : Addr) (v : El u) (σ : World U El)
    (hR : σ.derefAs u (some r) = some v) (hb : σ.budget ≠ 0) :
    ∃ (o : ShapeTE U .Owning) (m : ShapeTE U .Ref) (k : ShapeTE U .ConstRef)
      (σ1 : World U El) (a : Addr),
      ShapeTE.ctor .Owning u r σ = .ok (o, σ1) ∧
      ShapeTE.ctor .Ref u r σ1 = .ok (m, σ1) ∧
      ShapeTE.ctor .ConstRef u r σ1 = .ok (k, σ1) ∧
      a ≠ r ∧ o.Wraps σ1 u a v ∧ m.Wraps σ1 u r v ∧ k.Wraps σ1 u r v ∧
      (∀ s,
        Concrete.setName ops u (some r) s σ1 = .ok (σ1.store r ⟨u, (ops u).setName v s⟩) ∧
        Concrete.setNameFree ops u (some r) s σ1 =
          .ok (σ1.store r ⟨u, (ops u).setNameFree v s⟩) ∧
        ShapeTE.setName ops m false s σ1 = .ok (σ1.store r ⟨u, (ops u).setName v s⟩) ∧
        ShapeTE.setNameFree ops m false s σ1 =
          .ok (σ1.store r ⟨u, (ops u).setNameFree v s⟩)) ∧
      (∀ v1 : El u,
        (σ1.store r ⟨u, v1⟩).derefAs u (some r) = some v1 ∧
        Concrete.draw ops u (some r) (σ1.store r ⟨u, v1⟩) =
          .ok ((σ1.store r ⟨u, v1⟩).print ((ops u).draw v1)) ∧
        Concrete.drawFree ops u (some r) (σ1.store r ⟨u, v1⟩) =
          .ok ((σ1.store r ⟨u, v1⟩).print ((ops u).drawFree v1)) ∧
        ShapeTE.draw ops m (σ1.store r ⟨u, v1⟩) =
          .ok ((σ1.store r ⟨u, v1⟩).print ((ops u).draw v1)) ∧
        ShapeTE.drawFree ops m (σ1.store r ⟨u, v1⟩) =
          .ok ((σ1.store r ⟨u, v1⟩).print ((ops u).drawFree v1)) ∧
        ShapeTE.draw ops k (σ1.store r ⟨u, v1⟩) =
          .ok ((σ1.store r ⟨u, v1⟩).print ((ops u).draw v1)) ∧
        ShapeTE.drawFree ops k (σ1.store r ⟨u, v1⟩) =
          .ok ((σ1.store r ⟨u, v1⟩).print ((ops u).drawFree v1)) ∧
        ShapeTE.draw ops o (σ1.store r ⟨u, v1⟩) =
          .ok ((σ1.store r ⟨u, v1⟩).print ((ops u).draw v)) ∧
        ShapeTE.drawFree ops o (σ1.store r ⟨u, v1⟩) =
          .ok ((σ1.store r ⟨u, v1⟩).print ((ops u).drawFree v))) ∧
      (∀ s, ∃ σ3, ShapeTE.setName ops o false s σ1 = .ok σ3 ∧
        σ3.derefAs u (some r) = some v ∧
        ShapeTE.draw ops o σ3 = .ok (σ3.print ((ops u).draw ((ops u).setName v s)))) ∧
      (∀ s, ∃ σ3, ShapeTE.setNameFree ops o false s σ1 = .ok σ3 ∧
        σ3.derefAs u (some r) = some v ∧
        ShapeTE.draw ops o σ3 = .ok (σ3.print ((ops u).draw ((ops u).setNameFree v s)))) := by
  obtain ⟨o, ho, how⟩ := ShapeTE.ctor_owning hR hb
  have hne : σ.cells.length ≠ r := Nat.ne_of_gt (World.derefAs_lt hR)
  have hR1 : (σ.alloc ⟨u, v⟩).2.derefAs u (some r) = some v :=
    (World.derefAs_congr (World.load_alloc_old σ ⟨u, v⟩ (World.derefAs_lt hR)) u).trans hR
  obtain ⟨m, hm, hmcap, hmcom⟩ :=
    ShapeTE.ctor_nonOwning (show TypeErasureSetup.Ref ≠ .Owning by decide) u r (σ.alloc ⟨u, v⟩).2
  obtain ⟨k, hk, hkcap, hkcom⟩ :=
    ShapeTE.ctor_nonOwning (show TypeErasureSetup.ConstRef ≠ .Owning by decide) u r
      (σ.alloc ⟨u, v⟩).2
  have hmw : m.Wraps (σ.alloc ⟨u, v⟩).2 u r v := ⟨hmcap, hmcom, hR1⟩
  have hkw : k.Wraps (σ.alloc ⟨u, v⟩).2 u r v := ⟨hkcap, hkcom, hR1⟩
  refine ⟨o, m, k, _, σ.cells.length, ho, hm, hk, hne, how, hmw, hkw, ?_, ?_, ?_, ?_⟩
  · intro s
    exact ⟨Concrete.setName_ok ops hR1 s, Concrete.setNameFree_ok ops hR1 s,
      hmw.setName ops false rfl s, hmw.setNameFree ops false rfl s⟩
  · intro v1
    have hm1 := hmw.store_same v1
    have hk1 := hkw.store_same v1
    have ho1 := how.store_other hne.symm ⟨u, v1⟩
    refine ⟨hm1.2.2, ?_, ?_, hm1.draw ops, hm1.drawFree ops, hk1.draw ops, hk1.drawFree ops,
      ho1.draw ops, ho1.drawFree ops⟩
    · simp [Concrete.draw, hm1.2.2]
    · simp [Concrete.drawFree, hm1.2.2]
  · intro s
    refine ⟨_, how.setName ops false rfl s, ?_, (how.store_same _).draw ops⟩
    exact (World.derefAs_congr (World.load_store_other _ _ hne) u).trans hR1
  · intro s
    refine ⟨_, how.setNameFree ops false rfl s, ?_, (how.store_same _).draw ops⟩
    exact (World.derefAs_congr (World.load_store_other _ _ hne) u).trans hR1

/-- C4 at `sq` of main.cpp, wrapped as in lines 27-29. -/
theorem C4_owning_wrapper_independent_of_source_witness :
    mainWorld.derefAs MainType.square (some 0) = some mySquare ∧ mainWorld.budget ≠ 0 ∧
    ∃ (o : ShapeTE MainType .Owning) (m : ShapeTE MainType .Ref) (k : ShapeTE MainType .ConstRef)
      (σ1 : World MainType MainEl) (a : Addr),
      ShapeTE.ctor .Owning .square 0 mainWorld = .ok (o, σ1) ∧
      ShapeTE.ctor .Ref .square 0 σ1 = .ok (m, σ1) ∧
      ShapeTE.ctor .ConstRef .square 0 σ1 = .ok (k, σ1) ∧
      a ≠ 0 ∧ o.Wraps σ1 .square a mySquare ∧ m.Wraps σ1 .square 0 mySquare ∧ k.Wraps σ1 .square 0 mySquare ∧
      (∀ s,
        Concrete.setName mainOps .square (some 0) s σ1 = .ok (σ1.store 0 ⟨.square, (mainOps .square).setName mySquare s⟩) ∧
        Concrete.setNameFree mainOps .square (some 0) s σ1 =
          .ok (σ1.store 0 ⟨.square, (mainOps .square).setNameFree mySquare s⟩) ∧
        ShapeTE.setName mainOps m false s σ1 = .ok (σ1.store 0 ⟨.square, (mainOps .square).setName mySquare s⟩) ∧
        ShapeTE.setNameFree mainOps m false s σ1 =
          .ok (σ1.store 0 ⟨.square, (mainOps .square).setNameFree mySquare s⟩)) ∧
      (∀ v1 : Square,
        (σ1.store 0 ⟨.square, v1⟩).derefAs .square (some 0) = some v1 ∧
        Concrete.draw mainOps .square (some 0) (σ1.store 0 ⟨.square, v1⟩) =
          .ok ((σ1.store 0 ⟨.square, v1⟩).print ((mainOps .square).draw v1)) ∧
        Concrete.drawFree mainOps .square (some 0) (σ1.store 0 ⟨.square, v1⟩) =
          .ok ((σ1.store 0 ⟨.square, v1⟩).print ((mainOps .square).drawFree v1)) ∧
        ShapeTE.draw mainOps m (σ1.store 0 ⟨.square, v1⟩) =
          .ok ((σ1.store 0 ⟨.square, v1⟩).print ((mainOps .square).draw v1)) ∧
        ShapeTE.drawFree mainOps m (σ1.store 0 ⟨.square, v1⟩) =
          .ok ((σ1.store 0 ⟨.square, v1⟩).print ((mainOps .square).drawFree v1)) ∧
        ShapeTE.draw mainOps k (σ1.store 0 ⟨.square, v1⟩) =
          .ok ((σ1.store 0 ⟨.square, v1⟩).print ((mainOps .square).draw v1)) ∧
        ShapeTE.drawFree mainOps k (σ1.store 0 ⟨.square, v1⟩) =
          .ok ((σ1.store 0 ⟨.square, v1⟩).print ((mainOps .square).drawFree v1)) ∧
        ShapeTE.draw mainOps o (σ1.store 0 ⟨.square, v1⟩) =
          .ok ((σ1.store 0 ⟨.square, v1⟩).print ((mainOps .square).draw mySquare)) ∧
        ShapeTE.drawFree mainOps o (σ1.store 0 ⟨.square, v1⟩) =
          .ok ((σ1.store 0 ⟨.square, v1⟩).print ((mainOps .square).drawFree mySquare))) ∧
      (∀ s, ∃ σ3, ShapeTE.setName mainOps o false s σ1 = .ok σ3 ∧
        σ3.derefAs .square (some 0) = some mySquare ∧
        ShapeTE.draw mainOps o σ3 = .ok (σ3.print ((mainOps .square).draw ((mainOps .square).setName mySquare s)))) ∧
      (∀ s, ∃ σ3, ShapeTE.setNameFree mainOps o false s σ1 = .ok σ3 ∧
        σ3.derefAs .square (some 0) = some mySquare ∧
        ShapeTE.draw mainOps o σ3 = .ok (σ3.print ((mainOps .square).draw ((mainOps .square).setNameFree mySquare s)))) :=
  ⟨rfl, by decide,
    C4_owning_wrapper_independent_of_source mainOps .square 0 mySquare mainWorld rfl
      (by decide)⟩

end C4

/-! ## C5 -/

section C5

variable {U : Type} [DecidableEq U] {El : U → Type}

/-- Destroying a disposable slot succeeds and touches no cell but its own. -/
theorem OwningPtrType.dtor_frame (ops : ∀ u, Conforming (El u)) {p : OwningPtrType U}
    {σ : World U El}
    (h : p.ptr = none ∨ ∃ u a v, p = ⟨some a, createDeleter u⟩ ∧ σ.derefAs u (some a) = some v) :
    ∃ σ1, p.dtor ops σ = some σ1 ∧ ∀ b, p.ptr ≠ some b → σ1.load b = σ.load b := by
  rcases h with h | ⟨u, a, v, hp, hv⟩
  · exact ⟨σ, by simp [OwningPtrType.dtor, h], fun _ _ => rfl⟩
  · subst hp
    refine ⟨(σ.print ((ops u).dtor v)).free a, ?_, ?_⟩
    · simp [OwningPtrType.dtor, Deleter.invoke, createDeleter, Concrete.delete, hv]
    · intro b hb
      have hne : a ≠ b := fun e => hb (by rw [e])
      exact (World.load_free_other _ hne).trans (World.load_print σ _ b)

/-- A disposable slot stays disposable after an allocation. -/
theorem ShapeTE.Disposable.alloc {w : ShapeTE U .Owning} {σ : World U El}
    (h : w.Disposable σ) (o : Obj U El) : w.Disposable (σ.alloc o).2 := by
  rcases h with h | ⟨u, a, v, hp, hv⟩
  · exact Or.inl h
  · exact Or.inr ⟨u, a, v, hp,
      (World.derefAs_congr (World.load_alloc_old σ o (World.derefAs_lt hv)) u).trans hv⟩

/-- The address held by a disposable slot is an address of the store. -/
theorem ShapeTE.Disposable.lt {w : ShapeTE U .Owning} {σ : World U El}
    (h : w.Disposable σ) {b : Addr} (hb : OwningPtrType.ptr w.base.mData = some b) :
    b < σ.cells.length := by
  rcases h with h | ⟨u, a, v, hp, hv⟩
  · rw [h] at hb
    cases hb
  · rw [hp] at hb
    cases hb
    exact World.derefAs_lt hv

/-- Copy assignment between distinct Owning wrappers, the source holding a
value: the result of the call, step by step. -/
theorem ShapeTE.Wraps.copyAssign (ops : ∀ u, Conforming (El u)) {dst src : ShapeTE U .Owning}
    {σ : World U El} {u : U} {a : Addr} {v : El u} (hsrc : src.Wraps σ u a v)
    (hb : σ.budget ≠ 0) (hdst : dst.Disposable σ)
    (hne : OwningPtrType.ptr dst.base.mData ≠ some a) :
    ∃ (dst1 : ShapeTE U .Owning) (σ1 : World U El),
      ShapeTE.copyAssign ops false dst src σ = .ok (dst1, σ1) ∧
      dst1.Wraps σ1 u σ.cells.length v ∧ src.Wraps σ1 u a v ∧
      dst1.base.mDuplicator = src.base.mDuplicator ∧ dst1.common = src.common := by
  obtain ⟨σ1, hd, hframe⟩ := OwningPtrType.dtor_frame ops (hdst.alloc ⟨u, v⟩)
  have hlen : OwningPtrType.ptr dst.base.mData ≠ some σ.cells.length := by
    intro e
    exact Nat.lt_irrefl _ (hdst.lt e)
  obtain ⟨⟨hsd, hsdup⟩, hsc, hsv⟩ := hsrc
  have hnew : (σ.alloc ⟨u, v⟩).2.load σ.cells.length = some ⟨u, v⟩ := World.load_alloc_new σ _
  have hold : (σ.alloc ⟨u, v⟩).2.load a = σ.load a :=
    World.load_alloc_old σ _ (World.derefAs_lt hsv)
  refine ⟨⟨⟨⟨some σ.cells.length, createDeleter u⟩, ⟨some (createDuplicator u)⟩⟩, src.common⟩,
    σ1, ?_, ⟨⟨rfl, rfl⟩, hsc, ?_⟩, ⟨⟨hsd, hsdup⟩, hsc, ?_⟩, hsdup.symm, rfl⟩
  · obtain ⟨⟨smd, sdup⟩, scom⟩ := src
    obtain ⟨⟨dmd, ddup⟩, dcom⟩ := dst
    simp only at hsd hsdup hd
    subst hsd hsdup
    simp [ShapeTE.copyAssign, BaseTE.copyAssign, FunctionPtr.call, FunctionPtr.copyAssign,
      DuplicatorSignature.invoke, createDuplicator, hb, hsv, OwningPtrType.moveAssign,
      ShapeTECommon.copyAssign, createDeleter]
    rw [hd]
    simp [World.alloc]
  · exact World.derefAs_some.mpr ((hframe _ hlen).trans hnew)
  · exact (World.derefAs_congr ((hframe _ hne).trans hold) u).trans hsv

/-- C5: let `src` be an Owning wrapper holding the value `v` at address `a`,
and `dst` a different Owning wrapper, whose slot is empty or holds its own
live object.  Copy assignment `dst = src` succeeds (when `new` can allocate).
Afterwards `src` is unchanged and still holds `v` at `a`; `dst` holds an equal
value in a fresh cell other than `a`, and has the duplicator and the
trampolines of `src`; both draw the same; `setName` on `dst` (member or free
form) leaves `src` holding and drawing `v`, and `setName` on `src` leaves
`dst` holding and drawing `v`. -/
theorem C5_copy_assignment_deep_copies (ops : ∀ u, Conforming (El u))
    (dst src : ShapeTE U .Owning) (σ : World U El) (u : U) (a : Addr) (v : El u)
    (hsrc : src.Wraps σ u a v) (hb : σ.budget ≠ 0) (hdst : dst.Disposable σ)
    (hne : OwningPtrType.ptr dst.base.mData ≠ some a) :
    ∃ (dst1 : ShapeTE U .Owning) (σ1 : World U El) (a1 : Addr),
      ShapeTE.copyAssign ops false dst src σ = .ok (dst1, σ1) ∧ a1 ≠ a ∧
      src.Wraps σ1 u a v ∧ dst1.Wraps σ1 u a1 v ∧
      dst1.base.mDuplicator = src.base.mDuplicator ∧ dst1.common = src.common ∧
      ShapeTE.draw ops dst1 σ1 = ShapeTE.draw ops src σ1 ∧
      ShapeTE.drawFree ops dst1 σ1 = ShapeTE.drawFree ops src σ1 ∧
      (∀ s, ∃ σ2, ShapeTE.setName ops dst1 false s σ1 = .ok σ2 ∧
        dst1.Wraps σ2 u a1 ((ops u).setName v s) ∧ src.Wraps σ2 u a v ∧
        ShapeTE.draw ops src σ2 = .ok (σ2.print ((ops u).draw v))) ∧
      (∀ s, ∃ σ2, ShapeTE.setNameFree ops dst1 false s σ1 = .ok σ2 ∧
        dst1.Wraps σ2 u a1 ((ops u).setNameFree v s) ∧ src.Wraps σ2 u a v ∧
        ShapeTE.draw ops src σ2 = .ok (σ2.print ((ops u).draw v))) ∧
      (∀ s, ∃ σ2, ShapeTE.setName ops src false s σ1 = .ok σ2 ∧
        src.Wraps σ2 u a ((ops u).setName v s) ∧ dst1.Wraps σ2 u a1 v ∧
        ShapeTE.draw ops dst1 σ2 = .ok (σ2.print ((ops u).draw v))) ∧
      (∀ s, ∃ σ2, ShapeTE.setNameFree ops src false s σ1 = .ok σ2 ∧
        src.Wraps σ2 u a ((ops u).setNameFree v s) ∧ dst1.Wraps σ2 u a1 v ∧
        ShapeTE.draw ops dst1 σ2 = .ok (σ2.print ((ops u).draw v))) := by
  obtain ⟨dst1, σ1, hca, hd1, hs1, hdup, hcom⟩ := hsrc.copyAssign ops hb hdst hne
  have hne1 : σ.cells.length ≠ a := Nat.ne_of_gt (World.derefAs_lt hsrc.2.2)
  refine ⟨dst1, σ1, σ.cells.length, hca, hne1, hs1, hd1, hdup, hcom, ?_, ?_, ?_, ?_, ?_, ?_⟩
  · rw [hd1.draw ops, hs1.draw ops]
  · rw [hd1.drawFree ops, hs1.drawFree ops]
  · intro s
    have h2 := hs1.store_other hne1 ⟨u, (ops u).setName v s⟩
    exact ⟨_, hd1.setName ops false rfl s, hd1.store_same _, h2, h2.draw ops⟩
  · intro s
    have h2 := hs1.store_other hne1 ⟨u, (ops u).setNameFree v s⟩
    exact ⟨_, hd1.setNameFree ops false rfl s, hd1.store_same _, h2, h2.draw ops⟩
  · intro s
    have h2 := hd1.store_other hne1.symm ⟨u, (ops u).setName v s⟩
    exact ⟨_, hs1.setName ops false rfl s, hs1.store_same _, h2, h2.draw ops⟩
  · intro s
    have h2 := hd1.store_other hne1.symm ⟨u, (ops u).setNameFree v s⟩
    exact ⟨_, hs1.setNameFree ops false rfl s, hs1.store_same _, h2, h2.draw ops⟩

/-- C5 at the assignment `assign = uiM` of main.cpp, line 73. -/
theorem C5_copy_assignment_deep_copies_witness :
    mainShape.Wraps mainWorldAssign .square 1 mySquare ∧ mainWorldAssign.budget ≠ 0 ∧
    mainAssign.Disposable mainWorldAssign ∧
    OwningPtrType.ptr mainAssign.base.mData ≠ some 1 ∧
    ∃ (dst1 : ShapeTE MainType .Owning) (σ1 : World MainType MainEl) (a1 : Addr),
      ShapeTE.copyAssign mainOps false mainAssign mainShape mainWorldAssign = .ok (dst1, σ1) ∧ a1 ≠ 1 ∧
      mainShape.Wraps σ1 .square 1 mySquare ∧ dst1.Wraps σ1 .square a1 mySquare ∧
      dst1.base.mDuplicator = mainShape.base.mDuplicator ∧ dst1.common = mainShape.common ∧
      ShapeTE.draw mainOps dst1 σ1 = ShapeTE.draw mainOps mainShape σ1 ∧
      ShapeTE.drawFree mainOps dst1 σ1 = ShapeTE.drawFree mainOps mainShape σ1 ∧
      (∀ s, ∃ σ2, ShapeTE.setName mainOps dst1 false s σ1 = .ok σ2 ∧
        dst1.Wraps σ2 .square a1 ((mainOps .square).setName mySquare s) ∧ mainShape.Wraps σ2 .square 1 mySquare ∧
        ShapeTE.draw mainOps mainShape σ2 = .ok (σ2.print ((mainOps .square).draw mySquare))) ∧
      (∀ s, ∃ σ2, ShapeTE.setNameFree mainOps dst1 false s σ1 = .ok σ2 ∧
        dst1.Wraps σ2 .square a1 ((mainOps .square).setNameFree mySquare s) ∧ mainShape.Wraps σ2 .square 1 mySquare ∧
        ShapeTE.draw mainOps mainShape σ2 = .ok (σ2.print ((mainOps .square).draw mySquare))) ∧
      (∀ s, ∃ σ2, ShapeTE.setName mainOps mainShape false s σ1 = .ok σ2 ∧
        mainShape.Wraps σ2 .square 1 ((mainOps .square).setName mySquare s) ∧ dst1.Wraps σ2 .square a1 mySquare ∧
        ShapeTE.draw mainOps dst1 σ2 = .ok (σ2.print ((mainOps .square).draw mySquare))) ∧
      (∀ s, ∃ σ2, ShapeTE.setNameFree mainOps mainShape false s σ1 = .ok σ2 ∧
        mainShape.Wraps σ2 .square 1 ((mainOps .square).setNameFree mySquare s) ∧ dst1.Wraps σ2 .square a1 mySquare ∧
        ShapeTE.draw mainOps dst1 σ2 = .ok (σ2.print ((mainOps .square).draw mySquare))) :=
  ⟨⟨⟨rfl, rfl⟩, rfl, rfl⟩, by decide,
    Or.inr ⟨.square, 2, anotherSquare, rfl, rfl⟩, by decide,
    C5_copy_assignment_deep_copies mainOps mainAssign mainShape mainWorldAssign .square 1
      mySquare ⟨⟨rfl, rfl⟩, rfl, rfl⟩ (by decide)
      (Or.inr ⟨.square, 2, anotherSquare, rfl, rfl⟩) (by decide)⟩

end C5

/-! ## C6 -/

section C6

variable {U : Type} [DecidableEq U] {El : U → Type}

omit [DecidableEq U] in
/-- Move construction gives the new wrapper exactly the members the source had. -/
theorem ShapeTE.moveCtor_fst {setup : TypeErasureSetup} (src : ShapeTE U setup) :
    (ShapeTE.moveCtor src).1 = src := by
  cases setup <;> rfl

/-- Move assignment between distinct wrappers destroys what the destination
held and gives it exactly the members the source had; the source is left as
move construction leaves it. -/
theorem ShapeTE.moveAssign_distinct (ops : ∀ u, Conforming (El u)) {setup : TypeErasureSetup}
    (dst0 src : ShapeTE U setup) {σ σ0 : World U El} (hd : ShapeTE.dtor ops dst0 σ = some σ0) :
    ShapeTE.moveAssign ops false dst0 src σ = some (src, (ShapeTE.moveCtor src).2, σ0) := by
  cases setup with
  | Owning =>
    simp only [ShapeTE.dtor, BaseTE.dtor] at hd
    simp only [ShapeTE.moveAssign, BaseTE.moveAssign, OwningPtrType.moveAssign, hd]
    rfl
  | Ref =>
    simp only [ShapeTE.dtor, BaseTE.dtor] at hd
    injection hd with hd
    subst hd
    rfl
  | ConstRef =>
    simp only [ShapeTE.dtor, BaseTE.dtor] at hd
    injection hd with hd
    subst hd
    rfl

theorem ShapeTE.Wraps.setName_if (ops : ∀ u, Conforming (El u)) {setup : TypeErasureSetup}
    {w : ShapeTE U setup} {σ : World U El} {u : U} {a : Addr} {v : El u}
    (h : w.Wraps σ u a v) (objConst : Bool) (value : String) :
    ShapeTE.setName ops w objConst value σ =
      if setNameAccepted memberSetNameOverloads setup objConst then
        .ok (σ.store a ⟨u, (ops u).setName v value⟩)
      else .rejected := by
  by_cases hacc : setNameAccepted memberSetNameOverloads setup objConst = true
  · rw [if_pos hacc, h.setName ops objConst hacc]
  · rw [if_neg hacc, ShapeTE.setName_eq, if_neg hacc]

theorem ShapeTE.Wraps.setNameFree_if (ops : ∀ u, Conforming (El u)) {setup : TypeErasureSetup}
    {w : ShapeTE U setup} {σ : World U El} {u : U} {a : Addr} {v : El u}
    (h : w.Wraps σ u a v) (objConst : Bool) (value : String) :
    ShapeTE.setNameFree ops w objConst value σ =
      if setNameAccepted friendSetNameOverloads setup objConst then
        .ok (σ.store a ⟨u, (ops u).setNameFree v value⟩)
      else .rejected := by
  by_cases hacc : setNameAccepted friendSetNameOverloads setup objConst = true
  · rw [if_pos hacc, h.setNameFree ops objConst hacc]
  · rw [if_neg hacc, ShapeTE.setNameFree_eq, if_neg hacc]

/-- C6: let `src` be a wrapper of any storage mode that holds or refers to the
value `v` at address `a`.  Move construction from `src` gives a wrapper with
the storage, duplicator, deleter and trampolines `src` had, so that every
operation gives on it, in every world, the result it gives on `src` before the
move.  Move assignment of `src` into a different wrapper `dst0`, whose former
value can be destroyed and is not the object of `src`, destroys that former
value and gives the destination the members `src` had: draw in both forms
writes on it what it wrote on `src` before, and `setName` in both forms is
accepted in the same cases and overwrites the same object with the same value
as on `src` before. -/
theorem C6_move_preserves_behaviour (ops : ∀ u, Conforming (El u)) (setup : TypeErasureSetup)
    (src dst0 : ShapeTE U setup) (σ σ0 : World U El) (u : U) (a : Addr) (v : El u)
    (hsrc : src.Wraps σ u a v) (hd : ShapeTE.dtor ops dst0 σ = some σ0)
    (hfr : σ0.load a = σ.load a) :
    (∃ dst src1, ShapeTE.moveCtor src = (dst, src1) ∧
      dst.base = src.base ∧ dst.common = src.common ∧
      (∀ τ : World U El, ShapeTE.draw ops dst τ = ShapeTE.draw ops src τ) ∧
      (∀ τ : World U El, ShapeTE.drawFree ops dst τ = ShapeTE.drawFree ops src τ) ∧
      (∀ (c : Bool) (s : String) (τ : World U El),
        ShapeTE.setName ops dst c s τ = ShapeTE.setName ops src c s τ) ∧
      (∀ (c : Bool) (s : String) (τ : World U El),
        ShapeTE.setNameFree ops dst c s τ = ShapeTE.setNameFree ops src c s τ)) ∧
    (∃ dst src1, ShapeTE.moveAssign ops false dst0 src σ = some (dst, src1, σ0) ∧
      dst.base = src.base ∧ dst.common = src.common ∧ dst.Wraps σ0 u a v ∧
      ShapeTE.draw ops src σ = .ok (σ.print ((ops u).draw v)) ∧
      ShapeTE.draw ops dst σ0 = .ok (σ0.print ((ops u).draw v)) ∧
      ShapeTE.drawFree ops src σ = .ok (σ.print ((ops u).drawFree v)) ∧
      ShapeTE.drawFree ops dst σ0 = .ok (σ0.print ((ops u).drawFree v)) ∧
      (∀ (c : Bool) (s : String),
        ShapeTE.setName ops src c s σ =
          (if setNameAccepted memberSetNameOverloads setup c then
            .ok (σ.store a ⟨u, (ops u).setName v s⟩) else .rejected) ∧
        ShapeTE.setName ops dst c s σ0 =
          (if setNameAccepted memberSetNameOverloads setup c then
            .ok (σ0.store a ⟨u, (ops u).setName v s⟩) else .rejected)) ∧
      (∀ (c : Bool) (s : String),
        ShapeTE.setNameFree ops src c s σ =
          (if setNameAccepted friendSetNameOverloads setup c then
            .ok (σ.store a ⟨u, (ops u).setNameFree v s⟩) else .rejected) ∧
        ShapeTE.setNameFree ops dst c s σ0 =
          (if setNameAccepted friendSetNameOverloads setup c then
            .ok (σ0.store a ⟨u, (ops u).setNameFree v s⟩) else .rejected))) := by
  have h0 : src.Wraps σ0 u a v := hsrc.transport hfr
  constructor
  · refine ⟨(ShapeTE.moveCtor src).1, (ShapeTE.moveCtor src).2, rfl, ?_⟩
    rw [ShapeTE.moveCtor_fst]
    exact ⟨rfl, rfl, fun _ => rfl, fun _ => rfl, fun _ _ _ => rfl, fun _ _ _ => rfl⟩
  · exact ⟨src, (ShapeTE.moveCtor src).2, ShapeTE.moveAssign_distinct ops dst0 src hd, rfl, rfl,
      h0, hsrc.draw ops, h0.draw ops, hsrc.drawFree ops, h0.drawFree ops,
      fun c s => ⟨hsrc.setName_if ops c s, h0.setName_if ops c s⟩,
      fun c s => ⟨hsrc.setNameFree_if ops c s, h0.setNameFree_if ops c s⟩⟩

/-- C6 at the move assignment `assign = std::move(tmp)` of main.cpp, line 78,
with the wrapper `shape` in the place of `tmp`. -/
theorem C6_move_preserves_behaviour_witness :
    mainShape.Wraps mainWorldAssign .square 1 mySquare ∧
    ShapeTE.dtor mainOps mainAssign mainWorldAssign = some mainWorldAssigned ∧
    mainWorldAssigned.load 1 = mainWorldAssign.load 1 ∧
    (∃ dst src1, ShapeTE.moveCtor mainShape = (dst, src1) ∧
      dst.base = mainShape.base ∧ dst.common = mainShape.common ∧
      (∀ τ : World MainType MainEl, ShapeTE.draw mainOps dst τ = ShapeTE.draw mainOps mainShape τ) ∧
      (∀ τ : World MainType MainEl, ShapeTE.drawFree mainOps dst τ = ShapeTE.drawFree mainOps mainShape τ) ∧
      (∀ (c : Bool) (s : String) (τ : World MainType MainEl),
        ShapeTE.setName mainOps dst c s τ = ShapeTE.setName mainOps mainShape c s τ) ∧
      (∀ (c : Bool) (s : String) (τ : World MainType MainEl),
        ShapeTE.setNameFree mainOps dst c s τ = ShapeTE.setNameFree mainOps mainShape c s τ)) ∧
    (∃ dst src1, ShapeTE.moveAssign mainOps false mainAssign mainShape mainWorldAssign = some (dst, src1, mainWorldAssigned) ∧
      dst.base = mainShape.base ∧ dst.common = mainShape.common ∧ dst.Wraps mainWorldAssigned .square 1 mySquare ∧
      ShapeTE.draw mainOps mainShape mainWorldAssign = .ok (mainWorldAssign.print ((mainOps .square).draw mySquare)) ∧
      ShapeTE.draw mainOps dst mainWorldAssigned = .ok (mainWorldAssigned.print ((mainOps .square).draw mySquare)) ∧
      ShapeTE.drawFree mainOps mainShape mainWorldAssign = .ok (mainWorldAssign.print ((mainOps .square).drawFree mySquare)) ∧
      ShapeTE.drawFree mainOps dst mainWorldAssigned = .ok (mainWorldAssigned.print ((mainOps .square).drawFree mySquare)) ∧
      (∀ (c : Bool) (s : String),
        ShapeTE.setName mainOps mainShape c s mainWorldAssign =
          (if setNameAccepted memberSetNameOverloads .Owning c then
            .ok (mainWorldAssign.store 1 ⟨.square, (mainOps .square).setName mySquare s⟩) else .rejected) ∧
        ShapeTE.setName mainOps dst c s mainWorldAssigned =
          (if setNameAccepted memberSetNameOverloads .Owning c then
            .ok (mainWorldAssigned.store 1 ⟨.square, (mainOps .square).setName mySquare s⟩) else .rejected)) ∧
      (∀ (c : Bool) (s : String),
        ShapeTE.setNameFree mainOps mainShape c s mainWorldAssign =
          (if setNameAccepted friendSetNameOverloads .Owning c then
            .ok (mainWorldAssign.store 1 ⟨.square, (mainOps .square).setNameFree mySquare s⟩) else .rejected) ∧
        ShapeTE.setNameFree mainOps dst c s mainWorldAssigned =
          (if setNameAccepted friendSetNameOverloads .Owning c then
            .ok (mainWorldAssigned.store 1 ⟨.square, (mainOps .square).setNameFree mySquare s⟩) else .rejected))) :=
  ⟨⟨⟨rfl, rfl⟩, rfl, rfl⟩, rfl, rfl,
    C6_move_preserves_behaviour mainOps .Owning mainShape mainAssign mainWorldAssign
      mainWorldAssigned .square 1 mySquare ⟨⟨rfl, rfl⟩, rfl, rfl⟩ rfl rfl⟩

end C6

/-! ## C7 -/

section C7

variable {U : Type} [DecidableEq U] {El : U → Type}

/-- C7: let `src` be any Owning wrapper.  After move construction from `src`,
and likewise after move assignment of `src` into a different wrapper `dst0`
(whose former value can be destroyed), `src` is left with a null pointer and
with `noopDuplicator` as its duplicator.  Copy construction from the
moved-from wrapper succeeds in every world, leaves the world as it is (nothing
is allocated or read) and yields a wrapper with a null pointer and the no-op
duplicator.  Copy assignment from it into a different wrapper `d` succeeds
whenever the former value of `d` can be destroyed; the only effect on the
world is that destruction, and `d` ends with a null pointer and the no-op
duplicator. -/
theorem C7_moved_from_owning_is_empty (ops : ∀ u, Conforming (El u))
    (src dst0 : ShapeTE U .Owning) (σ σ0 : World U El)
    (hd : ShapeTE.dtor ops dst0 σ = some σ0) :
    ∃ e : ShapeTE U .Owning,
      (ShapeTE.moveCtor src).2 = e ∧
      (∃ dst, ShapeTE.moveAssign ops false dst0 src σ = some (dst, e, σ0)) ∧
      OwningPtrType.ptr e.base.mData = none ∧
      e.base.mDuplicator = ⟨some .noopDuplicator⟩ ∧
      (∀ τ : World U El, ∃ c : ShapeTE U .Owning,
        ShapeTE.copyCtor e τ = .ok (c, τ) ∧
        OwningPtrType.ptr c.base.mData = none ∧
        c.base.mDuplicator = ⟨some .noopDuplicator⟩) ∧
      (∀ (d : ShapeTE U .Owning) (τ τ0 : World U El), ShapeTE.dtor ops d τ = some τ0 →
        ∃ d1 : ShapeTE U .Owning,
          ShapeTE.copyAssign ops false d e τ = .ok (d1, τ0) ∧
          OwningPtrType.ptr d1.base.mData = none ∧
          d1.base.mDuplicator = ⟨some .noopDuplicator⟩) := by
  refine ⟨(ShapeTE.moveCtor src).2, rfl, ⟨src, ShapeTE.moveAssign_distinct ops dst0 src hd⟩,
    rfl, rfl, ?_, ?_⟩
  · intro τ
    exact ⟨_, rfl, rfl, rfl⟩
  · intro d τ τ0 hτ
    simp only [ShapeTE.dtor, BaseTE.dtor] at hτ
    refine ⟨⟨⟨⟨none, .noop⟩, ⟨some .noopDuplicator⟩⟩,
      ShapeTECommon.copyAssign d.common (ShapeTE.moveCtor src).2.common⟩, ?_, rfl, rfl⟩
    simp [ShapeTE.copyAssign, BaseTE.copyAssign, ShapeTE.moveCtor, BaseTE.moveCtor,
      FunctionPtr.moveCtor, FunctionPtr.copyAssign, FunctionPtr.call, duplicatorDefault,
      DuplicatorSignature.invoke, OwningPtrType.moveAssign, hτ]

/-- C7 at the wrapper `shape` of main.cpp as the source, and `assign` as the
destination of the move assignment. -/
theorem C7_moved_from_owning_is_empty_witness :
    ShapeTE.dtor mainOps mainAssign mainWorldAssign = some mainWorldAssigned ∧
    ∃ e : ShapeTE MainType .Owning,
      (ShapeTE.moveCtor mainShape).2 = e ∧
      (∃ dst, ShapeTE.moveAssign mainOps false mainAssign mainShape mainWorldAssign =
        some (dst, e, mainWorldAssigned)) ∧
      OwningPtrType.ptr e.base.mData = none ∧
      e.base.mDuplicator = ⟨some .noopDuplicator⟩ ∧
      (∀ τ : World MainType MainEl, ∃ c : ShapeTE MainType .Owning,
        ShapeTE.copyCtor e τ = .ok (c, τ) ∧
        OwningPtrType.ptr c.base.mData = none ∧
        c.base.mDuplicator = ⟨some .noopDuplicator⟩) ∧
      (∀ (d : ShapeTE MainType .Owning) (τ τ0 : World MainType MainEl),
        ShapeTE.dtor mainOps d τ = some τ0 →
        ∃ d1 : ShapeTE MainType .Owning,
          ShapeTE.copyAssign mainOps false d e τ = .ok (d1, τ0) ∧
          OwningPtrType.ptr d1.base.mData = none ∧
          d1.base.mDuplicator = ⟨some .noopDuplicator⟩) :=
  ⟨rfl, C7_moved_from_owning_is_empty mainOps mainShape mainAssign mainWorldAssign
    mainWorldAssigned rfl⟩

end C7

/-! ## C9 -/

section C9

variable {U : Type} [DecidableEq U] {El : U → Type}

theorem SetNameSignature.invoke_ne_rejected (ops : ∀ u, Conforming (El u))
    (f : SetNameSignature U) (p : Ptr) (value : String) (σ : World U El) :
    f.invoke ops p value σ ≠ .rejected := by
  cases f with
  | memberOf u =>
    simp only [SetNameSignature.invoke, Concrete.setName]
    split <;> simp
  | freeOf u =>
    simp only [SetNameSignature.invoke, Concrete.setNameFree]
    split <;> simp

theorem FunctionPtr.call_setName_ne_rejected (ops : ∀ u, Conforming (El u))
    (f : FunctionPtr (SetNameSignature U)) (p : Ptr) (value : String) (σ : World U El) :
    f.call (fun g => g.invoke ops p value σ) σ ≠ .rejected := by
  obtain ⟨_ | g⟩ := f
  · simp [FunctionPtr.call]
  · simpa [FunctionPtr.call] using SetNameSignature.invoke_ne_rejected ops g p value σ

/-- C9: for every storage mode and wrapper constness, the member form of
`setName` compiles exactly when `rawPtrAccess()` on that wrapper yields a
`void*`, that is when the policy is Bypass, or Propagate on a non-const
wrapper: never on a ConstRef wrapper, always on a MutableRef wrapper, and on
an Owning wrapper exactly when it is not const.  The call itself is rejected
exactly in the cases that do not compile. -/
theorem C9_member_setName_availability (ops : ∀ u, Conforming (El u))
    (setup : TypeErasureSetup) (objConst : Bool) :
    (setNameAccepted memberSetNameOverloads setup objConst = true ↔
      rawPtrAccessType setup objConst = some .mutablePtr) ∧
    (setNameAccepted memberSetNameOverloads setup objConst = true ↔
      (deriveConstPropagation setup = .Bypass ∨
        (deriveConstPropagation setup = .Propagate ∧ objConst = false))) ∧
    setNameAccepted memberSetNameOverloads .ConstRef objConst = false ∧
    setNameAccepted memberSetNameOverloads .Ref objConst = true ∧
    setNameAccepted memberSetNameOverloads .Owning objConst = !objConst ∧
    (∀ (w : ShapeTE U setup) (value : String) (σ : World U El),
      ShapeTE.setName ops w objConst value σ = .rejected ↔
        setNameAccepted memberSetNameOverloads setup objConst = false) := by
  refine ⟨?_, ?_, ?_, ?_, ?_, ?_⟩
  · cases setup <;> cases objConst <;> decide
  · cases setup <;> cases objConst <;> decide
  · cases objConst <;> rfl
  · cases objConst <;> rfl
  · cases objConst <;> rfl
  · intro w value σ
    rw [ShapeTE.setName_eq]
    by_cases hacc : setNameAccepted memberSetNameOverloads setup objConst = true
    · simp only [hacc, if_true]
      constructor
      · intro h
        exact absurd h (FunctionPtr.call_setName_ne_rejected ops _ _ _ _)
      · intro h
        cases h
    · simp only [hacc, if_false]
      simp

end C9

/-! ## C10 -/

/-- C10, as the code has it: the free form `setName(w, "Hallo")` on the const
MutableRef wrapper of `sq` is rejected, because no friend overload is viable
(the overload taking `ShapeTE&` does not bind a const wrapper and the overload
taking `const ShapeTE&` requires a policy other than Bypass), whereas the
member form `w.setName("Hallo")` on the same wrapper is accepted and renames
`sq`.  For a ConstRef wrapper and for a const Owning wrapper the overload
taking `const ShapeTE&` is selected, and the call is rejected only because its
body passes a `const void*` where a `void*` is needed.  On non-const
MutableRef and Owning wrappers both forms are accepted. -/
theorem C10_free_setName_rejects_const_mutableRef :
    setNameAccepted friendSetNameOverloads .Ref true = false ∧
    setNameAccepted memberSetNameOverloads .Ref true = true ∧
    (resolveOverload friendSetNameOverloads (deriveConstPropagation .Ref) true).isNone = true ∧
    ShapeTE.setNameFree mainOps mainShapeRef true "Hallo" mainWorld = .rejected ∧
    ShapeTE.setName mainOps mainShapeRef true "Hallo" mainWorld =
      .ok (mainWorld.store 0 ⟨.square, ⟨"Hallo", 3⟩⟩) ∧
    (∀ c, (resolveOverload friendSetNameOverloads (deriveConstPropagation .ConstRef) c).map
      (fun o => o.constThis) = some true) ∧
    (resolveOverload friendSetNameOverloads (deriveConstPropagation .Owning) true).map
      (fun o => o.constThis) = some true ∧
    (∀ c, setNameAccepted friendSetNameOverloads .ConstRef c = false) ∧
    setNameAccepted friendSetNameOverloads .Owning true = false ∧
    setNameAccepted friendSetNameOverloads .Ref false = true ∧
    setNameAccepted friendSetNameOverloads .Owning false = true := by
  refine ⟨rfl, rfl, rfl, rfl, rfl, ?_, rfl, ?_, rfl, rfl, rfl⟩
  · intro c
    cases c <;> rfl
  · intro c
    cases c <;> rfl

/-! ## C8 -/

section C8

variable {U : Type} [DecidableEq U] {El : U → Type}

omit [DecidableEq U] in
theorem State.wrapper?_mem {st : State U El} {i : Nat} {w : AnyShape U}
    (h : st.wrapper? i = some w) : some w ∈ st.wrappers := by
  unfold State.wrapper? at h
  cases hi : st.wrappers[i]? with
  | none => simp [hi] at h
  | some x =>
    rw [hi] at h
    simp only [Option.join] at h
    subst h
    exact List.getElem?_mem hi

theorem ShapeTE.ctor_common {setup : TypeErasureSetup} {u : U} {r : Addr} {σ σ1 : World U El}
    {w : ShapeTE U setup} (h : ShapeTE.ctor setup u r σ = .ok (w, σ1)) :
    w.common = ShapeTECommon.ctor u := by
  cases setup with
  | Owning =>
    simp only [ShapeTE.ctor] at h
    split at h <;> simp at h
    rw [← h.1]
  | Ref =>
    simp only [ShapeTE.ctor, BaseTE.ctorRef] at h
    simp at h
    rw [← h.1]
  | ConstRef =>
    simp only [ShapeTE.ctor, BaseTE.ctorRef] at h
    simp at h
    rw [← h.1]

theorem ShapeTE.copyCtor_common {setup : TypeErasureSetup} {σ σ1 : World U El}
    {w c : ShapeTE U setup} (h : ShapeTE.copyCtor w σ = .ok (c, σ1)) :
    c.common = w.common := by
  simp only [ShapeTE.copyCtor] at h
  split at h <;> simp at h
  rw [← h.1]

theorem ShapeTE.copyAssign_common (ops : ∀ u, Conforming (El u)) {setup : TypeErasureSetup}
    (same : Bool) (σ : World U El) (d s : ShapeTE U setup) :
    (∀ d1 σ1, ShapeTE.copyAssign ops same d s σ = .ok (d1, σ1) → d1.common = s.common) ∧
    (∀ e d1 σ1, ShapeTE.copyAssign ops same d s σ = .threw e (d1, σ1) →
      d1.common = d.common) := by
  constructor
  · intro d1 σ1 h
    simp only [ShapeTE.copyAssign] at h
    split at h <;> simp at h
    rw [← h.1]
    rfl
  · intro e d1 σ1 h
    simp only [ShapeTE.copyAssign] at h
    split at h <;> simp at h
    rw [← h.2.1]

theorem ShapeTE.moveAssign_common (ops : ∀ u, Conforming (El u)) {setup : TypeErasureSetup}
    {same : Bool} {σ σ1 : World U El} {d s d1 s1 : ShapeTE U setup}
    (h : ShapeTE.moveAssign ops same d s σ = some (d1, s1, σ1)) :
    (d1.common = d.common ∨ d1.common = s.common) ∧
    (s1.common = d.common ∨ s1.common = ShapeTECommon.null U) := by
  simp only [ShapeTE.moveAssign] at h
  split at h
  · cases h
  · simp only [Option.some.injEq, Prod.mk.injEq] at h
    obtain ⟨h1, h2, _⟩ := h
    rw [← h1, ← h2]
    cases same
    · exact ⟨Or.inr rfl, Or.inr rfl⟩
    · exact ⟨Or.inl rfl, Or.inl rfl⟩

omit [DecidableEq U] in
theorem State.AllCommons.append {P : ShapeTECommon U → Prop} {st : State U El}
    (h : st.AllCommons P) (σ1 : World U El) {x : AnyShape U} (hx : P x.2.common) :
    State.AllCommons P (⟨σ1, st.wrappers ++ [some x]⟩ : State U El) := by
  intro w hw
  simp only [List.mem_append, List.mem_singleton] at hw
  rcases hw with hw | hw
  · exact h w hw
  · cases hw
    exact hx

omit [DecidableEq U] in
theorem State.AllCommons.set {P : ShapeTECommon U → Prop} {st : State U El}
    (h : st.AllCommons P) (σ1 : World U El) (i : Nat) (x : Option (AnyShape U))
    (hx : ∀ y, x = some y → P y.2.common) :
    State.AllCommons P (⟨σ1, st.wrappers.set i x⟩ : State U El) := by
  intro w hw
  rcases List.mem_or_eq_of_mem_set hw with hw | hw
  · exact h w hw
  · exact hx w hw.symm

omit [DecidableEq U] in
theorem State.AllCommons.of_wrappers_eq {P : ShapeTECommon U → Prop} {st st1 : State U El}
    (h : st.AllCommons P) (he : st1.wrappers = st.wrappers) : st1.AllCommons P := by
  intro w hw
  rw [he] at hw
  exact h w hw

omit [DecidableEq U] in
theorem State.liftWorld_wrappers {st : State U El} {o : Outcome (World U El) (World U El)} :
    (∀ st1, st.liftWorld o = .ok st1 → st1.wrappers = st.wrappers) ∧
    (∀ e st1, st.liftWorld o = .threw e st1 → st1.wrappers = st.wrappers) := by
  cases o with
  | ok σ1 =>
    refine ⟨fun st1 h => ?_, fun e st1 h => (by cases h)⟩
    cases h
    rfl
  | threw e σ1 =>
    refine ⟨fun st1 h => (by cases h), fun e1 st1 h => ?_⟩
    cases h
    rfl
  | undefined => exact ⟨fun st1 h => (by cases h), fun e1 st1 h => (by cases h)⟩
  | rejected => exact ⟨fun st1 h => (by cases h), fun e1 st1 h => (by cases h)⟩

omit [DecidableEq U] in
theorem State.liftCtor_cases {st : State U El} {setup : TypeErasureSetup}
    {o : Outcome (World U El) (ShapeTE U setup × World U El)} :
    (∀ st1, st.liftCtor o = .ok st1 →
      ∃ w σ1, o = .ok (w, σ1) ∧ st1 = ⟨σ1, st.wrappers ++ [some ⟨setup, w⟩]⟩) ∧
    (∀ e st1, st.liftCtor o = .threw e st1 → st1.wrappers = st.wrappers) := by
  cases o with
  | ok a =>
    obtain ⟨w, σ1⟩ := a
    refine ⟨fun st1 h => ⟨w, σ1, rfl, ?_⟩, fun e st1 h => (by cases h)⟩
    cases h
    rfl
  | threw e σ1 =>
    refine ⟨fun st1 h => (by cases h), fun e1 st1 h => ?_⟩
    cases h
    rfl
  | undefined => exact ⟨fun st1 h => (by cases h), fun e1 st1 h => (by cases h)⟩
  | rejected => exact ⟨fun st1 h => (by cases h), fun e1 st1 h => (by cases h)⟩

omit [DecidableEq U] in
theorem State.AllCommons.liftWorld {P : ShapeTECommon U → Prop} {st : State U El}
    (hinv : st.AllCommons P) (o : Outcome (World U El) (World U El)) :
    (∀ st1, st.liftWorld o = .ok st1 → st1.AllCommons P) ∧
    (∀ e st1, st.liftWorld o = .threw e st1 → st1.AllCommons P) :=
  ⟨fun st1 h => hinv.of_wrappers_eq (State.liftWorld_wrappers.1 st1 h),
    fun e st1 h => hinv.of_wrappers_eq (State.liftWorld_wrappers.2 e st1 h)⟩

omit [DecidableEq U] in
theorem State.AllCommons.liftCtor {P : ShapeTECommon U → Prop} {st : State U El}
    (hinv : st.AllCommons P) {setup : TypeErasureSetup}
    (o : Outcome (World U El) (ShapeTE U setup × World U El))
    (ho : ∀ w σ1, o = .ok (w, σ1) → P w.common) :
    (∀ st1, st.liftCtor o = .ok st1 → st1.AllCommons P) ∧
    (∀ e st1, st.liftCtor o = .threw e st1 → st1.AllCommons P) := by
  refine ⟨fun st1 h => ?_, fun e st1 h => hinv.of_wrappers_eq (State.liftCtor_cases.2 e st1 h)⟩
  obtain ⟨w, σ1, hw, hst⟩ := State.liftCtor_cases.1 st1 h
  subst hst
  exact hinv.append σ1 (ho w σ1 hw)

omit [DecidableEq U] in
theorem Outcome.undefined_cases {S : Type} (Q : S → Prop) :
    (∀ st1, (Outcome.undefined : Outcome S S) = .ok st1 → Q st1) ∧
    (∀ e st1, (Outcome.undefined : Outcome S S) = .threw e st1 → Q st1) :=
  ⟨fun _ h => (by cases h), fun _ _ h => (by cases h)⟩

omit [DecidableEq U] in
theorem Outcome.rejected_cases {S : Type} (Q : S → Prop) :
    (∀ st1, (Outcome.rejected : Outcome S S) = .ok st1 → Q st1) ∧
    (∀ e st1, (Outcome.rejected : Outcome S S) = .threw e st1 → Q st1) :=
  ⟨fun _ h => (by cases h), fun _ _ h => (by cases h)⟩

/-- A property of trampoline slots that holds of freshly captured slots, and
of moved-from slots when the operation is a move, is kept by every
operation, whether it completes or throws. -/
theorem step_allCommons (ops : ∀ u, Conforming (El u)) {P : ShapeTECommon U → Prop}
    (hctor : ∀ u, P (ShapeTECommon.ctor u)) {st : State U El} (op : Op U)
    (hnull : op.isMove = true → P (ShapeTECommon.null U)) (hinv : st.AllCommons P) :
    (∀ st1, step ops st op = .ok st1 → st1.AllCommons P) ∧
    (∀ e st1, step ops st op = .threw e st1 → st1.AllCommons P) := by
  cases op with
  | construct setup u r =>
    exact hinv.liftCtor _ (fun w σ1 ho => by rw [ShapeTE.ctor_common ho]; exact hctor u)
  | copyConstruct src =>
    cases hw : st.wrapper? src with
    | none =>
      have hstep : step ops st (.copyConstruct src) = .undefined := by simp only [step, hw]
      rw [hstep]
      exact Outcome.undefined_cases _
    | some x =>
      have hstep : step ops st (.copyConstruct src) =
          st.liftCtor (ShapeTE.copyCtor x.2 st.world) := by simp only [step, hw]
      rw [hstep]
      exact hinv.liftCtor _ (fun w σ1 ho => by
        rw [ShapeTE.copyCtor_common ho]; exact hinv x (State.wrapper?_mem hw))
  | moveConstruct src =>
    cases hw : st.wrapper? src with
    | none =>
      have hstep : step ops st (.moveConstruct src) = .undefined := by simp only [step, hw]
      rw [hstep]
      exact Outcome.undefined_cases _
    | some x =>
      have hstep : step ops st (.moveConstruct src) =
          .ok ⟨st.world, st.wrappers.set src (some ⟨x.1, (ShapeTE.moveCtor x.2).2⟩) ++
            [some ⟨x.1, (ShapeTE.moveCtor x.2).1⟩]⟩ := by simp only [step, hw]
      rw [hstep]
      refine ⟨fun st1 h => ?_, fun e st1 h => (by cases h)⟩
      cases h
      have h1 : State.AllCommons P
          (⟨st.world, st.wrappers.set src (some ⟨x.1, (ShapeTE.moveCtor x.2).2⟩)⟩ :
            State U El) :=
        hinv.set st.world src _ (fun y hy => by
          cases hy
          exact hnull rfl)
      exact h1.append st.world (hinv x (State.wrapper?_mem hw))
  | copyAssign dst src =>
    cases hd : st.wrapper? dst with
    | none =>
      have hstep : step ops st (.copyAssign dst src) = .undefined := by simp only [step, hd]
      rw [hstep]
      exact Outcome.undefined_cases _
    | some x =>
      cases hs : st.wrapper? src with
      | none =>
        have hstep : step ops st (.copyAssign dst src) = .undefined := by
          simp only [step, hd, hs]
        rw [hstep]
        exact Outcome.undefined_cases _
      | some y =>
        obtain ⟨sd, d⟩ := x
        obtain ⟨ss, s⟩ := y
        by_cases hss : ss = sd
        · subst hss
          have hc := ShapeTE.copyAssign_common ops (dst == src) st.world d s
          have hstep : step ops st (.copyAssign dst src) =
              (match ShapeTE.copyAssign ops (dst == src) d s st.world with
              | .ok (d1, σ1) => .ok ⟨σ1, st.wrappers.set dst (some ⟨ss, d1⟩)⟩
              | .threw e (d1, σ1) => .threw e ⟨σ1, st.wrappers.set dst (some ⟨ss, d1⟩)⟩
              | .undefined => .undefined
              | .rejected => .rejected) := by simp only [step, hd, hs, dite_true]
          rw [hstep]
          cases hca : ShapeTE.copyAssign ops (dst == src) d s st.world with
          | ok a =>
            obtain ⟨d1, σ1⟩ := a
            refine ⟨fun st1 h => ?_, fun e st1 h => (by cases h)⟩
            cases h
            exact hinv.set σ1 dst _ (fun y hy => by
              cases hy
              rw [hc.1 d1 σ1 hca]
              exact hinv ⟨ss, s⟩ (State.wrapper?_mem hs))
          | threw e a =>
            obtain ⟨d1, σ1⟩ := a
            refine ⟨fun st1 h => (by cases h), fun e1 st1 h => ?_⟩
            cases h
            exact hinv.set σ1 dst _ (fun y hy => by
              cases hy
              rw [hc.2 e d1 σ1 hca]
              exact hinv ⟨ss, d⟩ (State.wrapper?_mem hd))
          | undefined => exact Outcome.undefined_cases _
          | rejected => exact Outcome.rejected_cases _
        · have hstep : step ops st (.copyAssign dst src) = .rejected := by
            simp only [step, hd, hs, hss, dite_false]
          rw [hstep]
          exact Outcome.rejected_cases _
  | moveAssign dst src =>
    cases hd : st.wrapper? dst with
    | none =>
      have hstep : step ops st (.moveAssign dst src) = .undefined := by simp only [step, hd]
      rw [hstep]
      exact Outcome.undefined_cases _
    | some x =>
      cases hs : st.wrapper? src with
      | none =>
        have hstep : step ops st (.moveAssign dst src) = .undefined := by
          simp only [step, hd, hs]
        rw [hstep]
        exact Outcome.undefined_cases _
      | some y =>
        obtain ⟨sd, d⟩ := x
        obtain ⟨ss, s⟩ := y
        by_cases hss : ss = sd
        · subst hss
          have hstep : step ops st (.moveAssign dst src) =
              (match ShapeTE.moveAssign ops (dst == src) d s st.world with
              | none => .undefined
              | some (d1, s1, σ1) =>
                .ok ⟨σ1, (st.wrappers.set src (some ⟨ss, s1⟩)).set dst (some ⟨ss, d1⟩)⟩) := by
            simp only [step, hd, hs, dite_true]
          rw [hstep]
          cases hma : ShapeTE.moveAssign ops (dst == src) d s st.world with
          | none => exact Outcome.undefined_cases _
          | some a =>
            obtain ⟨d1, s1, σ1⟩ := a
            refine ⟨fun st1 h => ?_, fun e st1 h => (by cases h)⟩
            cases h
            obtain ⟨hd1, hs1⟩ := ShapeTE.moveAssign_common ops hma
            have hPd : P d.common := hinv ⟨ss, d⟩ (State.wrapper?_mem hd)
            have hPs : P s.common := hinv ⟨ss, s⟩ (State.wrapper?_mem hs)
            have h1 : State.AllCommons P
                (⟨σ1, st.wrappers.set src (some ⟨ss, s1⟩)⟩ : State U El) :=
              hinv.set σ1 src _ (fun y hy => by
                cases hy
                rcases hs1 with e | e
                · rw [e]; exact hPd
                · rw [e]; exact hnull rfl)
            exact h1.set σ1 dst _ (fun y hy => by
              cases hy
              rcases hd1 with e | e
              · rw [e]; exact hPd
              · rw [e]; exact hPs)
        · have hstep : step ops st (.moveAssign dst src) = .rejected := by
            simp only [step, hd, hs, hss, dite_false]
          rw [hstep]
          exact Outcome.rejected_cases _
  | draw w =>
    cases hw : st.wrapper? w with
    | none =>
      have hstep : step ops st (.draw w) = .undefined := by simp only [step, hw]
      rw [hstep]
      exact Outcome.undefined_cases _
    | some x =>
      have hstep : step ops st (.draw w) = st.liftWorld (ShapeTE.draw ops x.2 st.world) := by
        simp only [step, hw]
      rw [hstep]
      exact hinv.liftWorld _
  | drawFree w =>
    cases hw : st.wrapper? w with
    | none =>
      have hstep : step ops st (.drawFree w) = .undefined := by simp only [step, hw]
      rw [hstep]
      exact Outcome.undefined_cases _
    | some x =>
      have hstep : step ops st (.drawFree w) =
          st.liftWorld (ShapeTE.drawFree ops x.2 st.world) := by simp only [step, hw]
      rw [hstep]
      exact hinv.liftWorld _
  | setName w value =>
    cases hw : st.wrapper? w with
    | none =>
      have hstep : step ops st (.setName w value) = .undefined := by simp only [step, hw]
      rw [hstep]
      exact Outcome.undefined_cases _
    | some x =>
      have hstep : step ops st (.setName w value) =
          st.liftWorld (ShapeTE.setName ops x.2 false value st.world) := by
        simp only [step, hw]
      rw [hstep]
      exact hinv.liftWorld _
  | setNameFree w value =>
    cases hw : st.wrapper? w with
    | none =>
      have hstep : step ops st (.setNameFree w value) = .undefined := by simp only [step, hw]
      rw [hstep]
      exact Outcome.undefined_cases _
    | some x =>
      have hstep : step ops st (.setNameFree w value) =
          st.liftWorld (ShapeTE.setNameFree ops x.2 false value st.world) := by
        simp only [step, hw]
      rw [hstep]
      exact hinv.liftWorld _
  | destroy w =>
    cases hw : st.wrapper? w with
    | none =>
      have hstep : step ops st (.destroy w) = .undefined := by simp only [step, hw]
      rw [hstep]
      exact Outcome.undefined_cases _
    | some x =>
      have hstep : step ops st (.destroy w) =
          (match ShapeTE.dtor ops x.2 st.world with
          | none => .undefined
          | some σ1 => .ok ⟨σ1, st.wrappers.set w none⟩) := by simp only [step, hw]
      rw [hstep]
      cases hdt : ShapeTE.dtor ops x.2 st.world with
      | none => exact Outcome.undefined_cases _
      | some σ1 =>
        refine ⟨fun st1 h => ?_, fun e st1 h => (by cases h)⟩
        cases h
        exact hinv.set σ1 w none (fun y hy => by cases hy)

theorem run_allCommons (ops : ∀ u, Conforming (El u)) {P : ShapeTECommon U → Prop}
    (hctor : ∀ u, P (ShapeTECommon.ctor u)) (trace : List (Op U)) :
    ∀ (st st1 : State U El), st.AllCommons P →
      (∀ op ∈ trace, op.isMove = true → P (ShapeTECommon.null U)) →
      run ops st trace = some st1 → st1.AllCommons P := by
  induction trace with
  | nil =>
    intro st st1 hinv _ hrun
    simp only [run] at hrun
    cases hrun
    exact hinv
  | cons op rest ih =>
    intro st st1 hinv hnull hrun
    have hstep := step_allCommons ops hctor op (hnull op (List.mem_cons_self op rest)) hinv
    have hrest : ∀ o ∈ rest, o.isMove = true → P (ShapeTECommon.null U) :=
      fun o ho => hnull o (List.mem_cons_of_mem op ho)
    simp only [run] at hrun
    cases hs : step ops st op with
    | ok st2 =>
      rw [hs] at hrun
      exact ih st2 st1 (hstep.1 st2 hs) hrest hrun
    | threw e st2 =>
      rw [hs] at hrun
      exact ih st2 st1 (hstep.2 e st2 hs) hrest hrun
    | undefined =>
      rw [hs] at hrun
      cases hrun
    | rejected =>
      rw [hs] at hrun
      cases hrun

omit [DecidableEq U] in
theorem State.liftWorld_threw {st st1 : State U El} {o : Outcome (World U El) (World U El)}
    {e : Exn} (h : st.liftWorld o = .threw e st1) : ∃ σ1, o = .threw e σ1 := by
  cases o with
  | ok σ1 => cases h
  | threw e1 σ1 =>
    cases h
    exact ⟨σ1, rfl⟩
  | undefined => cases h
  | rejected => cases h

theorem DrawSignature.invoke_draw_ne_threw (ops : ∀ u, Conforming (El u)) (f : DrawSignature U)
    (p : Ptr) (σ σ1 : World U El) (e : Exn) : f.invoke ops p σ ≠ .threw e σ1 := by
  cases f with
  | memberOf u =>
    simp only [DrawSignature.invoke, Concrete.draw]
    split <;> simp
  | freeOf u =>
    simp only [DrawSignature.invoke, Concrete.drawFree]
    split <;> simp

theorem SetNameSignature.invoke_setName_ne_threw (ops : ∀ u, Conforming (El u))
    (f : SetNameSignature U) (p : Ptr) (value : String) (σ σ1 : World U El) (e : Exn) :
    f.invoke ops p value σ ≠ .threw e σ1 := by
  cases f with
  | memberOf u =>
    simp only [SetNameSignature.invoke, Concrete.setName]
    split <;> simp
  | freeOf u =>
    simp only [SetNameSignature.invoke, Concrete.setNameFree]
    split <;> simp

omit [DecidableEq U] in
theorem ShapeTECommon.allSet_iff (c : ShapeTECommon U) :
    c.allSet = true ↔
      (∃ f, c.mDrawFunction.mPtr = some f) ∧ (∃ f, c.mDrawFreeFunction.mPtr = some f) ∧
      (∃ f, c.mSetNameFunction.mPtr = some f) ∧ (∃ f, c.mSetNameFreeFunction.mPtr = some f) := by
  simp only [ShapeTECommon.allSet, Bool.and_eq_true, Option.isSome_iff_exists, and_assoc]

/-- With all four trampolines set, no operation of a wrapper throws. -/
theorem ShapeTE.no_throw_of_allSet (ops : ∀ u, Conforming (El u)) {setup : TypeErasureSetup}
    (w : ShapeTE U setup) (h : w.common.allSet = true) (c : Bool) (value : String)
    (σ σ1 : World U El) (e : Exn) :
    ShapeTE.draw ops w σ ≠ .threw e σ1 ∧ ShapeTE.drawFree ops w σ ≠ .threw e σ1 ∧
    ShapeTE.setName ops w c value σ ≠ .threw e σ1 ∧
    ShapeTE.setNameFree ops w c value σ ≠ .threw e σ1 := by
  obtain ⟨⟨f1, h1⟩, ⟨f2, h2⟩, ⟨f3, h3⟩, ⟨f4, h4⟩⟩ := (ShapeTECommon.allSet_iff _).mp h
  refine ⟨?_, ?_, ?_, ?_⟩
  · rw [ShapeTE.draw_eq]
    simp only [FunctionPtr.call, h1]
    exact DrawSignature.invoke_draw_ne_threw ops _ _ _ _ _
  · rw [ShapeTE.drawFree_eq]
    simp only [FunctionPtr.call, h2]
    exact DrawSignature.invoke_draw_ne_threw ops _ _ _ _ _
  · rw [ShapeTE.setName_eq]
    split
    · simp only [FunctionPtr.call, h3]
      exact SetNameSignature.invoke_setName_ne_threw ops _ _ _ _ _ _
    · simp
  · rw [ShapeTE.setNameFree_eq]
    split
    · simp only [FunctionPtr.call, h4]
      exact SetNameSignature.invoke_setName_ne_threw ops _ _ _ _ _ _
    · simp

omit [DecidableEq U] in
theorem State.wrapper?_lt {st : State U El} {i : Nat} {w : AnyShape U}
    (h : st.wrapper? i = some w) : i < st.wrappers.length := by
  unfold State.wrapper? at h
  by_contra hlt
  have : st.wrappers[i]? = none := List.getElem?_eq_none (Nat.le_of_not_lt hlt)
  simp [this] at h

/-- C8, as the code has it: after `Shape w{sq}; Shape d{std::move(w)};` the
moved-from wrapper `w` (index 0) is reachable by public operations only, all
its trampolines are null, and `draw` on it fails with
`std::bad_function_call`; the wrapper `d` (index 1) has its trampolines. -/
theorem C8_moved_from_wrapper_has_null_trampolines :
    ∃ st, run mainOps (State.init mainWorld)
        [.construct .Owning .square 0, .moveConstruct 0] = some st ∧
      (st.wrapper? 0).map (fun w => w.2.common) = some (ShapeTECommon.null MainType) ∧
      (st.wrapper? 0).map (fun w => w.2.common.allSet) = some false ∧
      (st.wrapper? 1).map (fun w => w.2.common.allSet) = some true ∧
      step mainOps st (.draw 0) = .threw .bad_function_call st ∧
      step mainOps st (.drawFree 0) = .threw .bad_function_call st ∧
      step mainOps st (.setName 0 "Hallo") = .threw .bad_function_call st ∧
      step mainOps st (.setNameFree 0 "Hallo") = .threw .bad_function_call st :=
  ⟨_, rfl, rfl, rfl, rfl, rfl, rfl, rfl, rfl⟩

/-- C8, amended: in every state reached from a state without wrappers by a
sequence of public operations (construction from a concrete value, copy and
move construction, copy and move assignment, draw, setName, destruction;
exceptions caught), the four trampolines of every live wrapper are either all
set or all null.  If the sequence moves no wrapper they are all set.  On a
wrapper whose trampolines are all set, draw and setName in both forms never
fail with `std::bad_function_call`; on a wrapper whose trampolines are all
null, draw in both forms does fail with it; and move construction from a live
wrapper leaves that wrapper with all trampolines null. -/
theorem C8_trampolines_set_unless_moved (ops : ∀ u, Conforming (El u)) (σ : World U El)
    (trace : List (Op U)) (st : State U El)
    (hrun : run ops (State.init σ) trace = some st) :
    (∀ i w, st.wrapper? i = some w →
      w.2.common.allSet = true ∨ w.2.common = ShapeTECommon.null U) ∧
    ((∀ op ∈ trace, op.isMove = false) →
      ∀ i w, st.wrapper? i = some w → w.2.common.allSet = true) ∧
    (∀ i w, st.wrapper? i = some w → w.2.common.allSet = true →
      ∀ (value : String) (st1 : State U El),
        step ops st (.draw i) ≠ .threw .bad_function_call st1 ∧
        step ops st (.drawFree i) ≠ .threw .bad_function_call st1 ∧
        step ops st (.setName i value) ≠ .threw .bad_function_call st1 ∧
        step ops st (.setNameFree i value) ≠ .threw .bad_function_call st1) ∧
    (∀ i w, st.wrapper? i = some w → w.2.common = ShapeTECommon.null U →
      step ops st (.draw i) = .threw .bad_function_call st ∧
      step ops st (.drawFree i) = .threw .bad_function_call st) ∧
    (∀ i w, st.wrapper? i = some w →
      ∃ st1, step ops st (.moveConstruct i) = .ok st1 ∧
        (st1.wrapper? i).map (fun x => x.2.common) = some (ShapeTECommon.null U)) := by
  have hinit : (State.init σ).AllCommons (fun c : ShapeTECommon U => c.allSet = true) := by
    intro w hw
    cases hw
  have hinit2 : (State.init σ).AllCommons
      (fun c : ShapeTECommon U => c.allSet = true ∨ c = ShapeTECommon.null U) := by
    intro w hw
    cases hw
  refine ⟨?_, ?_, ?_, ?_, ?_⟩
  · intro i w hw
    exact run_allCommons ops
      (show ∀ u : U, (ShapeTECommon.ctor u).allSet = true ∨
        ShapeTECommon.ctor u = ShapeTECommon.null U from fun u => Or.inl rfl) trace _ _ hinit2
      (fun _ _ _ => Or.inr rfl) hrun w (State.wrapper?_mem hw)
  · intro hnm i w hw
    refine run_allCommons ops
      (show ∀ u : U, (ShapeTECommon.ctor u).allSet = true from fun u => rfl) trace _ _ hinit ?_
      hrun w (State.wrapper?_mem hw)
    intro op hop hmove
    rw [hnm op hop] at hmove
    cases hmove
  · intro i w hw hset value st1
    obtain ⟨setup, x⟩ := w
    have hx := fun e σ1 => ShapeTE.no_throw_of_allSet ops x hset false value st.world σ1 e
    refine ⟨?_, ?_, ?_, ?_⟩
    · intro h
      simp only [step, hw] at h
      obtain ⟨σ1, h1⟩ := State.liftWorld_threw h
      exact (hx _ σ1).1 h1
    · intro h
      simp only [step, hw] at h
      obtain ⟨σ1, h1⟩ := State.liftWorld_threw h
      exact (hx _ σ1).2.1 h1
    · intro h
      simp only [step, hw] at h
      obtain ⟨σ1, h1⟩ := State.liftWorld_threw h
      exact (hx _ σ1).2.2.1 h1
    · intro h
      simp only [step, hw] at h
      obtain ⟨σ1, h1⟩ := State.liftWorld_threw h
      exact (hx _ σ1).2.2.2 h1
  · intro i w hw hnull
    obtain ⟨setup, x⟩ := w
    simp only at hnull
    constructor
    · simp only [step, hw, ShapeTE.draw_eq, hnull, ShapeTECommon.null, FunctionPtr.call,
        State.liftWorld]
    · simp only [step, hw, ShapeTE.drawFree_eq, hnull, ShapeTECommon.null, FunctionPtr.call,
        State.liftWorld]
  · intro i w hw
    obtain ⟨setup, x⟩ := w
    refine ⟨⟨st.world, st.wrappers.set i (some ⟨setup, (ShapeTE.moveCtor x).2⟩) ++
      [some ⟨setup, (ShapeTE.moveCtor x).1⟩]⟩, by simp only [step, hw], ?_⟩
    have hlt := State.wrapper?_lt hw
    simp only [State.wrapper?]
    rw [List.getElem?_append_left (by rw [List.length_set]; exact hlt)]
    simp [hlt]
    rfl

/-- C8, amended, at main.cpp: `shape` is constructed, copied, renamed through
the copy and drawn. -/
theorem C8_trampolines_set_unless_moved_witness :
    ∃ st, run mainOps (State.init mainWorld)
        [.construct .Owning .square 0, .copyConstruct 0, .setName 1 "Wurst", .draw 0] =
        some st ∧
    (∀ i w, st.wrapper? i = some w →
      w.2.common.allSet = true ∨ w.2.common = ShapeTECommon.null MainType) ∧
    ((∀ op ∈ ([.construct .Owning .square 0, .copyConstruct 0, .setName 1 "Wurst", .draw 0] :
        List (Op MainType)), op.isMove = false) →
      ∀ i w, st.wrapper? i = some w → w.2.common.allSet = true) ∧
    (∀ i w, st.wrapper? i = some w → w.2.common.allSet = true →
      ∀ (value : String) (st1 : State MainType MainEl),
        step mainOps st (.draw i) ≠ .threw .bad_function_call st1 ∧
        step mainOps st (.drawFree i) ≠ .threw .bad_function_call st1 ∧
        step mainOps st (.setName i value) ≠ .threw .bad_function_call st1 ∧
        step mainOps st (.setNameFree i value) ≠ .threw .bad_function_call st1) ∧
    (∀ i w, st.wrapper? i = some w → w.2.common = ShapeTECommon.null MainType →
      step mainOps st (.draw i) = .threw .bad_function_call st ∧
      step mainOps st (.drawFree i) = .threw .bad_function_call st) ∧
    (∀ i w, st.wrapper? i = some w →
      ∃ st1, step mainOps st (.moveConstruct i) = .ok st1 ∧
        (st1.wrapper? i).map (fun x => x.2.common) = some (ShapeTECommon.null MainType)) :=
  ⟨_, rfl, C8_trampolines_set_unless_moved mainOps mainWorld
    [.construct .Owning .square 0, .copyConstruct 0, .setName 1 "Wurst", .draw 0] _ rfl⟩

end C8

/-! ## C11 -/

section C11

variable {U : Type} [DecidableEq U] {El : U → Type}

theorem List.set_of_getElem?_eq_some {α : Type} {l : List α} {i : Nat} {x : α}
    (h : l[i]? = some x) : l.set i x = l := by
  apply List.ext_getElem?
  intro j
  by_cases hij : i = j
  · subst hij
    rw [List.getElem?_set, if_pos rfl, h]
    have hlt : i < l.length := by
      by_contra hn
      rw [List.getElem?_eq_none (Nat.le_of_not_lt hn)] at h
      cases h
    rw [if_pos hlt]
  · rw [List.getElem?_set_ne hij]

omit [DecidableEq U] in
theorem State.wrapper?_getElem? {st : State U El} {i : Nat} {w : AnyShape U}
    (h : st.wrapper? i = some w) : st.wrappers[i]? = some (some w) := by
  unfold State.wrapper? at h
  cases hi : st.wrappers[i]? with
  | none => simp [hi] at h
  | some x =>
    rw [hi] at h
    have hx : x = some w := h
    rw [hx]

/-- C11: for every Owning wrapper `w`, whatever it holds, copy assignment of
`w` to itself and move assignment of `w` to itself complete and leave `w` with
the same pointer, deleter, duplicator and trampolines, in the same world: no
cell is allocated or released and nothing is printed, so neither the
duplicator nor the deleter has run.  In a program, both self-assignments of a
live Owning wrapper leave the whole state as it is. -/
theorem C11_self_assignment_is_noop (ops : ∀ u, Conforming (El u)) (w : ShapeTE U .Owning)
    (σ : World U El) (st : State U El) (i : Nat)
    (hw : st.wrapper? i = some ⟨.Owning, w⟩) :
    ShapeTE.copyAssign ops true w w σ = .ok (w, σ) ∧
    ShapeTE.moveAssign ops true w w σ = some (w, w, σ) ∧
    step ops st (.copyAssign i i) = .ok st ∧
    step ops st (.moveAssign i i) = .ok st := by
  have hset : st.wrappers.set i (some ⟨.Owning, w⟩) = st.wrappers :=
    List.set_of_getElem?_eq_some (State.wrapper?_getElem? hw)
  have h1 : ShapeTE.copyAssign ops true w w σ = .ok (w, σ) := rfl
  have h2 : ShapeTE.moveAssign ops true w w σ = some (w, w, σ) := rfl
  have h3 : ShapeTE.copyAssign ops true w w st.world = .ok (w, st.world) := rfl
  have h4 : ShapeTE.moveAssign ops true w w st.world = some (w, w, st.world) := rfl
  refine ⟨h1, h2, ?_, ?_⟩
  · simp only [step, hw, dite_true, beq_self_eq_true, h3, hset]
  · simp only [step, hw, dite_true, beq_self_eq_true, h4, hset]

/-- C11 at the wrapper `shape` of main.cpp. -/
theorem C11_self_assignment_is_noop_witness :
    mainStateShape.wrapper? 0 = some ⟨.Owning, mainShape⟩ ∧
    ShapeTE.copyAssign mainOps true mainShape mainShape mainWorldShape =
      .ok (mainShape, mainWorldShape) ∧
    ShapeTE.moveAssign mainOps true mainShape mainShape mainWorldShape =
      some (mainShape, mainShape, mainWorldShape) ∧
    step mainOps mainStateShape (.copyAssign 0 0) = .ok mainStateShape ∧
    step mainOps mainStateShape (.moveAssign 0 0) = .ok mainStateShape :=
  ⟨rfl, C11_self_assignment_is_noop mainOps mainShape mainWorldShape mainStateShape 0 rfl⟩

end C11

/-! ## C12 -/

section C12

variable {U : Type} [DecidableEq U] {El : U → Type}

/-- When `new` fails in a copy assignment between distinct Owning wrappers
whose source has a type-specific duplicator, the exception leaves the
destination with the duplicator of the source, and with the pointer, the
deleter and the trampolines it had. -/
theorem ShapeTE.copyAssign_bad_alloc (ops : ∀ u, Conforming (El u))
    (dst src : ShapeTE U .Owning) (σ : World U El) (u : U)
    (hdup : src.base.mDuplicator = ⟨some (createDuplicator u)⟩) (hb : σ.budget = 0) :
    ShapeTE.copyAssign ops false dst src σ =
      .threw .bad_alloc (⟨⟨dst.base.mData, src.base.mDuplicator⟩, dst.common⟩, σ) := by
  obtain ⟨⟨smd, sdup⟩, scom⟩ := src
  simp only at hdup
  subst hdup
  simp [ShapeTE.copyAssign, BaseTE.copyAssign, FunctionPtr.call, FunctionPtr.copyAssign,
    DuplicatorSignature.invoke, createDuplicator, hb]

/-- C12, as the code has it: in a world where `new` fails, copy assignment of
the wrapper `shape` (holding a `Square`) into a different, moved-from Owning
wrapper throws `std::bad_alloc` and leaves the destination partly updated:
its pointer and trampolines are still null, but its duplicator is no longer
`noopDuplicator`, it is the duplicator of the source.  The source and the
world are unchanged.  As a program: `Shape w{sq}; Shape d{std::move(w)};
w = d;` with the last allocation failing. -/
theorem C12_failed_copy_assignment_is_partial :
    ShapeTE.copyAssign mainOps false mainShapeMoved mainShape mainWorldFull =
      .threw .bad_alloc (mainShapeHalfAssigned, mainWorldFull) ∧
    mainShapeHalfAssigned.base.mData = mainShapeMoved.base.mData ∧
    mainShapeHalfAssigned.common = mainShapeMoved.common ∧
    mainShapeHalfAssigned.base.mDuplicator = mainShape.base.mDuplicator ∧
    mainShapeHalfAssigned.base.mDuplicator ≠ mainShapeMoved.base.mDuplicator ∧
    run mainOps (State.init mainWorldOne) [.construct .Owning .square 0, .moveConstruct 0] =
      some ⟨mainWorldFull, [some ⟨.Owning, mainShapeMoved⟩, some ⟨.Owning, mainShape⟩]⟩ ∧
    step mainOps ⟨mainWorldFull, [some ⟨.Owning, mainShapeMoved⟩, some ⟨.Owning, mainShape⟩]⟩
        (.copyAssign 0 1) =
      .threw .bad_alloc
        ⟨mainWorldFull, [some ⟨.Owning, mainShapeHalfAssigned⟩, some ⟨.Owning, mainShape⟩]⟩ :=
  ⟨rfl, rfl, rfl, rfl, by decide, rfl, rfl⟩

end C12

/-! ## C13 -/

section C13

variable {U : Type} [DecidableEq U] {El : U → Type}

theorem DuplicatorSignature.invoke_ne_bad_function_call (d : DuplicatorSignature U)
    (ptr : OwningPtrType U) (σ τ : World U El) :
    d.invoke ptr σ ≠ .threw .bad_function_call τ := by
  cases d with
  | noopDuplicator => simp [DuplicatorSignature.invoke]
  | duplicateAs u =>
    simp only [DuplicatorSignature.invoke]
    split
    · simp
    · split <;> simp

/-- C13: invoking a `FunctionPtr` slot whose pointer is null fails with
`std::bad_function_call`, and invoking a slot holding a function returns
exactly what that function returns on the arguments.  For the slots of the
program (duplicator, draw and set-name trampolines) the invocation fails with
`std::bad_function_call` if and only if the pointer is null.  A move, by
construction or by assignment from a different slot, hands the stored pointer
over; it leaves `noopDuplicator` in a duplicator slot, which is therefore not
null and can be invoked, whereas it leaves a trampoline slot null; a move
assignment of a slot to itself changes nothing. -/
theorem C13_function_pointer_slots (ops : ∀ u, Conforming (El u)) :
    (∀ (S ε α : Type) (apply : S → Outcome ε α) (post : ε),
      (⟨none⟩ : FunctionPtr S).call apply post = .threw .bad_function_call post) ∧
    (∀ (S ε α : Type) (apply : S → Outcome ε α) (post : ε) (fn : S),
      (⟨some fn⟩ : FunctionPtr S).call apply post = apply fn) ∧
    (∀ (f : FunctionPtr (DuplicatorSignature U)) (ptr : OwningPtrType U) (σ : World U El),
      f.call (fun d => d.invoke ptr σ) σ = .threw .bad_function_call σ ↔ f.mPtr = none) ∧
    (∀ (f : FunctionPtr (DrawSignature U)) (p : Ptr) (σ : World U El),
      f.call (fun g => g.invoke ops p σ) σ = .threw .bad_function_call σ ↔ f.mPtr = none) ∧
    (∀ (f : FunctionPtr (SetNameSignature U)) (p : Ptr) (value : String) (σ : World U El),
      f.call (fun g => g.invoke ops p value σ) σ = .threw .bad_function_call σ ↔
        f.mPtr = none) ∧
    (∀ f : FunctionPtr (DuplicatorSignature U),
      (FunctionPtr.moveCtor (duplicatorDefault U) f).1 = f ∧
      (FunctionPtr.moveCtor (duplicatorDefault U) f).2.mPtr = some .noopDuplicator) ∧
    (∀ self f : FunctionPtr (DuplicatorSignature U),
      (FunctionPtr.moveAssign (duplicatorDefault U) false self f).1 = f ∧
      (FunctionPtr.moveAssign (duplicatorDefault U) false self f).2.mPtr =
        some .noopDuplicator ∧
      FunctionPtr.moveAssign (duplicatorDefault U) true f f = (f, f)) ∧
    (∀ (ptr : OwningPtrType U) (σ : World U El),
      (⟨some .noopDuplicator⟩ : FunctionPtr (DuplicatorSignature U)).call
        (fun d => d.invoke ptr σ) σ = .ok (⟨none, .noop⟩, σ)) ∧
    (∀ (S : Type) (f self : FunctionPtr S),
      (FunctionPtr.moveCtor none f).1 = f ∧ (FunctionPtr.moveCtor none f).2.mPtr = none ∧
      (FunctionPtr.moveAssign none false self f).1 = f ∧
      (FunctionPtr.moveAssign none false self f).2.mPtr = none ∧
      FunctionPtr.moveAssign none true f f = (f, f)) := by
  refine ⟨fun _ _ _ _ _ => rfl, fun _ _ _ _ _ _ => rfl, ?_, ?_, ?_, fun _ => ⟨rfl, rfl⟩,
    fun _ _ => ⟨rfl, rfl, rfl⟩, fun _ _ => rfl, fun _ _ _ => ⟨rfl, rfl, rfl, rfl, rfl⟩⟩
  · intro f ptr σ
    obtain ⟨_ | d⟩ := f
    · simp [FunctionPtr.call]
    · simpa [FunctionPtr.call] using DuplicatorSignature.invoke_ne_bad_function_call d ptr σ σ
  · intro f p σ
    obtain ⟨_ | g⟩ := f
    · simp [FunctionPtr.call]
    · simpa [FunctionPtr.call] using DrawSignature.invoke_draw_ne_threw ops g p σ σ _
  · intro f p value σ
    obtain ⟨_ | g⟩ := f
    · simp [FunctionPtr.call]
    · simpa [FunctionPtr.call] using
        SetNameSignature.invoke_setName_ne_threw ops g p value σ σ _

end C13

/-! ## C14 -/

section C14

variable {U : Type} [DecidableEq U] {El : U → Type}

omit [DecidableEq U] in
theorem World.print_inj (σ : World U El) {out1 out2 : List Item}
    (h : σ.print out1 = σ.print out2) : out1 = out2 := by
  have hc : (σ.print out1).cout = (σ.print out2).cout := by rw [h]
  exact List.append_cancel_left hc

omit [DecidableEq U] in
theorem World.store_inj (σ : World U El) {a : Addr} (ha : a < σ.cells.length)
    {o1 o2 : Obj U El} (h : σ.store a o1 = σ.store a o2) : o1 = o2 := by
  have h1 : (σ.store a o1).load a = (σ.store a o2).load a := by rw [h]
  rw [World.load_store_same σ o1 ha, World.load_store_same σ o2 ha] at h1
  exact Option.some.inj h1

/-- C14, as the code has it: on the wrapper `shape` of main.cpp the member
form and the free form of draw give different results, because
`Square::draw()` and `draw(const Square&)` write different text. -/
theorem C14_member_and_free_draw_differ :
    ShapeTE.draw mainOps mainShape mainWorldShape ≠
      ShapeTE.drawFree mainOps mainShape mainWorldShape ∧
    ShapeTE.draw mainOps mainShape mainWorldShape =
      .ok (mainWorldShape.print
        [.str "Square ", .str "MySquare", .str " ", .int 3, .str " draw\n"]) ∧
    ShapeTE.drawFree mainOps mainShape mainWorldShape =
      .ok (mainWorldShape.print
        [.str "Square ", .str "MySquare", .str " ", .int 3, .str " draw free\n"]) := by
  refine ⟨?_, rfl, rfl⟩
  intro h
  have h1 : mainWorldShape.print mySquare.draw = mainWorldShape.print mySquare.drawFree :=
    Outcome.ok.inj h
  exact absurd (World.print_inj mainWorldShape h1) (by decide)

/-- C14, amended: let `w` be a wrapper of any storage mode that holds or
refers to the value `v` of concrete type `u` at address `a`.  The member form
of draw is the call of the member `draw` of `u` on that object and the free
form is the call of the free `draw` of `u` on it; the two forms give the same
result exactly when the member and the free `draw` of `u` write the same for
`v`.  On a non-const wrapper the member form of `setName` is the call of the
member `setName` of `u` on the object and the free form the call of the free
`setName` of `u`, when the storage mode admits them, and both are rejected
for ConstRef; the two forms give the same result and leave the referent in
the same state exactly when the storage mode is ConstRef or the member and
the free `setName` of `u` give the same value. -/
theorem C14_member_and_free_forms (ops : ∀ u, Conforming (El u)) (setup : TypeErasureSetup)
    (w : ShapeTE U setup) (σ : World U El) (u : U) (a : Addr) (v : El u)
    (hw : w.Wraps σ u a v) (s : String) :
    ShapeTE.draw ops w σ = Concrete.draw ops u (some a) σ ∧
    ShapeTE.drawFree ops w σ = Concrete.drawFree ops u (some a) σ ∧
    (ShapeTE.draw ops w σ = ShapeTE.drawFree ops w σ ↔ (ops u).draw v = (ops u).drawFree v) ∧
    (setup ≠ .ConstRef →
      ShapeTE.setName ops w false s σ = Concrete.setName ops u (some a) s σ ∧
      ShapeTE.setNameFree ops w false s σ = Concrete.setNameFree ops u (some a) s σ) ∧
    (setup = .ConstRef →
      ShapeTE.setName ops w false s σ = .rejected ∧
      ShapeTE.setNameFree ops w false s σ = .rejected) ∧
    (ShapeTE.setName ops w false s σ = ShapeTE.setNameFree ops w false s σ ↔
      (setup = .ConstRef ∨ (ops u).setName v s = (ops u).setNameFree v s)) := by
  have hv := hw.2.2
  have hlt := World.derefAs_lt hv
  have hd : Concrete.draw ops u (some a) σ = .ok (σ.print ((ops u).draw v)) := by
    simp [Concrete.draw, hv]
  have hdf : Concrete.drawFree ops u (some a) σ = .ok (σ.print ((ops u).drawFree v)) := by
    simp [Concrete.drawFree, hv]
  refine ⟨(hw.draw ops).trans hd.symm, (hw.drawFree ops).trans hdf.symm, ?_, ?_, ?_, ?_⟩
  · rw [hw.draw ops, hw.drawFree ops]
    constructor
    · intro h
      exact World.print_inj σ (Outcome.ok.inj h)
    · intro h
      rw [h]
  · intro hs
    have hm : setNameAccepted memberSetNameOverloads setup false = true := by
      cases setup
      · rfl
      · rfl
      · exact absurd rfl hs
    have hf : setNameAccepted friendSetNameOverloads setup false = true := by
      cases setup
      · rfl
      · rfl
      · exact absurd rfl hs
    exact ⟨(hw.setName ops false hm s).trans (Concrete.setName_ok ops hv s).symm,
      (hw.setNameFree ops false hf s).trans (Concrete.setNameFree_ok ops hv s).symm⟩
  · intro hs
    subst hs
    exact ⟨rfl, rfl⟩
  · by_cases hs : setup = .ConstRef
    · subst hs
      exact ⟨fun _ => Or.inl rfl, fun _ => rfl⟩
    · have hm : setNameAccepted memberSetNameOverloads setup false = true := by
        cases setup
        · rfl
        · rfl
        · exact absurd rfl hs
      have hf : setNameAccepted friendSetNameOverloads setup false = true := by
        cases setup
        · rfl
        · rfl
        · exact absurd rfl hs
      rw [hw.setName ops false hm s, hw.setNameFree ops false hf s]
      constructor
      · intro h
        have h1 := World.store_inj σ hlt (Outcome.ok.inj h)
        right
        have h2 := congrArg (fun o : Obj U El => o.castTo u) h1
        simp only [Obj.castTo_mk] at h2
        exact Option.some.inj h2
      · intro h
        rcases h with h | h
        · exact absurd h hs
        · rw [h]

/-- C14, amended, at the wrapper `shape` of main.cpp, renamed as in line 114. -/
theorem C14_member_and_free_forms_witness :
    mainShape.Wraps mainWorldShape .square 1 mySquare ∧
    ShapeTE.draw mainOps mainShape mainWorldShape =
      Concrete.draw mainOps .square (some 1) mainWorldShape ∧
    ShapeTE.drawFree mainOps mainShape mainWorldShape =
      Concrete.drawFree mainOps .square (some 1) mainWorldShape ∧
    (ShapeTE.draw mainOps mainShape mainWorldShape =
        ShapeTE.drawFree mainOps mainShape mainWorldShape ↔
      (mainOps .square).draw mySquare = (mainOps .square).drawFree mySquare) ∧
    (TypeErasureSetup.Owning ≠ .ConstRef →
      ShapeTE.setName mainOps mainShape false "Schinkenspicker" mainWorldShape =
        Concrete.setName mainOps .square (some 1) "Schinkenspicker" mainWorldShape ∧
      ShapeTE.setNameFree mainOps mainShape false "Schinkenspicker" mainWorldShape =
        Concrete.setNameFree mainOps .square (some 1) "Schinkenspicker" mainWorldShape) ∧
    (TypeErasureSetup.Owning = .ConstRef →
      ShapeTE.setName mainOps mainShape false "Schinkenspicker" mainWorldShape = .rejected ∧
      ShapeTE.setNameFree mainOps mainShape false "Schinkenspicker" mainWorldShape =
        .rejected) ∧
    (ShapeTE.setName mainOps mainShape false "Schinkenspicker" mainWorldShape =
        ShapeTE.setNameFree mainOps mainShape false "Schinkenspicker" mainWorldShape ↔
      (TypeErasureSetup.Owning = .ConstRef ∨
        (mainOps .square).setName mySquare "Schinkenspicker" =
          (mainOps .square).setNameFree mySquare "Schinkenspicker")) :=
  ⟨⟨⟨rfl, rfl⟩, rfl, rfl⟩,
    C14_member_and_free_forms mainOps .Owning mainShape mainWorldShape .square 1 mySquare
      ⟨⟨rfl, rfl⟩, rfl, rfl⟩ "Schinkenspicker"⟩

end C14

/-! ## C15 -/

section C15

variable {U : Type}

/-- C15: the const propagation policy is Propagate for Owning, Bypass for
MutableRef and AlwaysConst for ConstRef.  For every storage mode and wrapper
constness `rawPtrAccess()` can be called; its result is a `void*` exactly when
the policy is Bypass, or Propagate on a non-const wrapper, and a `const void*`
in every other case, that is for AlwaysConst and for Propagate on a const
wrapper; and the pointer it returns is the stored one, `mData.get()` for
Owning and `mData` for the reference modes. -/
theorem C15_rawPtrAccess_constness (setup : TypeErasureSetup) (objConst : Bool)
    (b : BaseTE U setup) (o : BaseTE U .Owning) (m : BaseTE U .Ref) (k : BaseTE U .ConstRef) :
    deriveConstPropagation .Owning = .Propagate ∧
    deriveConstPropagation .Ref = .Bypass ∧
    deriveConstPropagation .ConstRef = .AlwaysConst ∧
    (rawPtrAccessType setup objConst = some .mutablePtr ↔
      (deriveConstPropagation setup = .Bypass ∨
        (deriveConstPropagation setup = .Propagate ∧ objConst = false))) ∧
    (rawPtrAccessType setup objConst = some .constPtr ↔
      (deriveConstPropagation setup = .AlwaysConst ∨
        (deriveConstPropagation setup = .Propagate ∧ objConst = true))) ∧
    (∃ acc, rawPtrAccessType setup objConst = some acc ∧
      b.rawPtrAccess objConst = some (acc, b.get)) ∧
    o.get = OwningPtrType.ptr o.mData ∧ m.get = m.mData ∧ k.get = k.mData := by
  refine ⟨rfl, rfl, rfl, ?_, ?_, ?_, rfl, rfl, rfl⟩
  · cases setup <;> cases objConst <;> decide
  · cases setup <;> cases objConst <;> decide
  · cases setup <;> cases objConst <;> exact ⟨_, rfl, rfl⟩

end C15

/-! ## The types of the stored objects -/

section TypeAt

variable {U : Type} [DecidableEq U] {El : U → Type}

theorem World.typeAt_eq_some {σ : World U El} {a : Addr} {u : U} :
    σ.typeAt a = some u ↔ ∃ v, σ.derefAs u (some a) = some v := by
  unfold World.typeAt
  constructor
  · intro h
    cases hl : σ.load a with
    | none => simp [hl] at h
    | some o =>
      obtain ⟨u1, v1⟩ := o
      simp only [hl, Option.map_some', Option.some.injEq] at h
      subst h
      exact ⟨v1, World.derefAs_some.mpr hl⟩
  · rintro ⟨v, hv⟩
    rw [World.derefAs_some.mp hv]
    rfl

omit [DecidableEq U] in
theorem World.typeAt_lt {σ : World U El} {a : Addr} {u : U} (h : σ.typeAt a = some u) :
    a < σ.cells.length := by
  unfold World.typeAt at h
  cases hl : σ.load a with
  | none => simp [hl] at h
  | some o => exact World.load_lt hl

omit [DecidableEq U] in
theorem World.typeAt_isSome_lt {σ : World U El} {a : Addr}
    (h : (σ.typeAt a).isSome = true) : a < σ.cells.length := by
  obtain ⟨u, hu⟩ := Option.isSome_iff_exists.mp h
  exact World.typeAt_lt hu

omit [DecidableEq U] in
theorem World.typeAt_print (σ : World U El) (out : List Item) (a : Addr) :
    (σ.print out).typeAt a = σ.typeAt a := rfl

omit [DecidableEq U] in
theorem World.typeAt_store {σ : World U El} {a : Addr} {u : U} (h : σ.typeAt a = some u)
    (v : El u) (b : Addr) : (σ.store a ⟨u, v⟩).typeAt b = σ.typeAt b := by
  by_cases hab : a = b
  · subst hab
    rw [h]
    simp [World.typeAt, World.load_store_same σ _ (World.typeAt_lt h)]
  · simp [World.typeAt, World.load_store_other σ _ hab]

omit [DecidableEq U] in
theorem World.typeAt_alloc_old (σ : World U El) (o : Obj U El) {a : Addr}
    (h : a < σ.cells.length) : (σ.alloc o).2.typeAt a = σ.typeAt a := by
  simp [World.typeAt, World.load_alloc_old σ o h]

omit [DecidableEq U] in
theorem World.typeAt_alloc_new (σ : World U El) (o : Obj U El) :
    (σ.alloc o).2.typeAt σ.cells.length = some o.1 := by
  have h := World.load_alloc_new σ o
  simp only [World.alloc] at h
  simp [World.typeAt, World.alloc, h]

omit [DecidableEq U] in
theorem World.typeAt_free_same (σ : World U El) (a : Addr) : (σ.free a).typeAt a = none := by
  simp [World.typeAt, World.load_free_same]

omit [DecidableEq U] in
theorem World.typeAt_free_other (σ : World U El) {a b : Addr} (h : b ≠ a) :
    (σ.free b).typeAt a = σ.typeAt a := by
  simp [World.typeAt, World.load_free_other σ h]

omit [DecidableEq U] in
theorem World.length_alloc (σ : World U El) (o : Obj U El) :
    (σ.alloc o).2.cells.length = σ.cells.length + 1 := by
  simp [World.alloc]

omit [DecidableEq U] in
theorem World.length_free (σ : World U El) (a : Addr) :
    (σ.free a).cells.length = σ.cells.length := by
  simp [World.free]

omit [DecidableEq U] in
theorem World.length_store (σ : World U El) (a : Addr) (o : Obj U El) :
    (σ.store a o).cells.length = σ.cells.length := by
  simp [World.store]

end TypeAt

/-! ## Tables of wrapper objects -/

section Tables

variable {U : Type} [DecidableEq U] {El : U → Type}

omit [DecidableEq U] in
theorem State.wrapper?_append (σ τ : World U El) (l : List (Option (AnyShape U)))
    (x : AnyShape U) :
    (⟨τ, l ++ [some x]⟩ : State U El).wrapper? =
      Function.update (⟨σ, l⟩ : State U El).wrapper? l.length (some x) := by
  funext i
  simp only [State.wrapper?, Function.update_apply]
  by_cases hi : i = l.length
  · subst hi
    simp
  · rw [if_neg hi]
    by_cases hlt : i < l.length
    · rw [List.getElem?_append_left hlt]
    · have h1 : l.length + 1 ≤ i := by omega
      rw [List.getElem?_eq_none (by simpa using h1),
        List.getElem?_eq_none (Nat.le_of_not_lt hlt)]

omit [DecidableEq U] in
theorem State.wrapper?_set (σ τ : World U El) (l : List (Option (AnyShape U))) {j : Nat}
    (hj : j < l.length) (y : Option (AnyShape U)) :
    (⟨τ, l.set j y⟩ : State U El).wrapper? =
      Function.update (⟨σ, l⟩ : State U El).wrapper? j y := by
  funext i
  simp only [State.wrapper?, Function.update_apply]
  by_cases hi : i = j
  · subst hi
    simp [hj]
  · rw [if_neg hi, List.getElem?_set_ne (fun e => hi e.symm)]

omit [DecidableEq U] in
theorem State.wrapper?_length (st : State U El) : st.wrapper? st.wrappers.length = none := by
  simp [State.wrapper?]

omit [DecidableEq U] in
theorem ownerOf_update (f : Nat → Option (AnyShape U)) (j : Nat) (y : Option (AnyShape U))
    (i : Nat) :
    ownerOf (Function.update f j y) i = if i = j then y.bind AnyShape.held else ownerOf f i := by
  unfold ownerOf
  by_cases h : i = j
  · subst h
    simp
  · simp [h]

end Tables

/-! ## The invariant under updates of the world and of the table -/

section CoherentUpdates

variable {U : Type} [DecidableEq U] {El : U → Type}

omit [DecidableEq U] in
/-- An allocation held by a sound wrapper is a live cell outside the externally
owned ones. -/
theorem AnyShape.Sound.held_typeAt {strict : Bool} {σ0 σ : World U El} {w : AnyShape U}
    (h : w.Sound strict σ0 σ) {a : Addr} (ha : w.held = some a) :
    σ0.cells.length ≤ a ∧ ∃ u, σ.typeAt a = some u := by
  obtain ⟨setup, x⟩ := w
  cases setup with
  | Owning =>
    rcases h with ⟨hp, _⟩ | ⟨u, b, hn, hd, ht, _⟩
    · simp only [AnyShape.held] at ha
      rw [hp] at ha
      cases ha
    · simp only [AnyShape.held, hd] at ha
      cases ha
      exact ⟨hn, u, ht⟩
  | Ref => cases ha
  | ConstRef => cases ha

omit [DecidableEq U] in
/-- Soundness of a wrapper depends on the world only through the type of the
object it holds. -/
theorem AnyShape.Sound.transport_world {strict : Bool} {σ0 σ τ : World U El} {w : AnyShape U}
    (h : w.Sound strict σ0 σ) (hτ : ∀ a, w.held = some a → τ.typeAt a = σ.typeAt a) :
    w.Sound strict σ0 τ := by
  obtain ⟨setup, x⟩ := w
  cases setup with
  | Owning =>
    rcases h with ⟨hp, hs⟩ | ⟨u, b, hn, hd, ht, hs⟩
    · exact Or.inl ⟨hp, hs⟩
    · refine Or.inr ⟨u, b, hn, hd, ?_, hs⟩
      rw [hτ b (by simp [AnyShape.held, hd]), ht]
  | Ref => exact h
  | ConstRef => exact h

omit [DecidableEq U] in
/-- The invariant only depends on the types of the stored objects and on the
size of the store. -/
theorem Coherent.world {strict : Bool} {σ0 σ τ : World U El} {f : Nat → Option (AnyShape U)}
    (h : Coherent strict σ0 σ f) (ht : ∀ a, τ.typeAt a = σ.typeAt a)
    (hl : τ.cells.length = σ.cells.length) : Coherent strict σ0 τ f where
  each := fun i w hw => (h.each i w hw).transport_world (fun a _ => ht a)
  unique := h.unique
  heldBy := fun a ha hs => h.heldBy a ha (by rw [← ht a]; exact hs)
  external := fun r u hr => by rw [ht r]; exact h.external r u hr
  length := by rw [hl]; exact h.length

omit [DecidableEq U] in
/-- Replacing a wrapper object by one that holds the same allocation, or
putting a wrapper that holds nothing where nothing was held. -/
theorem Coherent.update_keep {strict : Bool} {σ0 σ : World U El}
    {f : Nat → Option (AnyShape U)} (h : Coherent strict σ0 σ f) (j : Nat)
    (y : Option (AnyShape U)) (hy : ∀ w, y = some w → w.Sound strict σ0 σ)
    (hown : y.bind AnyShape.held = ownerOf f j) :
    Coherent strict σ0 σ (Function.update f j y) := by
  have hsame : ∀ i, ownerOf (Function.update f j y) i = ownerOf f i := by
    intro i
    rw [ownerOf_update]
    by_cases hi : i = j
    · rw [if_pos hi, hown, hi]
    · rw [if_neg hi]
  refine ⟨?_, ?_, ?_, h.external, h.length⟩
  · intro i w hw
    by_cases hi : i = j
    · subst hi
      rw [Function.update_same] at hw
      exact hy w hw
    · rw [Function.update_noteq hi] at hw
      exact h.each i w hw
  · intro i k a hi hk
    rw [hsame] at hi hk
    exact h.unique i k a hi hk
  · intro a ha hs
    obtain ⟨i, hi⟩ := h.heldBy a ha hs
    exact ⟨i, by rw [hsame]; exact hi⟩

omit [DecidableEq U] in
/-- The owner of an allocation in a coherent table holds a cell of the store. -/
theorem Coherent.owner_lt {strict : Bool} {σ0 σ : World U El}
    {f : Nat → Option (AnyShape U)} (h : Coherent strict σ0 σ f) {i : Nat} {a : Addr}
    (hi : ownerOf f i = some a) :
    σ0.cells.length ≤ a ∧ a < σ.cells.length ∧ ∃ u, σ.typeAt a = some u := by
  unfold ownerOf at hi
  cases hf : f i with
  | none => simp [hf] at hi
  | some w =>
    rw [hf] at hi
    have hh : w.held = some a := hi
    obtain ⟨hn, u, hu⟩ := (h.each i w hf).held_typeAt hh
    exact ⟨hn, World.typeAt_lt hu, u, hu⟩

omit [DecidableEq U] in
/-- A new object is allocated and given to a wrapper object that held nothing. -/
theorem Coherent.update_alloc {strict : Bool} {σ0 σ : World U El}
    {f : Nat → Option (AnyShape U)} (h : Coherent strict σ0 σ f) (j : Nat)
    (hj : ownerOf f j = none) (o : Obj U El) (x : ShapeTE U .Owning)
    (hx : x.base.mData = ⟨some σ.cells.length, createDeleter o.1⟩)
    (hxs : strict = true →
      x.base.mDuplicator = ⟨some (createDuplicator o.1)⟩ ∧ x.common = ShapeTECommon.ctor o.1) :
    Coherent strict σ0 (σ.alloc o).2 (Function.update f j (some ⟨.Owning, x⟩)) := by
  have hown : ∀ i, ownerOf (Function.update f j (some ⟨.Owning, x⟩)) i =
      if i = j then some σ.cells.length else ownerOf f i := by
    intro i
    rw [ownerOf_update]
    simp [AnyShape.held, hx]
  refine ⟨?_, ?_, ?_, ?_, ?_⟩
  · intro i w hw
    by_cases hi : i = j
    · subst hi
      rw [Function.update_same] at hw
      cases hw
      exact Or.inr ⟨o.1, σ.cells.length, h.length, hx, World.typeAt_alloc_new σ o, hxs⟩
    · rw [Function.update_noteq hi] at hw
      refine (h.each i w hw).transport_world (fun a ha => ?_)
      obtain ⟨_, u, hu⟩ := (h.each i w hw).held_typeAt ha
      exact World.typeAt_alloc_old σ o (World.typeAt_lt hu)
  · intro i k a hi hk
    rw [hown] at hi hk
    by_cases hij : i = j
    · by_cases hkj : k = j
      · rw [hij, hkj]
      · rw [if_pos hij] at hi
        rw [if_neg hkj] at hk
        cases hi
        exact absurd (h.owner_lt hk).2.1 (Nat.lt_irrefl _)
    · by_cases hkj : k = j
      · rw [if_neg hij] at hi
        rw [if_pos hkj] at hk
        cases hk
        exact absurd (h.owner_lt hi).2.1 (Nat.lt_irrefl _)
      · rw [if_neg hij] at hi
        rw [if_neg hkj] at hk
        exact h.unique i k a hi hk
  · intro a ha hs
    by_cases hal : a = σ.cells.length
    · exact ⟨j, by rw [hown, if_pos rfl, hal]⟩
    · have hlt : a < σ.cells.length := by
        have h1 := World.typeAt_isSome_lt hs
        rw [World.length_alloc] at h1
        exact Nat.lt_of_le_of_ne (Nat.le_of_lt_succ h1) hal
      rw [World.typeAt_alloc_old σ o hlt] at hs
      obtain ⟨i, hi⟩ := h.heldBy a ha hs
      have hij : i ≠ j := by
        intro e
        rw [e, hj] at hi
        cases hi
      exact ⟨i, by rw [hown, if_neg hij]; exact hi⟩
  · intro r u hr
    have h1 := h.external r u hr
    rw [World.typeAt_alloc_old σ o (World.typeAt_lt h1)]
    exact h1
  · rw [World.length_alloc]
    exact Nat.le_succ_of_le h.length

omit [DecidableEq U] in
/-- The object held by a wrapper object is destroyed, and the wrapper object is
replaced by one that holds nothing, or removed. -/
theorem Coherent.update_free {strict : Bool} {σ0 σ : World U El}
    {f : Nat → Option (AnyShape U)} (h : Coherent strict σ0 σ f) (j : Nat) (a : Addr)
    (hj : ownerOf f j = some a) (y : Option (AnyShape U))
    (hy : ∀ w, y = some w → w.Sound strict σ0 σ ∧ w.held = none) (out : List Item) :
    Coherent strict σ0 ((σ.print out).free a) (Function.update f j y) := by
  have hyn : y.bind AnyShape.held = none := by
    cases y with
    | none => rfl
    | some w => exact (hy w rfl).2
  have hown : ∀ i, ownerOf (Function.update f j y) i = if i = j then none else ownerOf f i := by
    intro i
    rw [ownerOf_update, hyn]
  have hfree : ∀ b, b ≠ a → ((σ.print out).free a).typeAt b = σ.typeAt b := by
    intro b hb
    rw [World.typeAt_free_other _ (fun e => hb e.symm), World.typeAt_print]
  refine ⟨?_, ?_, ?_, ?_, ?_⟩
  · intro i w hw
    by_cases hi : i = j
    · subst hi
      rw [Function.update_same] at hw
      refine (hy w hw).1.transport_world (fun b hb => ?_)
      rw [(hy w hw).2] at hb
      cases hb
    · rw [Function.update_noteq hi] at hw
      refine (h.each i w hw).transport_world (fun b hb => hfree b ?_)
      intro e
      subst e
      have hib : ownerOf f i = some b := by
        unfold ownerOf
        rw [hw]
        exact hb
      exact hi (h.unique i j b hib hj)
  · intro i k b hi hk
    rw [hown] at hi hk
    by_cases hij : i = j
    · rw [if_pos hij] at hi
      cases hi
    · by_cases hkj : k = j
      · rw [if_pos hkj] at hk
        cases hk
      · rw [if_neg hij] at hi
        rw [if_neg hkj] at hk
        exact h.unique i k b hi hk
  · intro b hb hs
    have hba : b ≠ a := by
      intro e
      rw [e, World.typeAt_free_same] at hs
      cases hs
    rw [hfree b hba] at hs
    obtain ⟨i, hi⟩ := h.heldBy b hb hs
    have hij : i ≠ j := by
      intro e
      rw [e, hj] at hi
      exact hba (Option.some.inj hi).symm
    exact ⟨i, by rw [hown, if_neg hij]; exact hi⟩
  · intro r u hr
    have hra : r ≠ a := by
      intro e
      have h1 := (h.owner_lt hj).1
      have h2 := World.typeAt_lt hr
      rw [e] at h2
      exact absurd (Nat.lt_of_lt_of_le h2 h1) (Nat.lt_irrefl _)
    rw [hfree r hra]
    exact h.external r u hr
  · rw [World.length_free]
    exact h.length

omit [DecidableEq U] in
/-- The allocation held by one wrapper object passes to another one that held
nothing, and the first is replaced by a wrapper that holds nothing. -/
theorem Coherent.update_transfer {strict : Bool} {σ0 σ : World U El}
    {f : Nat → Option (AnyShape U)} (h : Coherent strict σ0 σ f) (i j : Nat) (hij : i ≠ j)
    (a : Addr) (hi : ownerOf f i = some a) (hj : ownerOf f j = none) (e x : AnyShape U)
    (he : e.Sound strict σ0 σ) (hen : e.held = none) (hx : x.Sound strict σ0 σ)
    (hxa : x.held = some a) :
    Coherent strict σ0 σ (Function.update (Function.update f i (some e)) j (some x)) := by
  have hown : ∀ k, ownerOf (Function.update (Function.update f i (some e)) j (some x)) k =
      if k = j then some a else if k = i then none else ownerOf f k := by
    intro k
    rw [ownerOf_update, ownerOf_update]
    simp [hen, hxa]
  refine ⟨?_, ?_, ?_, h.external, h.length⟩
  · intro k w hw
    by_cases hkj : k = j
    · subst hkj
      rw [Function.update_same] at hw
      cases hw
      exact hx
    · rw [Function.update_noteq hkj] at hw
      by_cases hki : k = i
      · subst hki
        rw [Function.update_same] at hw
        cases hw
        exact he
      · rw [Function.update_noteq hki] at hw
        exact h.each k w hw
  · intro k1 k2 b h1 h2
    rw [hown] at h1 h2
    by_cases h1j : k1 = j
    · by_cases h2j : k2 = j
      · rw [h1j, h2j]
      · rw [if_pos h1j] at h1
        rw [if_neg h2j] at h2
        cases h1
        by_cases h2i : k2 = i
        · rw [if_pos h2i] at h2
          cases h2
        · rw [if_neg h2i] at h2
          exact absurd (h.unique k2 i a h2 hi) h2i
    · rw [if_neg h1j] at h1
      by_cases h1i : k1 = i
      · rw [if_pos h1i] at h1
        cases h1
      · rw [if_neg h1i] at h1
        by_cases h2j : k2 = j
        · rw [if_pos h2j] at h2
          cases h2
          exact absurd (h.unique k1 i a h1 hi) h1i
        · rw [if_neg h2j] at h2
          by_cases h2i : k2 = i
          · rw [if_pos h2i] at h2
            cases h2
          · rw [if_neg h2i] at h2
            exact h.unique k1 k2 b h1 h2
  · intro b hb hs
    obtain ⟨k, hk⟩ := h.heldBy b hb hs
    by_cases hki : k = i
    · rw [hki, hi] at hk
      cases hk
      exact ⟨j, by rw [hown, if_pos rfl]⟩
    · have hkj : k ≠ j := by
        intro e1
        rw [e1, hj] at hk
        cases hk
      exact ⟨k, by rw [hown, if_neg hkj, if_neg hki]; exact hk⟩

end CoherentUpdates

/-! ## What each operation of a wrapper does to the wrapper and to the world -/

section OperationFacts

variable {U : Type} [DecidableEq U] {El : U → Type}

/-- The outcomes of the Owning constructor. -/
theorem ShapeTE.ctor_owning_cases (u : U) (r : Addr) (σ : World U El) :
    (∀ w σ1, ShapeTE.ctor .Owning u r σ = .ok (w, σ1) →
      ∃ v, σ1 = (σ.alloc ⟨u, v⟩).2 ∧
        w.base.mData = ⟨some σ.cells.length, createDeleter u⟩ ∧
        w.base.mDuplicator = ⟨some (createDuplicator u)⟩ ∧ w.common = ShapeTECommon.ctor u) ∧
    (∀ e σ1, ShapeTE.ctor .Owning u r σ = .threw e σ1 → σ1 = σ) := by
  by_cases hb : σ.budget = 0
  · have hres : ShapeTE.ctor .Owning u r σ = .threw .bad_alloc σ := by
      simp [ShapeTE.ctor, BaseTE.ctorOwning, hb]
    rw [hres]
    refine ⟨fun w σ1 h => (by cases h), fun e σ1 h => ?_⟩
    cases h
    rfl
  · cases hv : σ.derefAs u (some r) with
    | none =>
      have hres : ShapeTE.ctor .Owning u r σ = .undefined := by
        simp [ShapeTE.ctor, BaseTE.ctorOwning, hb, hv]
      rw [hres]
      exact ⟨fun w σ1 h => (by cases h), fun e σ1 h => (by cases h)⟩
    | some v =>
      have hres : ShapeTE.ctor .Owning u r σ =
          .ok (⟨⟨⟨some σ.cells.length, createDeleter u⟩, ⟨some (createDuplicator u)⟩⟩,
            ShapeTECommon.ctor u⟩, (σ.alloc ⟨u, v⟩).2) := by
        simp [ShapeTE.ctor, BaseTE.ctorOwning, hb, hv, World.alloc]
      rw [hres]
      refine ⟨fun w σ1 h => ?_, fun e σ1 h => (by cases h)⟩
      cases h
      exact ⟨v, rfl, rfl, rfl, rfl⟩

/-- The outcomes of copy construction from an Owning wrapper. -/
theorem ShapeTE.copyCtor_owning_cases (w : ShapeTE U .Owning) (σ : World U El) :
    (∀ c σ1, ShapeTE.copyCtor w σ = .ok (c, σ1) →
      c.base.mDuplicator = w.base.mDuplicator ∧ c.common = w.common ∧
      ((w.base.mDuplicator = ⟨some .noopDuplicator⟩ ∧ σ1 = σ ∧
          c.base.mData = ⟨none, .noop⟩) ∨
        ∃ u v, w.base.mDuplicator = ⟨some (createDuplicator u)⟩ ∧
          σ.derefAs u (OwningPtrType.ptr w.base.mData) = some v ∧ σ1 = (σ.alloc ⟨u, v⟩).2 ∧
          c.base.mData = ⟨some σ.cells.length, OwningPtrType.deleter w.base.mData⟩)) ∧
    (∀ e σ1, ShapeTE.copyCtor w σ = .threw e σ1 → σ1 = σ) := by
  obtain ⟨⟨md, ⟨dup⟩⟩, com⟩ := w
  cases dup with
  | none =>
    have hres : ShapeTE.copyCtor (⟨⟨md, ⟨none⟩⟩, com⟩ : ShapeTE U .Owning) σ =
        .threw .bad_function_call σ := rfl
    rw [hres]
    refine ⟨fun c σ1 h => (by cases h), fun e σ1 h => ?_⟩
    cases h
    rfl
  | some d =>
    cases d with
    | noopDuplicator =>
      have hres : ShapeTE.copyCtor (⟨⟨md, ⟨some .noopDuplicator⟩⟩, com⟩ : ShapeTE U .Owning) σ =
          .ok (⟨⟨⟨none, .noop⟩, ⟨some .noopDuplicator⟩⟩, com⟩, σ) := rfl
      rw [hres]
      refine ⟨fun c σ1 h => ?_, fun e σ1 h => (by cases h)⟩
      cases h
      exact ⟨rfl, rfl, Or.inl ⟨rfl, rfl, rfl⟩⟩
    | duplicateAs u =>
      by_cases hb : σ.budget = 0
      · have hres : ShapeTE.copyCtor
            (⟨⟨md, ⟨some (.duplicateAs u)⟩⟩, com⟩ : ShapeTE U .Owning) σ =
            .threw .bad_alloc σ := by
          simp [ShapeTE.copyCtor, BaseTE.copyCtor, FunctionPtr.call,
            DuplicatorSignature.invoke, hb]
        rw [hres]
        refine ⟨fun c σ1 h => (by cases h), fun e σ1 h => ?_⟩
        cases h
        rfl
      · cases hv : σ.derefAs u (OwningPtrType.ptr md) with
        | none =>
          have hres : ShapeTE.copyCtor
              (⟨⟨md, ⟨some (.duplicateAs u)⟩⟩, com⟩ : ShapeTE U .Owning) σ = .undefined := by
            simp [ShapeTE.copyCtor, BaseTE.copyCtor, FunctionPtr.call,
              DuplicatorSignature.invoke, hb, hv]
          rw [hres]
          exact ⟨fun c σ1 h => (by cases h), fun e σ1 h => (by cases h)⟩
        | some v =>
          have hres : ShapeTE.copyCtor
              (⟨⟨md, ⟨some (.duplicateAs u)⟩⟩, com⟩ : ShapeTE U .Owning) σ =
              .ok (⟨⟨⟨some σ.cells.length, OwningPtrType.deleter md⟩,
                ⟨some (.duplicateAs u)⟩⟩, com⟩, (σ.alloc ⟨u, v⟩).2) := by
            simp [ShapeTE.copyCtor, BaseTE.copyCtor, FunctionPtr.call,
              DuplicatorSignature.invoke, hb, hv, World.alloc]
          rw [hres]
          refine ⟨fun c σ1 h => ?_, fun e σ1 h => (by cases h)⟩
          cases h
          exact ⟨rfl, rfl, Or.inr ⟨u, v, rfl, hv, rfl, rfl⟩⟩

/-- Copy construction from a reference wrapper copies the wrapper. -/
theorem ShapeTE.copyCtor_nonOwning {setup : TypeErasureSetup} (hs : setup ≠ .Owning)
    (w : ShapeTE U setup) (σ : World U El) : ShapeTE.copyCtor w σ = .ok (w, σ) := by
  cases setup with
  | Owning => exact absurd rfl hs
  | Ref => rfl
  | ConstRef => rfl

/-- The destructor of an owning pointer that is null, or that holds a live
object with the deleter of its type. -/
theorem OwningPtrType.dtor_cases (ops : ∀ u, Conforming (El u)) (p : OwningPtrType U)
    (σ : World U El) :
    (p.ptr = none → p.dtor ops σ = some σ) ∧
    (∀ u a, p = ⟨some a, createDeleter u⟩ → σ.typeAt a = some u →
      ∃ out, p.dtor ops σ = some ((σ.print out).free a)) := by
  constructor
  · intro h
    simp [OwningPtrType.dtor, h]
  · intro u a hp ht
    obtain ⟨v, hv⟩ := World.typeAt_eq_some.mp ht
    subst hp
    exact ⟨(ops u).dtor v, by
      simp [OwningPtrType.dtor, Deleter.invoke, createDeleter, Concrete.delete, hv]⟩

theorem DrawSignature.invoke_draw_world (ops : ∀ u, Conforming (El u))
    (f : FunctionPtr (DrawSignature U)) (p : Ptr) (σ : World U El) :
    (∀ σ1, f.call (fun g => g.invoke ops p σ) σ = .ok σ1 → ∃ out, σ1 = σ.print out) ∧
    (∀ e σ1, f.call (fun g => g.invoke ops p σ) σ = .threw e σ1 → σ1 = σ) := by
  obtain ⟨_ | g⟩ := f
  · have hres : (⟨none⟩ : FunctionPtr (DrawSignature U)).call (fun g => g.invoke ops p σ) σ =
        .threw .bad_function_call σ := rfl
    rw [hres]
    refine ⟨fun σ1 h => (by cases h), fun e σ1 h => ?_⟩
    cases h
    rfl
  · have hres : (⟨some g⟩ : FunctionPtr (DrawSignature U)).call
        (fun g => g.invoke ops p σ) σ = g.invoke ops p σ := rfl
    rw [hres]
    refine ⟨fun σ1 h => ?_, fun e σ1 h => absurd h (DrawSignature.invoke_draw_ne_threw ops g
      p σ σ1 e)⟩
    cases g with
    | memberOf u =>
      simp only [DrawSignature.invoke, Concrete.draw] at h
      split at h
      · cases h
      · cases h
        exact ⟨_, rfl⟩
    | freeOf u =>
      simp only [DrawSignature.invoke, Concrete.drawFree] at h
      split at h
      · cases h
      · cases h
        exact ⟨_, rfl⟩

theorem SetNameSignature.invoke_setName_world (ops : ∀ u, Conforming (El u))
    (f : FunctionPtr (SetNameSignature U)) (p : Ptr) (s : String) (σ : World U El) :
    (∀ σ1, f.call (fun g => g.invoke ops p s σ) σ = .ok σ1 →
      ∃ a u v, σ.typeAt a = some u ∧ σ1 = σ.store a ⟨u, v⟩) ∧
    (∀ e σ1, f.call (fun g => g.invoke ops p s σ) σ = .threw e σ1 → σ1 = σ) := by
  obtain ⟨_ | g⟩ := f
  · have hres : (⟨none⟩ : FunctionPtr (SetNameSignature U)).call
        (fun g => g.invoke ops p s σ) σ = .threw .bad_function_call σ := rfl
    rw [hres]
    refine ⟨fun σ1 h => (by cases h), fun e σ1 h => ?_⟩
    cases h
    rfl
  · have hres : (⟨some g⟩ : FunctionPtr (SetNameSignature U)).call
        (fun g => g.invoke ops p s σ) σ = g.invoke ops p s σ := rfl
    rw [hres]
    refine ⟨fun σ1 h => ?_, fun e σ1 h => absurd h
      (SetNameSignature.invoke_setName_ne_threw ops g p s σ σ1 e)⟩
    cases p with
    | none =>
      cases g <;> simp [SetNameSignature.invoke, Concrete.setName, Concrete.setNameFree] at h
    | some a =>
      cases g with
      | memberOf u =>
        cases hv : σ.derefAs u (some a) with
        | none => simp [SetNameSignature.invoke, Concrete.setName, hv] at h
        | some v =>
          simp only [SetNameSignature.invoke, Concrete.setName, hv] at h
          cases h
          exact ⟨a, u, _, World.typeAt_eq_some.mpr ⟨v, hv⟩, rfl⟩
      | freeOf u =>
        cases hv : σ.derefAs u (some a) with
        | none => simp [SetNameSignature.invoke, Concrete.setNameFree, hv] at h
        | some v =>
          simp only [SetNameSignature.invoke, Concrete.setNameFree, hv] at h
          cases h
          exact ⟨a, u, _, World.typeAt_eq_some.mpr ⟨v, hv⟩, rfl⟩

/-- Draw, in either form, only prints; when it throws the world is unchanged. -/
theorem ShapeTE.draw_world (ops : ∀ u, Conforming (El u)) {setup : TypeErasureSetup}
    (w : ShapeTE U setup) (σ : World U El) :
    (∀ σ1, ShapeTE.draw ops w σ = .ok σ1 → ∃ out, σ1 = σ.print out) ∧
    (∀ e σ1, ShapeTE.draw ops w σ = .threw e σ1 → σ1 = σ) ∧
    (∀ σ1, ShapeTE.drawFree ops w σ = .ok σ1 → ∃ out, σ1 = σ.print out) ∧
    (∀ e σ1, ShapeTE.drawFree ops w σ = .threw e σ1 → σ1 = σ) := by
  rw [ShapeTE.draw_eq, ShapeTE.drawFree_eq]
  exact ⟨(DrawSignature.invoke_draw_world ops _ _ σ).1, (DrawSignature.invoke_draw_world ops _ _ σ).2,
    (DrawSignature.invoke_draw_world ops _ _ σ).1, (DrawSignature.invoke_draw_world ops _ _ σ).2⟩

/-- SetName, in either form, only overwrites a live object with a value of its
own type; when it throws the world is unchanged. -/
theorem ShapeTE.setName_world (ops : ∀ u, Conforming (El u)) {setup : TypeErasureSetup}
    (w : ShapeTE U setup) (c : Bool) (s : String) (σ : World U El) :
    (∀ σ1, ShapeTE.setName ops w c s σ = .ok σ1 →
      ∃ a u v, σ.typeAt a = some u ∧ σ1 = σ.store a ⟨u, v⟩) ∧
    (∀ e σ1, ShapeTE.setName ops w c s σ = .threw e σ1 → σ1 = σ) ∧
    (∀ σ1, ShapeTE.setNameFree ops w c s σ = .ok σ1 →
      ∃ a u v, σ.typeAt a = some u ∧ σ1 = σ.store a ⟨u, v⟩) ∧
    (∀ e σ1, ShapeTE.setNameFree ops w c s σ = .threw e σ1 → σ1 = σ) := by
  rw [ShapeTE.setName_eq, ShapeTE.setNameFree_eq]
  refine ⟨?_, ?_, ?_, ?_⟩
  · intro σ1 h
    split at h
    · exact (SetNameSignature.invoke_setName_world ops _ _ s σ).1 σ1 h
    · cases h
  · intro e σ1 h
    split at h
    · exact (SetNameSignature.invoke_setName_world ops _ _ s σ).2 e σ1 h
    · cases h
  · intro σ1 h
    split at h
    · exact (SetNameSignature.invoke_setName_world ops _ _ s σ).1 σ1 h
    · cases h
  · intro e σ1 h
    split at h
    · exact (SetNameSignature.invoke_setName_world ops _ _ s σ).2 e σ1 h
    · cases h

end OperationFacts

/-! ## The invariant along the operations of a program -/

section StepCoherent

variable {U : Type} [DecidableEq U] {El : U → Type}

omit [DecidableEq U] in
theorem Preserved.of_undefined (strict : Bool) (σ0 : World U El) :
    Preserved strict σ0 (.undefined : Outcome (State U El) (State U El)) :=
  ⟨fun _ h => (by cases h), fun _ _ h => (by cases h)⟩

omit [DecidableEq U] in
theorem Preserved.of_rejected (strict : Bool) (σ0 : World U El) :
    Preserved strict σ0 (.rejected : Outcome (State U El) (State U El)) :=
  ⟨fun _ h => (by cases h), fun _ _ h => (by cases h)⟩

omit [DecidableEq U] in
theorem Preserved.of_ok {strict : Bool} {σ0 : World U El} {st1 : State U El}
    (h : st1.Coherent strict σ0) : Preserved strict σ0 (.ok st1) := by
  refine ⟨fun st2 h2 => ?_, fun _ _ h2 => (by cases h2)⟩
  cases h2
  exact h

omit [DecidableEq U] in
theorem Preserved.of_threw {strict : Bool} {σ0 : World U El} {st1 : State U El} {e : Exn}
    (h : (strict = true → e ≠ .bad_alloc) → st1.Coherent strict σ0) :
    Preserved strict σ0 (.threw e st1) := by
  refine ⟨fun st2 h2 => (by cases h2), fun e2 st2 h2 hs => ?_⟩
  cases h2
  exact h hs

omit [DecidableEq U] in
theorem ownerOf_of_eq {f : Nat → Option (AnyShape U)} {i : Nat} {x : AnyShape U}
    (h : f i = some x) : ownerOf f i = x.held := by
  simp [ownerOf, h]

omit [DecidableEq U] in
theorem ownerOf_of_none {f : Nat → Option (AnyShape U)} {i : Nat} (h : f i = none) :
    ownerOf f i = none := by
  simp [ownerOf, h]

omit [DecidableEq U] in
theorem State.Coherent.mk_same {strict : Bool} {σ0 : World U El} (st : State U El)
    (τ : World U El) (h : TypeErasure.Coherent strict σ0 τ st.wrapper?) :
    State.Coherent strict σ0 ⟨τ, st.wrappers⟩ := h

omit [DecidableEq U] in
theorem State.Coherent.mk_append {strict : Bool} {σ0 : World U El} (st : State U El)
    (τ : World U El) (x : AnyShape U)
    (h : TypeErasure.Coherent strict σ0 τ (Function.update st.wrapper? st.wrappers.length (some x))) :
    State.Coherent strict σ0 ⟨τ, st.wrappers ++ [some x]⟩ := by
  unfold State.Coherent
  rw [State.wrapper?_append st.world τ]
  exact h

omit [DecidableEq U] in
theorem State.Coherent.mk_set {strict : Bool} {σ0 : World U El} (st : State U El)
    (τ : World U El) {j : Nat} (hj : j < st.wrappers.length) (y : Option (AnyShape U))
    (h : TypeErasure.Coherent strict σ0 τ (Function.update st.wrapper? j y)) :
    State.Coherent strict σ0 ⟨τ, st.wrappers.set j y⟩ := by
  unfold State.Coherent
  rw [State.wrapper?_set st.world τ st.wrappers hj]
  exact h

omit [DecidableEq U] in
theorem State.Coherent.mk_set_set {strict : Bool} {σ0 : World U El} (st : State U El)
    (τ : World U El) {i j : Nat} (hi : i < st.wrappers.length) (hj : j < st.wrappers.length)
    (x y : Option (AnyShape U))
    (h : TypeErasure.Coherent strict σ0 τ (Function.update (Function.update st.wrapper? i x) j y)) :
    State.Coherent strict σ0 ⟨τ, (st.wrappers.set i x).set j y⟩ := by
  unfold State.Coherent
  rw [State.wrapper?_set st.world τ (st.wrappers.set i x) (by rw [List.length_set]; exact hj),
    State.wrapper?_set st.world st.world st.wrappers hi]
  exact h

omit [DecidableEq U] in
theorem State.Coherent.mk_set_append {strict : Bool} {σ0 : World U El} (st : State U El)
    (τ : World U El) {i : Nat} (hi : i < st.wrappers.length) (x : Option (AnyShape U))
    (y : AnyShape U)
    (h : TypeErasure.Coherent strict σ0 τ
      (Function.update (Function.update st.wrapper? i x) st.wrappers.length (some y))) :
    State.Coherent strict σ0 ⟨τ, st.wrappers.set i x ++ [some y]⟩ := by
  unfold State.Coherent
  rw [State.wrapper?_append st.world τ (st.wrappers.set i x), List.length_set,
    State.wrapper?_set st.world st.world st.wrappers hi]
  exact h

omit [DecidableEq U] in
/-- A moved-from wrapper is sound and holds nothing. -/
theorem AnyShape.Sound.moved {strict : Bool} {σ0 σ : World U El} {setup : TypeErasureSetup}
    {w : ShapeTE U setup} (h : AnyShape.Sound strict σ0 σ ⟨setup, w⟩) :
    AnyShape.Sound strict σ0 σ ⟨setup, (ShapeTE.moveCtor w).2⟩ ∧
      AnyShape.held (⟨setup, (ShapeTE.moveCtor w).2⟩ : AnyShape U) = none := by
  cases setup with
  | Owning => exact ⟨Or.inl ⟨rfl, fun _ => ⟨rfl, rfl⟩⟩, rfl⟩
  | Ref =>
    obtain ⟨r, hr, _⟩ := h
    exact ⟨⟨r, hr, fun _ => Or.inl rfl⟩, rfl⟩
  | ConstRef =>
    obtain ⟨r, hr, _⟩ := h
    exact ⟨⟨r, hr, fun _ => Or.inl rfl⟩, rfl⟩

/-- The destructor of a sound wrapper is defined: it changes nothing if the
wrapper holds nothing, and destroys the held object otherwise. -/
theorem AnyShape.Sound.dtor_sound (ops : ∀ u, Conforming (El u)) {strict : Bool}
    {σ0 σ : World U El} {setup : TypeErasureSetup} {w : ShapeTE U setup}
    (h : AnyShape.Sound strict σ0 σ ⟨setup, w⟩) :
    (AnyShape.held (⟨setup, w⟩ : AnyShape U) = none ∧ ShapeTE.dtor ops w σ = some σ) ∨
    (∃ a out, AnyShape.held (⟨setup, w⟩ : AnyShape U) = some a ∧
      ShapeTE.dtor ops w σ = some ((σ.print out).free a)) := by
  cases setup with
  | Owning =>
    rcases h with ⟨hp, _⟩ | ⟨u, a, _, hd, ht, _⟩
    · exact Or.inl ⟨hp, (OwningPtrType.dtor_cases ops _ σ).1 hp⟩
    · obtain ⟨out, ho⟩ := (OwningPtrType.dtor_cases ops _ σ).2 u a hd ht
      exact Or.inr ⟨a, out, by simp [AnyShape.held, hd], ho⟩
  | Ref => exact Or.inl ⟨rfl, rfl⟩
  | ConstRef => exact Or.inl ⟨rfl, rfl⟩

end StepCoherent

section StepCoherentOps

variable {U : Type} [DecidableEq U] {El : U → Type}

theorem step_coherent_construct (ops : ∀ u, Conforming (El u)) {strict : Bool}
    {σ0 : World U El} {st : State U El} (hinv : st.Coherent strict σ0)
    (setup : TypeErasureSetup) (u : U) (r : Addr)
    (hop : strict = true → Op.onExternal σ0 (.construct setup u r)) :
    Preserved strict σ0 (step ops st (.construct setup u r)) := by
  show Preserved strict σ0 (st.liftCtor (ShapeTE.ctor setup u r st.world))
  have hn : ownerOf st.wrapper? st.wrappers.length = none :=
    ownerOf_of_none (State.wrapper?_length st)
  cases hc : ShapeTE.ctor setup u r st.world with
  | undefined => exact Preserved.of_undefined _ _
  | rejected => exact Preserved.of_rejected _ _
  | threw e σ1 =>
    refine Preserved.of_threw (fun _ => ?_)
    cases setup with
    | Owning =>
      rw [(ShapeTE.ctor_owning_cases u r st.world).2 e σ1 hc]
      exact hinv
    | Ref => cases hc
    | ConstRef => cases hc
  | ok a =>
    obtain ⟨w, σ1⟩ := a
    refine Preserved.of_ok (State.Coherent.mk_append st σ1 _ ?_)
    by_cases hs : setup = .Owning
    · subst hs
      obtain ⟨v, hσ, hd, hdup, hcom⟩ := (ShapeTE.ctor_owning_cases u r st.world).1 w σ1 hc
      rw [hσ]
      exact Coherent.update_alloc hinv _ hn ⟨u, v⟩ w hd (fun _ => ⟨hdup, hcom⟩)
    · obtain ⟨w1, hw1, hcap, hcom⟩ := ShapeTE.ctor_nonOwning hs u r st.world
      rw [hw1] at hc
      cases hc
      refine Coherent.update_keep hinv _ _ ?_ ?_
      · intro x hx
        cases hx
        have hsound : ShapeTE.SoundRef strict σ0 w :=
          ⟨r, BaseTE.get_of_capturedFor hcap, fun hstrict => Or.inr ⟨u, hcom, hop hstrict hs⟩⟩
        cases setup with
        | Owning => exact absurd rfl hs
        | Ref => exact hsound
        | ConstRef => exact hsound
      · rw [hn]
        cases setup with
        | Owning => exact absurd rfl hs
        | Ref => rfl
        | ConstRef => rfl

omit [DecidableEq U] in
theorem step_coherent_liftWorld {strict : Bool}
    {σ0 : World U El} {st : State U El} (hinv : st.Coherent strict σ0)
    (o : Outcome (World U El) (World U El))
    (hok : ∀ σ1, o = .ok σ1 →
      (∀ a, σ1.typeAt a = st.world.typeAt a) ∧ σ1.cells.length = st.world.cells.length)
    (hthrew : ∀ e σ1, o = .threw e σ1 → σ1 = st.world) :
    Preserved strict σ0 (st.liftWorld o) := by
  cases o with
  | undefined => exact Preserved.of_undefined _ _
  | rejected => exact Preserved.of_rejected _ _
  | threw e σ1 =>
    refine Preserved.of_threw (fun _ => ?_)
    rw [hthrew e σ1 rfl]
    exact hinv
  | ok σ1 =>
    refine Preserved.of_ok (State.Coherent.mk_same st σ1 ?_)
    exact Coherent.world hinv (hok σ1 rfl).1 (hok σ1 rfl).2

theorem step_coherent_observe (ops : ∀ u, Conforming (El u)) {strict : Bool}
    {σ0 : World U El} {st : State U El} (hinv : st.Coherent strict σ0) (i : Nat)
    (value : String) :
    Preserved strict σ0 (step ops st (.draw i)) ∧
    Preserved strict σ0 (step ops st (.drawFree i)) ∧
    Preserved strict σ0 (step ops st (.setName i value)) ∧
    Preserved strict σ0 (step ops st (.setNameFree i value)) := by
  cases hw : st.wrapper? i with
  | none =>
    have h1 : step ops st (.draw i) = .undefined := by simp only [step, hw]
    have h2 : step ops st (.drawFree i) = .undefined := by simp only [step, hw]
    have h3 : step ops st (.setName i value) = .undefined := by simp only [step, hw]
    have h4 : step ops st (.setNameFree i value) = .undefined := by simp only [step, hw]
    rw [h1, h2, h3, h4]
    exact ⟨Preserved.of_undefined _ _, Preserved.of_undefined _ _, Preserved.of_undefined _ _,
      Preserved.of_undefined _ _⟩
  | some x =>
    have h1 : step ops st (.draw i) = st.liftWorld (ShapeTE.draw ops x.2 st.world) := by
      simp only [step, hw]
    have h2 : step ops st (.drawFree i) =
        st.liftWorld (ShapeTE.drawFree ops x.2 st.world) := by simp only [step, hw]
    have h3 : step ops st (.setName i value) =
        st.liftWorld (ShapeTE.setName ops x.2 false value st.world) := by simp only [step, hw]
    have h4 : step ops st (.setNameFree i value) =
        st.liftWorld (ShapeTE.setNameFree ops x.2 false value st.world) := by
      simp only [step, hw]
    rw [h1, h2, h3, h4]
    have hd := ShapeTE.draw_world ops x.2 st.world
    have hs := ShapeTE.setName_world ops x.2 false value st.world
    have hprint : ∀ σ1 : World U El, (∃ out, σ1 = st.world.print out) →
        (∀ a, σ1.typeAt a = st.world.typeAt a) ∧ σ1.cells.length = st.world.cells.length := by
      rintro σ1 ⟨out, rfl⟩
      exact ⟨fun a => World.typeAt_print _ out a, rfl⟩
    have hstore : ∀ σ1 : World U El,
        (∃ a u v, st.world.typeAt a = some u ∧ σ1 = st.world.store a ⟨u, v⟩) →
        (∀ a, σ1.typeAt a = st.world.typeAt a) ∧ σ1.cells.length = st.world.cells.length := by
      rintro σ1 ⟨a, u, v, ht, rfl⟩
      exact ⟨fun b => World.typeAt_store ht v b, World.length_store _ _ _⟩
    exact ⟨step_coherent_liftWorld hinv _ (fun σ1 h => hprint σ1 (hd.1 σ1 h)) hd.2.1,
      step_coherent_liftWorld hinv _ (fun σ1 h => hprint σ1 (hd.2.2.1 σ1 h)) hd.2.2.2,
      step_coherent_liftWorld hinv _ (fun σ1 h => hstore σ1 (hs.1 σ1 h)) hs.2.1,
      step_coherent_liftWorld hinv _ (fun σ1 h => hstore σ1 (hs.2.2.1 σ1 h)) hs.2.2.2⟩

theorem step_coherent_destroy (ops : ∀ u, Conforming (El u)) {strict : Bool}
    {σ0 : World U El} {st : State U El} (hinv : st.Coherent strict σ0) (i : Nat) :
    Preserved strict σ0 (step ops st (.destroy i)) := by
  cases hw : st.wrapper? i with
  | none =>
    have h1 : step ops st (.destroy i) = .undefined := by simp only [step, hw]
    rw [h1]
    exact Preserved.of_undefined _ _
  | some x =>
    obtain ⟨setup, w⟩ := x
    have h1 : step ops st (.destroy i) =
        (match ShapeTE.dtor ops w st.world with
        | none => .undefined
        | some σ1 => .ok ⟨σ1, st.wrappers.set i none⟩) := by simp only [step, hw]
    rw [h1]
    have hlt := State.wrapper?_lt hw
    rcases (hinv.each i _ hw).dtor_sound ops with ⟨hh, hd⟩ | ⟨a, out, hh, hd⟩
    · rw [hd]
      refine Preserved.of_ok (State.Coherent.mk_set st _ hlt none ?_)
      refine Coherent.update_keep hinv i none (fun x hx => by cases hx) ?_
      rw [ownerOf_of_eq hw, hh]
      rfl
    · rw [hd]
      refine Preserved.of_ok (State.Coherent.mk_set st _ hlt none ?_)
      exact Coherent.update_free hinv i a (by rw [ownerOf_of_eq hw, hh]) none
        (fun x hx => by cases hx) out

end StepCoherentOps

section StepCoherentCtors

variable {U : Type} [DecidableEq U] {El : U → Type}

/-- An Owning wrapper whose pointer can be dereferenced at a type holds an
object of that type. -/
theorem ShapeTE.SoundOwning.of_derefAs {strict : Bool} {n0 : Nat} {σ : World U El}
    {w : ShapeTE U .Owning} (h : w.SoundOwning strict n0 σ) {u : U} {v : El u}
    (hv : σ.derefAs u (OwningPtrType.ptr w.base.mData) = some v) :
    ∃ a, n0 ≤ a ∧ w.base.mData = ⟨some a, createDeleter u⟩ ∧ σ.typeAt a = some u ∧
      (strict = true →
        w.base.mDuplicator = ⟨some (createDuplicator u)⟩ ∧ w.common = ShapeTECommon.ctor u) := by
  rcases h with ⟨hp, _⟩ | ⟨u1, a, hn, hd, ht, hs⟩
  · rw [hp] at hv
    cases hv
  · rw [hd] at hv
    have h1 : σ.typeAt a = some u := World.typeAt_eq_some.mpr ⟨v, hv⟩
    rw [ht] at h1
    cases h1
    exact ⟨a, hn, hd, ht, hs⟩

omit [DecidableEq U] in
/-- With `strict`, an Owning wrapper with the no-op duplicator is empty and has
null trampolines. -/
theorem ShapeTE.SoundOwning.of_noop {n0 : Nat} {σ : World U El}
    {w : ShapeTE U .Owning} (h : w.SoundOwning true n0 σ)
    (hd : w.base.mDuplicator = ⟨some .noopDuplicator⟩) :
    OwningPtrType.ptr w.base.mData = none ∧ w.common = ShapeTECommon.null U := by
  rcases h with ⟨hp, hs⟩ | ⟨u1, a, _, _, _, hs⟩
  · exact ⟨hp, (hs rfl).2⟩
  · have h1 := (hs rfl).1
    rw [hd] at h1
    cases h1

theorem step_coherent_copyConstruct (ops : ∀ u, Conforming (El u)) {strict : Bool}
    {σ0 : World U El} {st : State U El} (hinv : st.Coherent strict σ0) (src : Nat) :
    Preserved strict σ0 (step ops st (.copyConstruct src)) := by
  have hn : ownerOf st.wrapper? st.wrappers.length = none :=
    ownerOf_of_none (State.wrapper?_length st)
  cases hw : st.wrapper? src with
  | none =>
    have h1 : step ops st (.copyConstruct src) = .undefined := by simp only [step, hw]
    rw [h1]
    exact Preserved.of_undefined _ _
  | some x =>
    obtain ⟨setup, w⟩ := x
    have h1 : step ops st (.copyConstruct src) = st.liftCtor (ShapeTE.copyCtor w st.world) := by
      simp only [step, hw]
    rw [h1]
    have hsound := hinv.each src _ hw
    by_cases hs : setup = .Owning
    · subst hs
      cases hc : ShapeTE.copyCtor w st.world with
      | undefined => exact Preserved.of_undefined _ _
      | rejected => exact Preserved.of_rejected _ _
      | threw e σ1 =>
        refine Preserved.of_threw (fun _ => ?_)
        rw [(ShapeTE.copyCtor_owning_cases w st.world).2 e σ1 hc]
        exact hinv
      | ok a =>
        obtain ⟨c, σ1⟩ := a
        refine Preserved.of_ok (State.Coherent.mk_append st σ1 _ ?_)
        obtain ⟨hdup, hcom, hcase⟩ := (ShapeTE.copyCtor_owning_cases w st.world).1 c σ1 hc
        rcases hcase with ⟨hwd, hσ, hcd⟩ | ⟨u, v, hwd, hv, hσ, hcd⟩
        · rw [hσ]
          refine Coherent.update_keep hinv _ _ ?_ ?_
          · intro y hy
            cases hy
            refine Or.inl ⟨by rw [hcd], fun hstrict => ?_⟩
            subst hstrict
            rw [hdup, hcom]
            exact ⟨hwd, (ShapeTE.SoundOwning.of_noop hsound hwd).2⟩
          · rw [hn]
            show OwningPtrType.ptr c.base.mData = none
            rw [hcd]
        · obtain ⟨a, _, hmd, _, hstr⟩ := ShapeTE.SoundOwning.of_derefAs hsound hv
          rw [hσ]
          refine Coherent.update_alloc hinv _ hn ⟨u, v⟩ c ?_ ?_
          · rw [hcd, hmd]
          · intro hstrict
            rw [hdup, hcom]
            exact hstr hstrict
    · rw [ShapeTE.copyCtor_nonOwning hs w st.world]
      refine Preserved.of_ok (State.Coherent.mk_append st _ _ ?_)
      refine Coherent.update_keep hinv _ _ ?_ ?_
      · intro y hy
        cases hy
        exact hsound
      · rw [hn]
        cases setup with
        | Owning => exact absurd rfl hs
        | Ref => rfl
        | ConstRef => rfl

theorem step_coherent_moveConstruct (ops : ∀ u, Conforming (El u)) {strict : Bool}
    {σ0 : World U El} {st : State U El} (hinv : st.Coherent strict σ0) (src : Nat) :
    Preserved strict σ0 (step ops st (.moveConstruct src)) := by
  have hn : ownerOf st.wrapper? st.wrappers.length = none :=
    ownerOf_of_none (State.wrapper?_length st)
  cases hw : st.wrapper? src with
  | none =>
    have h1 : step ops st (.moveConstruct src) = .undefined := by simp only [step, hw]
    rw [h1]
    exact Preserved.of_undefined _ _
  | some x =>
    obtain ⟨setup, w⟩ := x
    have h1 : step ops st (.moveConstruct src) =
        .ok ⟨st.world, st.wrappers.set src (some ⟨setup, (ShapeTE.moveCtor w).2⟩) ++
          [some ⟨setup, w⟩]⟩ := by
      simp only [step, hw, ShapeTE.moveCtor_fst]
    rw [h1]
    have hsound := hinv.each src _ hw
    have hlt := State.wrapper?_lt hw
    have hne : src ≠ st.wrappers.length := Nat.ne_of_lt hlt
    obtain ⟨hms, hmh⟩ := hsound.moved
    refine Preserved.of_ok (State.Coherent.mk_set_append st _ hlt _ _ ?_)
    cases hh : AnyShape.held (⟨setup, w⟩ : AnyShape U) with
    | some a =>
      exact Coherent.update_transfer hinv src _ hne a (by rw [ownerOf_of_eq hw, hh]) hn _ _
        hms hmh hsound hh
    | none =>
      have hstep1 := Coherent.update_keep hinv src (some ⟨setup, (ShapeTE.moveCtor w).2⟩)
        (fun y hy => by cases hy; exact hms)
        (by rw [ownerOf_of_eq hw, hh]; exact hmh)
      refine Coherent.update_keep hstep1 _ _ (fun y hy => by cases hy; exact hsound) ?_
      rw [ownerOf_update, if_neg (Ne.symm hne), hn]
      exact hh

end StepCoherentCtors

section AssignmentFacts

variable {U : Type} [DecidableEq U] {El : U → Type}

theorem ShapeTE.copyAssign_self (ops : ∀ u, Conforming (El u)) {setup : TypeErasureSetup}
    (w : ShapeTE U setup) (σ : World U El) : ShapeTE.copyAssign ops true w w σ = .ok (w, σ) := by
  cases setup <;> rfl

theorem ShapeTE.moveAssign_self (ops : ∀ u, Conforming (El u)) {setup : TypeErasureSetup}
    (w : ShapeTE U setup) (σ : World U El) :
    ShapeTE.moveAssign ops true w w σ = some (w, w, σ) := by
  cases setup <;> rfl

theorem ShapeTE.copyAssign_nonOwning (ops : ∀ u, Conforming (El u)) {setup : TypeErasureSetup}
    (hs : setup ≠ .Owning) (same : Bool) (d s : ShapeTE U setup) (σ : World U El) :
    ShapeTE.copyAssign ops same d s σ = .ok (s, σ) := by
  cases setup with
  | Owning => exact absurd rfl hs
  | Ref => rfl
  | ConstRef => rfl

/-- The outcomes of copy assignment between two distinct Owning wrappers. -/
theorem ShapeTE.copyAssign_owning_cases (ops : ∀ u, Conforming (El u))
    (d s : ShapeTE U .Owning) (σ : World U El) :
    (∀ d1 σ1, ShapeTE.copyAssign ops false d s σ = .ok (d1, σ1) →
      d1.base.mDuplicator = s.base.mDuplicator ∧ d1.common = s.common ∧
      ((s.base.mDuplicator = ⟨some .noopDuplicator⟩ ∧
          OwningPtrType.dtor ops d.base.mData σ = some σ1 ∧ d1.base.mData = ⟨none, .noop⟩) ∨
        ∃ u v, s.base.mDuplicator = ⟨some (createDuplicator u)⟩ ∧
          σ.derefAs u (OwningPtrType.ptr s.base.mData) = some v ∧
          OwningPtrType.dtor ops d.base.mData (σ.alloc ⟨u, v⟩).2 = some σ1 ∧
          d1.base.mData = ⟨some σ.cells.length, OwningPtrType.deleter s.base.mData⟩)) ∧
    (∀ e d1 σ1, ShapeTE.copyAssign ops false d s σ = .threw e (d1, σ1) →
      σ1 = σ ∧ d1.base.mData = d.base.mData ∧ d1.common = d.common ∧
      d1.base.mDuplicator = s.base.mDuplicator ∧
      (e = .bad_alloc ∨ s.base.mDuplicator = ⟨none⟩)) := by
  obtain ⟨⟨smd, ⟨sp⟩⟩, scom⟩ := s
  cases sp with
  | none =>
    have hres : ShapeTE.copyAssign ops false d ⟨⟨smd, ⟨none⟩⟩, scom⟩ σ =
        .threw .bad_function_call (⟨⟨d.base.mData, ⟨none⟩⟩, d.common⟩, σ) := rfl
    rw [hres]
    refine ⟨fun d1 σ1 h => (by cases h), fun e d1 σ1 h => ?_⟩
    cases h
    exact ⟨rfl, rfl, rfl, rfl, Or.inr rfl⟩
  | some dd =>
    cases dd with
    | noopDuplicator =>
      cases hd : OwningPtrType.dtor ops d.base.mData σ with
      | none =>
        have hres : ShapeTE.copyAssign ops false d ⟨⟨smd, ⟨some .noopDuplicator⟩⟩, scom⟩ σ =
            .undefined := by
          simp [ShapeTE.copyAssign, BaseTE.copyAssign, FunctionPtr.call, FunctionPtr.copyAssign,
            DuplicatorSignature.invoke, OwningPtrType.moveAssign, hd]
        rw [hres]
        exact ⟨fun d1 σ1 h => (by cases h), fun e d1 σ1 h => (by cases h)⟩
      | some σ2 =>
        have hres : ShapeTE.copyAssign ops false d ⟨⟨smd, ⟨some .noopDuplicator⟩⟩, scom⟩ σ =
            .ok (⟨⟨⟨none, .noop⟩, ⟨some .noopDuplicator⟩⟩, scom⟩, σ2) := by
          simp [ShapeTE.copyAssign, BaseTE.copyAssign, FunctionPtr.call, FunctionPtr.copyAssign,
            DuplicatorSignature.invoke, OwningPtrType.moveAssign, hd, ShapeTECommon.copyAssign]
        rw [hres]
        refine ⟨fun d1 σ1 h => ?_, fun e d1 σ1 h => (by cases h)⟩
        cases h
        exact ⟨rfl, rfl, Or.inl ⟨rfl, rfl, rfl⟩⟩
    | duplicateAs u =>
      by_cases hb : σ.budget = 0
      · have hres := ShapeTE.copyAssign_bad_alloc ops d
          ⟨⟨smd, ⟨some (.duplicateAs u)⟩⟩, scom⟩ σ u rfl hb
        rw [hres]
        refine ⟨fun d1 σ1 h => (by cases h), fun e d1 σ1 h => ?_⟩
        cases h
        exact ⟨rfl, rfl, rfl, rfl, Or.inl rfl⟩
      · cases hv : σ.derefAs u smd.ptr with
        | none =>
          have hres : ShapeTE.copyAssign ops false d ⟨⟨smd, ⟨some (.duplicateAs u)⟩⟩, scom⟩ σ =
              .undefined := by
            simp [ShapeTE.copyAssign, BaseTE.copyAssign, FunctionPtr.call,
              FunctionPtr.copyAssign, DuplicatorSignature.invoke, hb, hv]
          rw [hres]
          exact ⟨fun d1 σ1 h => (by cases h), fun e d1 σ1 h => (by cases h)⟩
        | some v =>
          cases hd : OwningPtrType.dtor ops d.base.mData (σ.alloc ⟨u, v⟩).2 with
          | none =>
            have hres : ShapeTE.copyAssign ops false d
                ⟨⟨smd, ⟨some (.duplicateAs u)⟩⟩, scom⟩ σ = .undefined := by
              simp [ShapeTE.copyAssign, BaseTE.copyAssign, FunctionPtr.call,
                FunctionPtr.copyAssign, DuplicatorSignature.invoke, hb, hv,
                OwningPtrType.moveAssign, hd]
            rw [hres]
            exact ⟨fun d1 σ1 h => (by cases h), fun e d1 σ1 h => (by cases h)⟩
          | some σ2 =>
            have hres : ShapeTE.copyAssign ops false d
                ⟨⟨smd, ⟨some (.duplicateAs u)⟩⟩, scom⟩ σ =
                .ok (⟨⟨⟨some σ.cells.length, smd.deleter⟩, ⟨some (.duplicateAs u)⟩⟩, scom⟩,
                  σ2) := by
              have hd1 := hd
              simp only [World.alloc] at hd1
              simp [ShapeTE.copyAssign, BaseTE.copyAssign, FunctionPtr.call,
                FunctionPtr.copyAssign, DuplicatorSignature.invoke, hb, hv,
                OwningPtrType.moveAssign, hd1, ShapeTECommon.copyAssign, World.alloc]
            rw [hres]
            refine ⟨fun d1 σ1 h => ?_, fun e d1 σ1 h => (by cases h)⟩
            cases h
            exact ⟨rfl, rfl, Or.inr ⟨u, v, rfl, hv, hd, rfl⟩⟩

omit [DecidableEq U] in
/-- Releasing a cell and allocating a new one gives the same objects, in
either order. -/
theorem World.typeAt_alloc_free (σ : World U El) (o : Obj U El) (out : List Item) {b : Addr}
    (hb : b < σ.cells.length) :
    (∀ a, (((σ.alloc o).2.print out).free b).typeAt a =
      (((σ.print out).free b).alloc o).2.typeAt a) ∧
    (((σ.alloc o).2.print out).free b).cells.length =
      (((σ.print out).free b).alloc o).2.cells.length := by
  have hc : (((σ.alloc o).2.print out).free b).cells =
      (((σ.print out).free b).alloc o).2.cells := by
    simp only [World.alloc, World.print, World.free]
    exact List.set_append_left _ _ hb
  exact ⟨fun a => by simp only [World.typeAt, World.load, hc], by rw [hc]⟩

omit [DecidableEq U] in
theorem Function.update_update_other {α : Type} (f : Nat → α) {i j : Nat} (hij : i ≠ j)
    (a b c : α) :
    Function.update (Function.update (Function.update f j a) i b) j c =
      Function.update (Function.update f i b) j c := by
  funext k
  by_cases hkj : k = j
  · subst hkj
    simp
  · by_cases hki : k = i
    · subst hki
      simp [Function.update_noteq hkj]
    · simp [Function.update_noteq hkj, Function.update_noteq hki]

end AssignmentFacts

section StepCoherentAssign

variable {U : Type} [DecidableEq U] {El : U → Type}

theorem step_coherent_moveAssign (ops : ∀ u, Conforming (El u)) {strict : Bool}
    {σ0 : World U El} {st : State U El} (hinv : st.Coherent strict σ0) (dst src : Nat) :
    Preserved strict σ0 (step ops st (.moveAssign dst src)) := by
  cases hwd : st.wrapper? dst with
  | none =>
    have h1 : step ops st (.moveAssign dst src) = .undefined := by
      cases hws : st.wrapper? src <;> simp only [step, hwd, hws]
    rw [h1]
    exact Preserved.of_undefined _ _
  | some x =>
    obtain ⟨sd, d⟩ := x
    cases hws : st.wrapper? src with
    | none =>
      have h1 : step ops st (.moveAssign dst src) = .undefined := by simp only [step, hwd, hws]
      rw [h1]
      exact Preserved.of_undefined _ _
    | some y =>
      obtain ⟨ss, s⟩ := y
      have hltd := State.wrapper?_lt hwd
      have hlts := State.wrapper?_lt hws
      by_cases h : ss = sd
      · subst h
        by_cases hsame : dst = src
        · subst hsame
          rw [hwd] at hws
          cases hws
          have h1 : step ops st (.moveAssign dst dst) =
              .ok ⟨st.world, (st.wrappers.set dst (some ⟨ss, s⟩)).set dst (some ⟨ss, s⟩)⟩ := by
            simp only [step, hwd, dite_true, beq_self_eq_true, ShapeTE.moveAssign_self]
          rw [h1]
          refine Preserved.of_ok (State.Coherent.mk_set_set st _ hltd hltd _ _ ?_)
          have hself : Function.update st.wrapper? dst (some ⟨ss, s⟩) = st.wrapper? :=
            Function.update_eq_self_iff.mpr hwd.symm
          rw [Function.update_idem, hself]
          exact hinv
        · have hbeq : (dst == src) = false := by simpa using hsame
          have hds := hinv.each dst _ hwd
          have hss := hinv.each src _ hws
          have hstep : ∀ σ1, ShapeTE.dtor ops d st.world = some σ1 →
              step ops st (.moveAssign dst src) =
                .ok ⟨σ1, (st.wrappers.set src (some ⟨ss, (ShapeTE.moveCtor s).2⟩)).set dst
                  (some ⟨ss, s⟩)⟩ := by
            intro σ1 hd
            simp only [step, hwd, hws, dite_true, hbeq, ShapeTE.moveAssign_distinct ops d s hd]
          have hsrc_ne : src ≠ dst := fun hh => hsame hh.symm
          -- the table once the destination has given up what it held
          have hstage : ∀ (τ : World U El) (g : Nat → Option (AnyShape U)),
              TypeErasure.Coherent strict σ0 τ g → g src = some ⟨ss, s⟩ →
              ownerOf g dst = none →
              TypeErasure.Coherent strict σ0 τ
                (Function.update (Function.update g src (some ⟨ss, (ShapeTE.moveCtor s).2⟩)) dst
                  (some ⟨ss, s⟩)) := by
            intro τ g hg hgs hgd
            have hsτ := hg.each src _ hgs
            obtain ⟨hms, hmh⟩ := hsτ.moved
            cases hh : AnyShape.held (⟨ss, s⟩ : AnyShape U) with
            | some a =>
              exact Coherent.update_transfer hg src dst hsrc_ne a
                (by rw [ownerOf_of_eq hgs, hh]) hgd _ _ hms hmh hsτ hh
            | none =>
              have hstep1 := Coherent.update_keep hg src (some ⟨ss, (ShapeTE.moveCtor s).2⟩)
                (fun y hy => by cases hy; exact hms)
                (by rw [ownerOf_of_eq hgs, hh]; exact hmh)
              refine Coherent.update_keep hstep1 _ _ (fun y hy => by cases hy; exact hsτ) ?_
              rw [ownerOf_update, if_neg hsame, hgd]
              exact hh
          rcases hds.dtor_sound ops with ⟨hh, hd⟩ | ⟨a, out, hh, hd⟩
          · rw [hstep _ hd]
            refine Preserved.of_ok (State.Coherent.mk_set_set st _ hlts hltd _ _ ?_)
            exact hstage _ _ hinv hws (by rw [ownerOf_of_eq hwd, hh])
          · rw [hstep _ hd]
            refine Preserved.of_ok (State.Coherent.mk_set_set st _ hlts hltd _ _ ?_)
            have hfree := Coherent.update_free hinv dst a (by rw [ownerOf_of_eq hwd, hh]) none
              (fun x hx => by cases hx) out
            have h2 := hstage _ _ hfree (by rw [Function.update_noteq hsrc_ne]; exact hws)
              (by rw [ownerOf_update, if_pos rfl]; rfl)
            rw [Function.update_update_other _ hsrc_ne] at h2
            exact h2
      · have h1 : step ops st (.moveAssign dst src) = .rejected := by
          simp only [step, hwd, hws, dif_neg h]
        rw [h1]
        exact Preserved.of_rejected _ _

end StepCoherentAssign

section StepCoherentCopyAssign

variable {U : Type} [DecidableEq U] {El : U → Type}

/-- Copy assignment between two Owning wrapper objects that goes through the
duplicator keeps the invariant. -/
theorem step_coherent_copyAssign_owning (ops : ∀ u, Conforming (El u)) {strict : Bool}
    {σ0 : World U El} {st : State U El} (hinv : st.Coherent strict σ0) {dst src : Nat}
    {d s : ShapeTE U .Owning} (hwd : st.wrapper? dst = some ⟨.Owning, d⟩)
    (hws : st.wrapper? src = some ⟨.Owning, s⟩) :
    (∀ d1 σ1, ShapeTE.copyAssign ops false d s st.world = .ok (d1, σ1) →
      TypeErasure.Coherent strict σ0 σ1 (Function.update st.wrapper? dst (some ⟨.Owning, d1⟩))) ∧
    (∀ e d1 σ1, ShapeTE.copyAssign ops false d s st.world = .threw e (d1, σ1) →
      (strict = true → e ≠ .bad_alloc) →
      TypeErasure.Coherent strict σ0 σ1
        (Function.update st.wrapper? dst (some ⟨.Owning, d1⟩))) := by
  have hds : d.SoundOwning strict σ0.cells.length st.world := hinv.each dst _ hwd
  have hss : s.SoundOwning strict σ0.cells.length st.world := hinv.each src _ hws
  have hcases := ShapeTE.copyAssign_owning_cases ops d s st.world
  constructor
  · intro d1 σ1 hc
    obtain ⟨hdup, hcom, hcase⟩ := hcases.1 d1 σ1 hc
    rcases hcase with ⟨hsd, hdt, hmd⟩ | ⟨u, v, hsd, hv, hdt, hmd⟩
    · -- the source is empty: the destination only gives up what it held
      have hd1 : AnyShape.Sound strict σ0 st.world ⟨.Owning, d1⟩ ∧
          AnyShape.held (⟨.Owning, d1⟩ : AnyShape U) = none := by
        refine ⟨Or.inl ⟨by rw [hmd], fun hstrict => ?_⟩, ?_⟩
        · subst hstrict
          rw [hdup, hcom]
          exact ⟨hsd, (ShapeTE.SoundOwning.of_noop hss hsd).2⟩
        · show OwningPtrType.ptr d1.base.mData = none
          rw [hmd]
      rcases AnyShape.Sound.dtor_sound ops (hinv.each dst _ hwd) with ⟨hh, hd⟩ | ⟨a, out, hh, hd⟩
      · have hσ : σ1 = st.world := by
          have := hdt.symm.trans hd
          exact (Option.some.inj this)
        rw [hσ]
        refine Coherent.update_keep hinv _ _ (fun y hy => by cases hy; exact hd1.1) ?_
        rw [ownerOf_of_eq hwd, hh]
        exact hd1.2
      · have hσ : σ1 = (st.world.print out).free a := by
          have := hdt.symm.trans hd
          exact (Option.some.inj this)
        rw [hσ]
        exact Coherent.update_free hinv dst a (by rw [ownerOf_of_eq hwd, hh]) _
          (fun y hy => by cases hy; exact hd1) out
    · -- the source holds an object of type `u`: a copy is allocated first
      obtain ⟨as, _, hsmd, _, hstr⟩ := ShapeTE.SoundOwning.of_derefAs hss hv
      have hmd1 : d1.base.mData = ⟨some st.world.cells.length, createDeleter u⟩ := by
        rw [hmd, hsmd]
      have hstr1 : strict = true →
          d1.base.mDuplicator = ⟨some (createDuplicator u)⟩ ∧
            d1.common = ShapeTECommon.ctor u := by
        intro hstrict
        rw [hdup, hcom]
        exact hstr hstrict
      have hdτ : AnyShape.Sound strict σ0 (st.world.alloc ⟨u, v⟩).2 ⟨.Owning, d⟩ :=
        AnyShape.Sound.transport_world (hinv.each dst _ hwd) (fun a ha =>
          World.typeAt_alloc_old _ _
            (hinv.owner_lt (by rw [ownerOf_of_eq hwd]; exact ha)).2.1)
      rcases AnyShape.Sound.dtor_sound ops hdτ with ⟨hh, hd⟩ | ⟨a, out, hh, hd⟩
      · have hσ : σ1 = (st.world.alloc ⟨u, v⟩).2 := by
          have := hdt.symm.trans hd
          exact (Option.some.inj this)
        rw [hσ]
        exact Coherent.update_alloc hinv dst (by rw [ownerOf_of_eq hwd, hh]) ⟨u, v⟩ d1 hmd1 hstr1
      · have hσ : σ1 = ((st.world.alloc ⟨u, v⟩).2.print out).free a := by
          have := hdt.symm.trans hd
          exact (Option.some.inj this)
        rw [hσ]
        have hown : ownerOf st.wrapper? dst = some a := by rw [ownerOf_of_eq hwd, hh]
        have hlt := (hinv.owner_lt hown).2.1
        have hfree := Coherent.update_free hinv dst a hown none (fun x hx => by cases hx) out
        have hlen : ((st.world.print out).free a).cells.length = st.world.cells.length :=
          World.length_free _ _
        have halloc := Coherent.update_alloc hfree dst
          (by rw [ownerOf_update, if_pos rfl]; rfl) ⟨u, v⟩ d1 (by rw [hlen]; exact hmd1) hstr1
        rw [Function.update_idem] at halloc
        obtain ⟨ht, hl⟩ := World.typeAt_alloc_free st.world ⟨u, v⟩ out hlt
        exact Coherent.world halloc ht hl
  · intro e d1 σ1 hc hstrict
    obtain ⟨hσ, hmd, hcom, hdup, he⟩ := hcases.2 e d1 σ1 hc
    rw [hσ]
    have hnostrict : strict = true → False := by
      intro hs
      rcases he with he | he
      · exact hstrict hs he
      · subst hs
        rcases hss with ⟨_, h1⟩ | ⟨u, a, _, _, _, h1⟩
        · have h2 := (h1 rfl).1
          rw [he] at h2
          cases h2
        · have h2 := (h1 rfl).1
          rw [he] at h2
          cases h2
    refine Coherent.update_keep hinv _ _ (fun y hy => ?_) ?_
    · cases hy
      rcases hds with ⟨hp, _⟩ | ⟨u, a, hn, hd, ht, _⟩
      · exact Or.inl ⟨by rw [hmd]; exact hp, fun hs => (hnostrict hs).elim⟩
      · exact Or.inr ⟨u, a, hn, by rw [hmd]; exact hd, ht, fun hs => (hnostrict hs).elim⟩
    · rw [ownerOf_of_eq hwd]
      show OwningPtrType.ptr d1.base.mData = OwningPtrType.ptr d.base.mData
      rw [hmd]

theorem step_coherent_copyAssign (ops : ∀ u, Conforming (El u)) {strict : Bool}
    {σ0 : World U El} {st : State U El} (hinv : st.Coherent strict σ0) (dst src : Nat) :
    Preserved strict σ0 (step ops st (.copyAssign dst src)) := by
  cases hwd : st.wrapper? dst with
  | none =>
    have h1 : step ops st (.copyAssign dst src) = .undefined := by
      cases hws : st.wrapper? src <;> simp only [step, hwd, hws]
    rw [h1]
    exact Preserved.of_undefined _ _
  | some x =>
    obtain ⟨sd, d⟩ := x
    cases hws : st.wrapper? src with
    | none =>
      have h1 : step ops st (.copyAssign dst src) = .undefined := by simp only [step, hwd, hws]
      rw [h1]
      exact Preserved.of_undefined _ _
    | some y =>
      obtain ⟨ss, s⟩ := y
      have hltd := State.wrapper?_lt hwd
      by_cases h : ss = sd
      · subst h
        have h1 : step ops st (.copyAssign dst src) =
            (match ShapeTE.copyAssign ops (dst == src) d s st.world with
            | .ok (d1, σ1) => .ok ⟨σ1, st.wrappers.set dst (some ⟨ss, d1⟩)⟩
            | .threw e (d1, σ1) => .threw e ⟨σ1, st.wrappers.set dst (some ⟨ss, d1⟩)⟩
            | .undefined => .undefined
            | .rejected => .rejected) := by
          simp only [step, hwd, hws, dite_true]
        rw [h1]
        by_cases hsame : dst = src
        · subst hsame
          rw [hwd] at hws
          cases hws
          rw [beq_self_eq_true, ShapeTE.copyAssign_self]
          refine Preserved.of_ok (State.Coherent.mk_set st _ hltd _ ?_)
          have hself : Function.update st.wrapper? dst (some ⟨ss, s⟩) = st.wrapper? :=
            Function.update_eq_self_iff.mpr hwd.symm
          rw [hself]
          exact hinv
        · have hbeq : (dst == src) = false := by simpa using hsame
          rw [hbeq]
          by_cases hs : ss = .Owning
          · subst hs
            have hkey := step_coherent_copyAssign_owning ops hinv hwd hws
            cases hc : ShapeTE.copyAssign ops false d s st.world with
            | undefined => exact Preserved.of_undefined _ _
            | rejected => exact Preserved.of_rejected _ _
            | ok a =>
              obtain ⟨d1, σ1⟩ := a
              exact Preserved.of_ok (State.Coherent.mk_set st _ hltd _ (hkey.1 d1 σ1 hc))
            | threw e a =>
              obtain ⟨d1, σ1⟩ := a
              exact Preserved.of_threw (fun hstrict =>
                State.Coherent.mk_set st _ hltd _ (hkey.2 e d1 σ1 hc hstrict))
          · rw [ShapeTE.copyAssign_nonOwning ops hs false d s st.world]
            refine Preserved.of_ok (State.Coherent.mk_set st _ hltd _ ?_)
            refine Coherent.update_keep hinv _ _
              (fun y hy => by cases hy; exact hinv.each src _ hws) ?_
            rw [ownerOf_of_eq hwd]
            cases ss with
            | Owning => exact absurd rfl hs
            | Ref => rfl
            | ConstRef => rfl
      · have h1 : step ops st (.copyAssign dst src) = .rejected := by
          simp only [step, hwd, hws, dif_neg h]
        rw [h1]
        exact Preserved.of_rejected _ _

/-- Every operation keeps the invariant. -/
theorem step_coherent (ops : ∀ u, Conforming (El u)) {strict : Bool}
    {σ0 : World U El} {st : State U El} (hinv : st.Coherent strict σ0) (op : Op U)
    (hop : strict = true → op.onExternal σ0) :
    Preserved strict σ0 (step ops st op) := by
  cases op with
  | construct setup u r => exact step_coherent_construct ops hinv setup u r hop
  | copyConstruct src => exact step_coherent_copyConstruct ops hinv src
  | moveConstruct src => exact step_coherent_moveConstruct ops hinv src
  | copyAssign dst src => exact step_coherent_copyAssign ops hinv dst src
  | moveAssign dst src => exact step_coherent_moveAssign ops hinv dst src
  | draw i => exact (step_coherent_observe ops hinv i "").1
  | drawFree i => exact (step_coherent_observe ops hinv i "").2.1
  | setName i value => exact (step_coherent_observe ops hinv i value).2.2.1
  | setNameFree i value => exact (step_coherent_observe ops hinv i value).2.2.2
  | destroy i => exact step_coherent_destroy ops hinv i

omit [DecidableEq U] in
/-- The invariant holds before the first operation. -/
theorem State.Coherent.init (strict : Bool) (σ0 : World U El) :
    (State.init σ0).Coherent strict σ0 where
  each := fun i w hw => by cases hw
  unique := fun i j a hi _ => by cases hi
  heldBy := fun a ha hs => absurd (World.typeAt_isSome_lt hs) (Nat.not_lt.mpr ha)
  external := fun _ _ h => h
  length := Nat.le_refl _

/-- The invariant of ownership holds after every program. -/
theorem run_coherent (ops : ∀ u, Conforming (El u)) {σ0 : World U El}
    (trace : List (Op U)) :
    ∀ {st st1 : State U El}, st.Coherent false σ0 → run ops st trace = some st1 →
      st1.Coherent false σ0 := by
  induction trace with
  | nil =>
    intro st st1 hinv hrun
    cases hrun
    exact hinv
  | cons op rest ih =>
    intro st st1 hinv hrun
    have hp := step_coherent ops hinv op (fun h => by cases h)
    cases hs : step ops st op with
    | ok st2 =>
      simp only [run, hs] at hrun
      exact ih (hp.1 st2 hs) hrun
    | threw e st2 =>
      simp only [run, hs] at hrun
      exact ih (hp.2 e st2 hs (fun h => by cases h)) hrun
    | undefined => simp only [run, hs] at hrun; cases hrun
    | rejected => simp only [run, hs] at hrun; cases hrun

/-- The invariant of ownership and of types holds after every program in which
no allocation fails and reference wrappers are constructed on externally owned
objects. -/
theorem run_coherent_strict (ops : ∀ u, Conforming (El u)) {σ0 : World U El}
    (trace : List (Op U)) (hext : ∀ op ∈ trace, op.onExternal σ0) :
    ∀ {st st1 : State U El}, st.Coherent true σ0 → allocationSucceeds ops st trace = true →
      run ops st trace = some st1 → st1.Coherent true σ0 := by
  induction trace with
  | nil =>
    intro st st1 hinv _ hrun
    cases hrun
    exact hinv
  | cons op rest ih =>
    intro st st1 hinv halloc hrun
    have hp := step_coherent ops hinv op (fun _ => hext op (List.mem_cons_self _ _))
    have hext1 : ∀ o ∈ rest, o.onExternal σ0 := fun o ho => hext o (List.mem_cons_of_mem _ ho)
    cases hs : step ops st op with
    | ok st2 =>
      simp only [run, hs] at hrun
      simp only [allocationSucceeds, hs] at halloc
      exact ih hext1 (hp.1 st2 hs) halloc hrun
    | threw e st2 =>
      simp only [run, hs] at hrun
      simp only [allocationSucceeds, hs, Bool.and_eq_true, bne_iff_ne, ne_eq] at halloc
      exact ih hext1 (hp.2 e st2 hs (fun _ => halloc.1)) halloc.2 hrun
    | undefined => simp only [run, hs] at hrun; cases hrun
    | rejected => simp only [run, hs] at hrun; cases hrun

end StepCoherentCopyAssign

/-! ## What each operation releases -/

section ReleaseFacts

variable {U : Type} [DecidableEq U] {El : U → Type}

omit [DecidableEq U] in
theorem World.ReleasedOnly.of_same {σ σ1 : World U El} (h : ∀ a, σ1.typeAt a = σ.typeAt a) :
    World.ReleasedOnly σ σ1 none := by
  intro a _
  rw [if_neg (by simp)]
  exact h a

omit [DecidableEq U] in
theorem World.ReleasedOnly.of_alloc (σ : World U El) (o : Obj U El) :
    World.ReleasedOnly σ (σ.alloc o).2 none := by
  intro a ha
  rw [if_neg (by simp)]
  exact World.typeAt_alloc_old σ o ha

omit [DecidableEq U] in
theorem World.ReleasedOnly.of_free (σ : World U El) (out : List Item) (b : Addr) :
    World.ReleasedOnly σ ((σ.print out).free b) (some b) := by
  intro a _
  by_cases hab : b = a
  · subst hab
    rw [if_pos rfl]
    exact World.typeAt_free_same _ _
  · rw [if_neg (fun h => hab (Option.some.inj h)), World.typeAt_free_other _ hab]
    rfl

omit [DecidableEq U] in
theorem World.ReleasedOnly.of_alloc_free (σ : World U El) (o : Obj U El) (out : List Item)
    (b : Addr) : World.ReleasedOnly σ (((σ.alloc o).2.print out).free b) (some b) := by
  intro a ha
  by_cases hab : b = a
  · subst hab
    rw [if_pos rfl]
    exact World.typeAt_free_same _ _
  · rw [if_neg (fun h => hab (Option.some.inj h)), World.typeAt_free_other _ hab]
    exact World.typeAt_alloc_old σ o ha

omit [DecidableEq U] in
theorem Releasing.at_undefined (σ : World U El) (rel : Option Addr) :
    Releasing σ rel (.undefined : Outcome (State U El) (State U El)) :=
  ⟨fun _ h => (by cases h), fun _ _ h => (by cases h)⟩

omit [DecidableEq U] in
theorem Releasing.at_rejected (σ : World U El) (rel : Option Addr) :
    Releasing σ rel (.rejected : Outcome (State U El) (State U El)) :=
  ⟨fun _ h => (by cases h), fun _ _ h => (by cases h)⟩

omit [DecidableEq U] in
theorem Releasing.at_ok {σ : World U El} {rel : Option Addr} {st1 : State U El}
    (h : World.ReleasedOnly σ st1.world rel) : Releasing σ rel (.ok st1) := by
  refine ⟨fun st2 h2 => ?_, fun _ _ h2 => (by cases h2)⟩
  cases h2
  exact h

omit [DecidableEq U] in
theorem Releasing.at_threw {σ : World U El} {rel : Option Addr} {st1 : State U El} {e : Exn}
    (h : World.ReleasedOnly σ st1.world none) : Releasing σ rel (.threw e st1) := by
  refine ⟨fun _ h2 => (by cases h2), fun e2 st2 h2 => ?_⟩
  cases h2
  exact h

omit [DecidableEq U] in
theorem Releasing.at_liftWorld (st : State U El) (o : Outcome (World U El) (World U El))
    (hok : ∀ σ1, o = .ok σ1 → ∀ a, σ1.typeAt a = st.world.typeAt a)
    (hthrew : ∀ e σ1, o = .threw e σ1 → σ1 = st.world) :
    Releasing st.world none (st.liftWorld o) := by
  cases o with
  | undefined => exact Releasing.at_undefined _ _
  | rejected => exact Releasing.at_rejected _ _
  | threw e σ1 =>
    refine Releasing.at_threw (World.ReleasedOnly.of_same (fun a => ?_))
    show σ1.typeAt a = st.world.typeAt a
    rw [hthrew e σ1 rfl]
  | ok σ1 => exact Releasing.at_ok (World.ReleasedOnly.of_same (hok σ1 rfl))

omit [DecidableEq U] in
theorem Releasing.at_liftCtor (st : State U El) {setup : TypeErasureSetup}
    (o : Outcome (World U El) (ShapeTE U setup × World U El))
    (hok : ∀ w σ1, o = .ok (w, σ1) → World.ReleasedOnly st.world σ1 none)
    (hthrew : ∀ e σ1, o = .threw e σ1 → σ1 = st.world) :
    Releasing st.world none (st.liftCtor o) := by
  cases o with
  | undefined => exact Releasing.at_undefined _ _
  | rejected => exact Releasing.at_rejected _ _
  | threw e σ1 =>
    refine Releasing.at_threw (World.ReleasedOnly.of_same (fun a => ?_))
    show σ1.typeAt a = st.world.typeAt a
    rw [hthrew e σ1 rfl]
  | ok a =>
    obtain ⟨w, σ1⟩ := a
    exact Releasing.at_ok (hok w σ1 rfl)

/-- The destructor of a sound wrapper releases what the wrapper holds. -/
theorem AnyShape.Sound.dtor_releases (ops : ∀ u, Conforming (El u)) {strict : Bool}
    {σ0 σ : World U El} {setup : TypeErasureSetup} {w : ShapeTE U setup}
    (h : AnyShape.Sound strict σ0 σ ⟨setup, w⟩) :
    ∃ σ1, ShapeTE.dtor ops w σ = some σ1 ∧
      World.ReleasedOnly σ σ1 (AnyShape.held (⟨setup, w⟩ : AnyShape U)) := by
  rcases h.dtor_sound ops with ⟨hh, hd⟩ | ⟨a, out, hh, hd⟩
  · exact ⟨σ, hd, by rw [hh]; exact World.ReleasedOnly.of_same (fun _ => rfl)⟩
  · exact ⟨_, hd, by rw [hh]; exact World.ReleasedOnly.of_free σ out a⟩

theorem step_releasing_construct (ops : ∀ u, Conforming (El u)) (st : State U El)
    (setup : TypeErasureSetup) (u : U) (r : Addr) :
    Releasing st.world none (step ops st (.construct setup u r)) := by
  show Releasing st.world none (st.liftCtor (ShapeTE.ctor setup u r st.world))
  by_cases hs : setup = .Owning
  · subst hs
    refine Releasing.at_liftCtor st _ (fun w σ1 hc => ?_)
      (ShapeTE.ctor_owning_cases u r st.world).2
    obtain ⟨v, hσ, _⟩ := (ShapeTE.ctor_owning_cases u r st.world).1 w σ1 hc
    rw [hσ]
    exact World.ReleasedOnly.of_alloc _ _
  · obtain ⟨w1, hw1, _⟩ := ShapeTE.ctor_nonOwning hs u r st.world
    rw [hw1]
    exact Releasing.at_ok (World.ReleasedOnly.of_same (fun _ => rfl))

theorem step_releasing_copyConstruct (ops : ∀ u, Conforming (El u)) (st : State U El)
    (src : Nat) : Releasing st.world none (step ops st (.copyConstruct src)) := by
  cases hw : st.wrapper? src with
  | none =>
    have h1 : step ops st (.copyConstruct src) = .undefined := by simp only [step, hw]
    rw [h1]
    exact Releasing.at_undefined _ _
  | some x =>
    obtain ⟨setup, w⟩ := x
    have h1 : step ops st (.copyConstruct src) = st.liftCtor (ShapeTE.copyCtor w st.world) := by
      simp only [step, hw]
    rw [h1]
    by_cases hs : setup = .Owning
    · subst hs
      refine Releasing.at_liftCtor st _ (fun c σ1 hc => ?_)
        (ShapeTE.copyCtor_owning_cases w st.world).2
      obtain ⟨_, _, hcase⟩ := (ShapeTE.copyCtor_owning_cases w st.world).1 c σ1 hc
      rcases hcase with ⟨_, hσ, _⟩ | ⟨u, v, _, _, hσ, _⟩
      · rw [hσ]
        exact World.ReleasedOnly.of_same (fun _ => rfl)
      · rw [hσ]
        exact World.ReleasedOnly.of_alloc _ _
    · rw [ShapeTE.copyCtor_nonOwning hs w st.world]
      exact Releasing.at_ok (World.ReleasedOnly.of_same (fun _ => rfl))

theorem step_releasing_moveConstruct (ops : ∀ u, Conforming (El u)) (st : State U El)
    (src : Nat) : Releasing st.world none (step ops st (.moveConstruct src)) := by
  cases hw : st.wrapper? src with
  | none =>
    have h1 : step ops st (.moveConstruct src) = .undefined := by simp only [step, hw]
    rw [h1]
    exact Releasing.at_undefined _ _
  | some x =>
    obtain ⟨setup, w⟩ := x
    have h1 : step ops st (.moveConstruct src) =
        .ok ⟨st.world, st.wrappers.set src (some ⟨setup, (ShapeTE.moveCtor w).2⟩) ++
          [some ⟨setup, (ShapeTE.moveCtor w).1⟩]⟩ := by
      simp only [step, hw]
    rw [h1]
    exact Releasing.at_ok (World.ReleasedOnly.of_same (fun _ => rfl))

theorem step_releasing_observe (ops : ∀ u, Conforming (El u)) (st : State U El) (i : Nat)
    (value : String) :
    Releasing st.world none (step ops st (.draw i)) ∧
    Releasing st.world none (step ops st (.drawFree i)) ∧
    Releasing st.world none (step ops st (.setName i value)) ∧
    Releasing st.world none (step ops st (.setNameFree i value)) := by
  cases hw : st.wrapper? i with
  | none =>
    have h1 : step ops st (.draw i) = .undefined := by simp only [step, hw]
    have h2 : step ops st (.drawFree i) = .undefined := by simp only [step, hw]
    have h3 : step ops st (.setName i value) = .undefined := by simp only [step, hw]
    have h4 : step ops st (.setNameFree i value) = .undefined := by simp only [step, hw]
    rw [h1, h2, h3, h4]
    exact ⟨Releasing.at_undefined _ _, Releasing.at_undefined _ _, Releasing.at_undefined _ _,
      Releasing.at_undefined _ _⟩
  | some x =>
    have h1 : step ops st (.draw i) = st.liftWorld (ShapeTE.draw ops x.2 st.world) := by
      simp only [step, hw]
    have h2 : step ops st (.drawFree i) =
        st.liftWorld (ShapeTE.drawFree ops x.2 st.world) := by simp only [step, hw]
    have h3 : step ops st (.setName i value) =
        st.liftWorld (ShapeTE.setName ops x.2 false value st.world) := by simp only [step, hw]
    have h4 : step ops st (.setNameFree i value) =
        st.liftWorld (ShapeTE.setNameFree ops x.2 false value st.world) := by
      simp only [step, hw]
    rw [h1, h2, h3, h4]
    have hd := ShapeTE.draw_world ops x.2 st.world
    have hs := ShapeTE.setName_world ops x.2 false value st.world
    have hprint : ∀ σ1 : World U El, (∃ out, σ1 = st.world.print out) →
        ∀ a, σ1.typeAt a = st.world.typeAt a := by
      rintro σ1 ⟨out, rfl⟩
      exact fun a => World.typeAt_print _ out a
    have hstore : ∀ σ1 : World U El,
        (∃ a u v, st.world.typeAt a = some u ∧ σ1 = st.world.store a ⟨u, v⟩) →
        ∀ a, σ1.typeAt a = st.world.typeAt a := by
      rintro σ1 ⟨a, u, v, ht, rfl⟩
      exact fun b => World.typeAt_store ht v b
    exact ⟨Releasing.at_liftWorld st _ (fun σ1 h => hprint σ1 (hd.1 σ1 h)) hd.2.1,
      Releasing.at_liftWorld st _ (fun σ1 h => hprint σ1 (hd.2.2.1 σ1 h)) hd.2.2.2,
      Releasing.at_liftWorld st _ (fun σ1 h => hstore σ1 (hs.1 σ1 h)) hs.2.1,
      Releasing.at_liftWorld st _ (fun σ1 h => hstore σ1 (hs.2.2.1 σ1 h)) hs.2.2.2⟩

theorem step_releasing_destroy (ops : ∀ u, Conforming (El u)) {strict : Bool}
    {σ0 : World U El} {st : State U El} (hinv : st.Coherent strict σ0) (i : Nat) :
    Releasing st.world (ownerOf st.wrapper? i) (step ops st (.destroy i)) := by
  cases hw : st.wrapper? i with
  | none =>
    have h1 : step ops st (.destroy i) = .undefined := by simp only [step, hw]
    rw [h1]
    exact Releasing.at_undefined _ _
  | some x =>
    obtain ⟨setup, w⟩ := x
    obtain ⟨σ1, hd, hrel⟩ := (hinv.each i _ hw).dtor_releases ops
    have h1 : step ops st (.destroy i) = .ok ⟨σ1, st.wrappers.set i none⟩ := by
      simp only [step, hw, hd]
    rw [h1, ownerOf_of_eq hw]
    exact Releasing.at_ok hrel

end ReleaseFacts

section ReleaseAssign

variable {U : Type} [DecidableEq U] {El : U → Type}

omit [DecidableEq U] in
theorem World.ReleasedOnly.of_alloc_then {σ σ1 : World U El} {o : Obj U El}
    {rel : Option Addr} (h : World.ReleasedOnly (σ.alloc o).2 σ1 rel) :
    World.ReleasedOnly σ σ1 rel := by
  intro a ha
  have ha1 : a < (σ.alloc o).2.cells.length := by
    rw [World.length_alloc]
    exact Nat.lt_succ_of_lt ha
  rw [h a ha1, World.typeAt_alloc_old σ o ha]

theorem step_releasing_moveAssign (ops : ∀ u, Conforming (El u)) {strict : Bool}
    {σ0 : World U El} {st : State U El} (hinv : st.Coherent strict σ0) (dst src : Nat) :
    Releasing st.world (if dst = src then none else ownerOf st.wrapper? dst)
      (step ops st (.moveAssign dst src)) := by
  cases hwd : st.wrapper? dst with
  | none =>
    have h1 : step ops st (.moveAssign dst src) = .undefined := by
      cases hws : st.wrapper? src <;> simp only [step, hwd, hws]
    rw [h1]
    exact Releasing.at_undefined _ _
  | some x =>
    obtain ⟨sd, d⟩ := x
    cases hws : st.wrapper? src with
    | none =>
      have h1 : step ops st (.moveAssign dst src) = .undefined := by simp only [step, hwd, hws]
      rw [h1]
      exact Releasing.at_undefined _ _
    | some y =>
      obtain ⟨ss, s⟩ := y
      by_cases h : ss = sd
      · subst h
        by_cases hsame : dst = src
        · subst hsame
          rw [hwd] at hws
          cases hws
          have h1 : step ops st (.moveAssign dst dst) =
              .ok ⟨st.world, (st.wrappers.set dst (some ⟨ss, s⟩)).set dst (some ⟨ss, s⟩)⟩ := by
            simp only [step, hwd, dite_true, beq_self_eq_true, ShapeTE.moveAssign_self]
          rw [h1, if_pos rfl]
          exact Releasing.at_ok (World.ReleasedOnly.of_same (fun _ => rfl))
        · have hbeq : (dst == src) = false := by simpa using hsame
          obtain ⟨σ1, hd, hrel⟩ := (hinv.each dst _ hwd).dtor_releases ops
          have h1 : step ops st (.moveAssign dst src) =
              .ok ⟨σ1, (st.wrappers.set src (some ⟨ss, (ShapeTE.moveCtor s).2⟩)).set dst
                (some ⟨ss, s⟩)⟩ := by
            simp only [step, hwd, hws, dite_true, hbeq, ShapeTE.moveAssign_distinct ops d s hd]
          rw [h1, if_neg hsame, ownerOf_of_eq hwd]
          exact Releasing.at_ok hrel
      · have h1 : step ops st (.moveAssign dst src) = .rejected := by
          simp only [step, hwd, hws, dif_neg h]
        rw [h1]
        exact Releasing.at_rejected _ _

theorem step_releasing_copyAssign (ops : ∀ u, Conforming (El u)) {strict : Bool}
    {σ0 : World U El} {st : State U El} (hinv : st.Coherent strict σ0) (dst src : Nat) :
    Releasing st.world (if dst = src then none else ownerOf st.wrapper? dst)
      (step ops st (.copyAssign dst src)) := by
  cases hwd : st.wrapper? dst with
  | none =>
    have h1 : step ops st (.copyAssign dst src) = .undefined := by
      cases hws : st.wrapper? src <;> simp only [step, hwd, hws]
    rw [h1]
    exact Releasing.at_undefined _ _
  | some x =>
    obtain ⟨sd, d⟩ := x
    cases hws : st.wrapper? src with
    | none =>
      have h1 : step ops st (.copyAssign dst src) = .undefined := by simp only [step, hwd, hws]
      rw [h1]
      exact Releasing.at_undefined _ _
    | some y =>
      obtain ⟨ss, s⟩ := y
      by_cases h : ss = sd
      · subst h
        have h1 : step ops st (.copyAssign dst src) =
            (match ShapeTE.copyAssign ops (dst == src) d s st.world with
            | .ok (d1, σ1) => .ok ⟨σ1, st.wrappers.set dst (some ⟨ss, d1⟩)⟩
            | .threw e (d1, σ1) => .threw e ⟨σ1, st.wrappers.set dst (some ⟨ss, d1⟩)⟩
            | .undefined => .undefined
            | .rejected => .rejected) := by
          simp only [step, hwd, hws, dite_true]
        rw [h1]
        by_cases hsame : dst = src
        · subst hsame
          rw [hwd] at hws
          cases hws
          rw [beq_self_eq_true, ShapeTE.copyAssign_self, if_pos rfl]
          exact Releasing.at_ok (World.ReleasedOnly.of_same (fun _ => rfl))
        · have hbeq : (dst == src) = false := by simpa using hsame
          rw [hbeq, if_neg hsame, ownerOf_of_eq hwd]
          by_cases hs : ss = .Owning
          · subst hs
            have hcases := ShapeTE.copyAssign_owning_cases ops d s st.world
            have hss : s.SoundOwning strict σ0.cells.length st.world := hinv.each src _ hws
            cases hc : ShapeTE.copyAssign ops false d s st.world with
            | undefined => exact Releasing.at_undefined _ _
            | rejected => exact Releasing.at_rejected _ _
            | threw e a =>
              obtain ⟨d1, σ1⟩ := a
              obtain ⟨hσ, _⟩ := hcases.2 e d1 σ1 hc
              refine Releasing.at_threw (World.ReleasedOnly.of_same (fun a => ?_))
              show σ1.typeAt a = st.world.typeAt a
              rw [hσ]
            | ok a =>
              obtain ⟨d1, σ1⟩ := a
              refine Releasing.at_ok ?_
              show World.ReleasedOnly st.world σ1 _
              obtain ⟨_, _, hcase⟩ := hcases.1 d1 σ1 hc
              rcases hcase with ⟨_, hdt, _⟩ | ⟨u, v, _, hv, hdt, _⟩
              · obtain ⟨σ2, hd, hrel⟩ := (hinv.each dst _ hwd).dtor_releases ops
                have hσ : σ1 = σ2 := Option.some.inj (hdt.symm.trans hd)
                rw [hσ]
                exact hrel
              · have hdτ : AnyShape.Sound strict σ0 (st.world.alloc ⟨u, v⟩).2 ⟨.Owning, d⟩ :=
                  AnyShape.Sound.transport_world (hinv.each dst _ hwd) (fun a ha =>
                    World.typeAt_alloc_old _ _
                      (hinv.owner_lt (by rw [ownerOf_of_eq hwd]; exact ha)).2.1)
                obtain ⟨σ2, hd, hrel⟩ := hdτ.dtor_releases ops
                have hσ : σ1 = σ2 := Option.some.inj (hdt.symm.trans hd)
                rw [hσ]
                exact World.ReleasedOnly.of_alloc_then hrel
          · rw [ShapeTE.copyAssign_nonOwning ops hs false d s st.world]
            refine Releasing.at_ok ?_
            have hh : AnyShape.held (⟨ss, d⟩ : AnyShape U) = none := by
              cases ss with
              | Owning => exact absurd rfl hs
              | Ref => rfl
              | ConstRef => rfl
            rw [hh]
            exact World.ReleasedOnly.of_same (fun _ => rfl)
      · have h1 : step ops st (.copyAssign dst src) = .rejected := by
          simp only [step, hwd, hws, dif_neg h]
        rw [h1]
        exact Releasing.at_rejected _ _

/-- Every operation releases the allocation `Op.releases` names, if it
completes, and nothing else. -/
theorem step_releasing (ops : ∀ u, Conforming (El u)) {strict : Bool}
    {σ0 : World U El} {st : State U El} (hinv : st.Coherent strict σ0) (op : Op U) :
    Releasing st.world (op.releases st) (step ops st op) := by
  cases op with
  | construct setup u r => exact step_releasing_construct ops st setup u r
  | copyConstruct src => exact step_releasing_copyConstruct ops st src
  | moveConstruct src => exact step_releasing_moveConstruct ops st src
  | copyAssign dst src => exact step_releasing_copyAssign ops hinv dst src
  | moveAssign dst src => exact step_releasing_moveAssign ops hinv dst src
  | draw i => exact (step_releasing_observe ops st i "").1
  | drawFree i => exact (step_releasing_observe ops st i "").2.1
  | setName i value => exact (step_releasing_observe ops st i value).2.2.1
  | setNameFree i value => exact (step_releasing_observe ops st i value).2.2.2
  | destroy i => exact step_releasing_destroy ops hinv i

omit [DecidableEq U] in
/-- An operation on a reference wrapper releases nothing. -/
theorem Op.releases_of_onReference {st : State U El} {op : Op U} (h : op.onReference st) :
    op.releases st = none := by
  have hnone : ∀ i, (∃ w, st.wrapper? i = some w ∧ w.1 ≠ .Owning) →
      ownerOf st.wrapper? i = none := by
    rintro i ⟨⟨setup, w⟩, hw, hs⟩
    rw [ownerOf_of_eq hw]
    cases setup with
    | Owning => exact absurd rfl hs
    | Ref => rfl
    | ConstRef => rfl
  cases op with
  | construct setup u r => rfl
  | copyConstruct src => rfl
  | moveConstruct src => rfl
  | copyAssign dst src =>
    show (if dst = src then none else ownerOf st.wrapper? dst) = none
    rw [hnone dst h, ite_self]
  | moveAssign dst src =>
    show (if dst = src then none else ownerOf st.wrapper? dst) = none
    rw [hnone dst h, ite_self]
  | draw i => rfl
  | drawFree i => rfl
  | setName i value => rfl
  | setNameFree i value => rfl
  | destroy i => exact hnone i h

end ReleaseAssign

/-! ## C16: ownership of allocations -/

section OwnershipClaim

variable {U : Type} [DecidableEq U] {El : U → Type}

/-- The destructor of an owning pointer that holds an object of the type its
deleter was captured for runs the destructor of that type on the object and
releases its cell. -/
theorem OwningPtrType.dtor_of_derefAs (ops : ∀ u, Conforming (El u)) {σ : World U El}
    {u : U} {a : Addr} {v : El u} (hv : σ.derefAs u (some a) = some v) :
    OwningPtrType.dtor ops ⟨some a, createDeleter u⟩ σ =
      some ((σ.print ((ops u).dtor v)).free a) := by
  simp [OwningPtrType.dtor, Deleter.invoke, createDeleter, Concrete.delete, hv]

omit [DecidableEq U] in
/-- What a wrapper object of a coherent state holds. -/
theorem State.Coherent.holds {strict : Bool} {σ0 : World U El} {st : State U El}
    (h : st.Coherent strict σ0) {i : Nat} {a : Addr} (hi : st.Holds i a) :
    σ0.cells.length ≤ a ∧
    ∃ w u, st.wrapper? i = some ⟨.Owning, w⟩ ∧ w.base.mData = ⟨some a, createDeleter u⟩ ∧
      st.world.typeAt a = some u := by
  unfold State.Holds ownerOf at hi
  cases hw : st.wrapper? i with
  | none => rw [hw] at hi; cases hi
  | some x =>
    rw [hw] at hi
    have hx : x.held = some a := hi
    obtain ⟨setup, w⟩ := x
    have hsound := h.each i _ hw
    cases setup with
    | Owning =>
      rcases hsound with ⟨hp, _⟩ | ⟨u, b, hn, hd, ht, _⟩
      · have h2 : OwningPtrType.ptr w.base.mData = some a := hx
        rw [hp] at h2
        cases h2
      · have h2 : OwningPtrType.ptr w.base.mData = some a := hx
        rw [hd] at h2
        cases h2
        exact ⟨hn, w, u, rfl, hd, ht⟩
    | Ref => cases hx
    | ConstRef => cases hx

/-- C16: in every state a program of public operations reaches from a store of
externally owned objects, no two live wrapper objects hold the same
allocation; a held allocation is a live object made by the program, held by
an Owning wrapper whose deleter was captured for the type of the object;
every live object made by the program is held by a wrapper object; the
externally owned objects are never released.  An operation that completes
releases the allocation held by the wrapper object it destroys or assigns to
from another object (`Op.releases`) and no other; an operation that throws
releases nothing; an operation on a reference wrapper releases nothing.
Destroying the holder of an allocation is defined, runs the destructor of the
object under its own type and releases its cell; destroying a wrapper object
that holds nothing leaves the store as it is.  A released allocation stays
released and is never held again, so that no deleter runs on it a second
time. -/
theorem C16_allocations_owned_and_released_once (ops : ∀ u, Conforming (El u))
    (σ0 : World U El) (trace : List (Op U)) (st : State U El)
    (hrun : run ops (State.init σ0) trace = some st) :
    (∀ i j a, st.Holds i a → st.Holds j a → i = j) ∧
    (∀ i a, st.Holds i a → σ0.cells.length ≤ a ∧
      ∃ w u, st.wrapper? i = some ⟨.Owning, w⟩ ∧ w.base.mData = ⟨some a, createDeleter u⟩ ∧
        st.world.typeAt a = some u) ∧
    (∀ a, σ0.cells.length ≤ a → (st.world.typeAt a).isSome = true → ∃ i, st.Holds i a) ∧
    (∀ r u, σ0.typeAt r = some u → st.world.typeAt r = some u) ∧
    (∀ op st1, step ops st op = .ok st1 →
      World.ReleasedOnly st.world st1.world (op.releases st)) ∧
    (∀ op e st1, step ops st op = .threw e st1 →
      World.ReleasedOnly st.world st1.world none) ∧
    (∀ op : Op U, op.onReference st → op.releases st = none) ∧
    (∀ i a, st.Holds i a → ∃ u v st1, st.world.derefAs u (some a) = some v ∧
      step ops st (.destroy i) = .ok st1 ∧
      st1.world = (st.world.print ((ops u).dtor v)).free a ∧
      st1.wrapper? i = none ∧ st1.world.typeAt a = none) ∧
    (∀ i w, st.wrapper? i = some w → ownerOf st.wrapper? i = none →
      step ops st (.destroy i) = .ok ⟨st.world, st.wrappers.set i none⟩) ∧
    (∀ op st1, (step ops st op = .ok st1 ∨ ∃ e, step ops st op = .threw e st1) →
      ∀ a, a < st.world.cells.length → st.world.typeAt a = none →
        st1.world.typeAt a = none ∧ ∀ i, ¬ st1.Holds i a) := by
  have hcoh : st.Coherent false σ0 := run_coherent ops trace (State.Coherent.init false σ0) hrun
  refine ⟨hcoh.unique, fun i a hi => hcoh.holds hi, hcoh.heldBy, hcoh.external,
    fun op => (step_releasing ops hcoh op).1, fun op => (step_releasing ops hcoh op).2,
    fun op h => Op.releases_of_onReference h, ?_, ?_, ?_⟩
  · intro i a hi
    obtain ⟨_, w, u, hw, hd, ht⟩ := hcoh.holds hi
    obtain ⟨v, hv⟩ := World.typeAt_eq_some.mp ht
    have hdt : ShapeTE.dtor ops w st.world =
        some ((st.world.print ((ops u).dtor v)).free a) := by
      show OwningPtrType.dtor ops w.base.mData st.world = _
      rw [hd]
      exact OwningPtrType.dtor_of_derefAs ops hv
    refine ⟨u, v, ⟨(st.world.print ((ops u).dtor v)).free a, st.wrappers.set i none⟩, hv, ?_,
      rfl, ?_, World.typeAt_free_same _ _⟩
    · simp only [step, hw, hdt]
    · rw [State.wrapper?_set st.world _ st.wrappers (State.wrapper?_lt hw) none]
      exact Function.update_same _ _ _
  · intro i w hw hnone
    obtain ⟨setup, w⟩ := w
    rcases (hcoh.each i _ hw).dtor_sound ops with ⟨_, hd⟩ | ⟨a, out, hh, _⟩
    · simp only [step, hw, hd]
    · rw [ownerOf_of_eq hw, hh] at hnone
      cases hnone
  · intro op st1 hs a ha hdead
    have hp := step_coherent ops hcoh op (fun h => by cases h)
    have hr := step_releasing ops hcoh op
    have hboth : (∃ rel, World.ReleasedOnly st.world st1.world rel) ∧ st1.Coherent false σ0 := by
      rcases hs with h | ⟨e, h⟩
      · exact ⟨⟨_, hr.1 st1 h⟩, hp.1 st1 h⟩
      · exact ⟨⟨_, hr.2 e st1 h⟩, hp.2 e st1 h (fun h => by cases h)⟩
    obtain ⟨⟨rel, hrel⟩, hcoh1⟩ := hboth
    have h1 : st1.world.typeAt a = none := by
      rw [hrel a ha, hdead, ite_self]
    refine ⟨h1, fun i hi => ?_⟩
    obtain ⟨_, w, u, _, _, ht⟩ := hcoh1.holds hi
    rw [h1] at ht
    cases ht

/-- C16 at a program on the objects of main.cpp: `Shape shape{sq};
ShapeRef shapeRef{sq}; Shape copy{shape}; shape = std::move(copy);` and the
end of the lifetime of `shapeRef`. -/
theorem C16_allocations_owned_and_released_once_witness :
    ∃ st, run mainOps (State.init mainWorld)
      [.construct .Owning .square 0, .construct .Ref .square 0, .copyConstruct 0,
        .moveAssign 0 2, .destroy 1] = some st ∧
    (∀ i j a, st.Holds i a → st.Holds j a → i = j) ∧
    (∀ i a, st.Holds i a → mainWorld.cells.length ≤ a ∧
      ∃ w u, st.wrapper? i = some ⟨.Owning, w⟩ ∧ w.base.mData = ⟨some a, createDeleter u⟩ ∧
        st.world.typeAt a = some u) ∧
    (∀ a, mainWorld.cells.length ≤ a → (st.world.typeAt a).isSome = true →
      ∃ i, st.Holds i a) ∧
    (∀ r u, mainWorld.typeAt r = some u → st.world.typeAt r = some u) ∧
    (∀ op st1, step mainOps st op = .ok st1 →
      World.ReleasedOnly st.world st1.world (op.releases st)) ∧
    (∀ op e st1, step mainOps st op = .threw e st1 →
      World.ReleasedOnly st.world st1.world none) ∧
    (∀ op : Op MainType, op.onReference st → op.releases st = none) ∧
    (∀ i a, st.Holds i a → ∃ u v st1, st.world.derefAs u (some a) = some v ∧
      step mainOps st (.destroy i) = .ok st1 ∧
      st1.world = (st.world.print ((mainOps u).dtor v)).free a ∧
      st1.wrapper? i = none ∧ st1.world.typeAt a = none) ∧
    (∀ i w, st.wrapper? i = some w → ownerOf st.wrapper? i = none →
      step mainOps st (.destroy i) = .ok ⟨st.world, st.wrappers.set i none⟩) ∧
    (∀ op st1, (step mainOps st op = .ok st1 ∨ ∃ e, step mainOps st op = .threw e st1) →
      ∀ a, a < st.world.cells.length → st.world.typeAt a = none →
        st1.world.typeAt a = none ∧ ∀ i, ¬ st1.Holds i a) :=
  ⟨_, rfl, C16_allocations_owned_and_released_once mainOps mainWorld
    [.construct .Owning .square 0, .construct .Ref .square 0, .copyConstruct 0,
      .moveAssign 0 2, .destroy 1] _ rfl⟩

end OwnershipClaim

/-! ## C17: the stored object and the captured functions belong to one type -/

section TypeCoherenceClaim

variable {U : Type} [DecidableEq U] {El : U → Type}

/-- C17: take a program of public operations, started from a store of
externally owned objects, in which no allocation fails and every reference
wrapper is constructed on one of those objects under the object's own type (in
C++ the constructor takes a `ShapeT&`).  In every state it reaches, every live
wrapper either has null trampolines or wraps a live object of a concrete type
`u` at the address it stores: the four trampolines and, for Owning, the
deleter and the duplicator were captured for `u`, and the object at that
address has type `u`.  So `draw` and `setName`, in member and free form, run
the functions of `u` on that object, and the destructor of an Owning wrapper
runs the destructor of `u` on it and releases it. -/
theorem C17_captured_functions_share_the_type (ops : ∀ u, Conforming (El u))
    (σ0 : World U El) (trace : List (Op U)) (st : State U El)
    (hrun : run ops (State.init σ0) trace = some st)
    (halloc : allocationSucceeds ops (State.init σ0) trace = true)
    (hext : ∀ op ∈ trace, op.onExternal σ0) :
    ∀ i setup (w : ShapeTE U setup), st.wrapper? i = some ⟨setup, w⟩ →
      w.common = ShapeTECommon.null U ∨
      ∃ u a v, w.Wraps st.world u a v ∧
        ShapeTE.draw ops w st.world = .ok (st.world.print ((ops u).draw v)) ∧
        ShapeTE.drawFree ops w st.world = .ok (st.world.print ((ops u).drawFree v)) ∧
        (∀ objConst value, ShapeTE.setName ops w objConst value st.world =
          if setNameAccepted memberSetNameOverloads setup objConst then
            .ok (st.world.store a ⟨u, (ops u).setName v value⟩)
          else .rejected) ∧
        (∀ objConst value, ShapeTE.setNameFree ops w objConst value st.world =
          if setNameAccepted friendSetNameOverloads setup objConst then
            .ok (st.world.store a ⟨u, (ops u).setNameFree v value⟩)
          else .rejected) ∧
        ShapeTE.dtor ops w st.world =
          some (if setup = .Owning then (st.world.print ((ops u).dtor v)).free a
            else st.world) := by
  have hcoh : st.Coherent true σ0 :=
    run_coherent_strict ops trace hext (State.Coherent.init true σ0) halloc hrun
  intro i setup w hw
  have hsound := hcoh.each i _ hw
  have hwraps : w.common = ShapeTECommon.null U ∨ ∃ u a v, w.Wraps st.world u a v := by
    have href : ∀ {s : TypeErasureSetup} (x : ShapeTE U s), x.SoundRef true σ0 →
        (∀ r, x.base.get = some r → ∀ u, x.base.CapturedFor u r) →
        x.common = ShapeTECommon.null U ∨ ∃ u a v, x.Wraps st.world u a v := by
      intro s x hx hcap
      obtain ⟨r, hr, hs⟩ := hx
      rcases hs rfl with hnull | ⟨u, hcom, ht0⟩
      · exact Or.inl hnull
      · obtain ⟨v, hv⟩ := World.typeAt_eq_some.mp (hcoh.external r u ht0)
        exact Or.inr ⟨u, r, v, hcap r hr u, hcom, hv⟩
    cases setup with
    | Owning =>
      rcases hsound with ⟨_, hs⟩ | ⟨u, a, _, hd, ht, hs⟩
      · exact Or.inl (hs rfl).2
      · obtain ⟨v, hv⟩ := World.typeAt_eq_some.mp ht
        exact Or.inr ⟨u, a, v, ⟨hd, (hs rfl).1⟩, (hs rfl).2, hv⟩
    | Ref => exact href w hsound (fun r hr _ => hr)
    | ConstRef => exact href w hsound (fun r hr _ => hr)
  rcases hwraps with hnull | ⟨u, a, v, h⟩
  · exact Or.inl hnull
  · refine Or.inr ⟨u, a, v, h, h.draw ops, h.drawFree ops, h.setName_if ops, h.setNameFree_if ops,
      ?_⟩
    cases setup with
    | Owning => rw [if_pos rfl]; exact h.dtor ops
    | Ref => rfl
    | ConstRef => rfl

/-- C17 at a program on the objects of main.cpp: `Shape shape{sq};
ShapeRef shapeRef{sq}; Shape copy{shape}; shape = std::move(copy);
shapeRef.setName("Wurst");`. -/
theorem C17_captured_functions_share_the_type_witness :
    ∃ st, run mainOps (State.init mainWorld)
      [.construct .Owning .square 0, .construct .Ref .square 0, .copyConstruct 0,
        .moveAssign 0 2, .setName 1 "Wurst"] = some st ∧
    allocationSucceeds mainOps (State.init mainWorld)
      [.construct .Owning .square 0, .construct .Ref .square 0, .copyConstruct 0,
        .moveAssign 0 2, .setName 1 "Wurst"] = true ∧
    (∀ op ∈ ([.construct .Owning .square 0, .construct .Ref .square 0, .copyConstruct 0,
        .moveAssign 0 2, .setName 1 "Wurst"] : List (Op MainType)), op.onExternal mainWorld) ∧
    ∀ i setup (w : ShapeTE MainType setup), st.wrapper? i = some ⟨setup, w⟩ →
      w.common = ShapeTECommon.null MainType ∨
      ∃ u a v, w.Wraps st.world u a v ∧
        ShapeTE.draw mainOps w st.world = .ok (st.world.print ((mainOps u).draw v)) ∧
        ShapeTE.drawFree mainOps w st.world =
          .ok (st.world.print ((mainOps u).drawFree v)) ∧
        (∀ objConst value, ShapeTE.setName mainOps w objConst value st.world =
          if setNameAccepted memberSetNameOverloads setup objConst then
            .ok (st.world.store a ⟨u, (mainOps u).setName v value⟩)
          else .rejected) ∧
        (∀ objConst value, ShapeTE.setNameFree mainOps w objConst value st.world =
          if setNameAccepted friendSetNameOverloads setup objConst then
            .ok (st.world.store a ⟨u, (mainOps u).setNameFree v value⟩)
          else .rejected) ∧
        ShapeTE.dtor mainOps w st.world =
          some (if setup = .Owning then (st.world.print ((mainOps u).dtor v)).free a
            else st.world) :=
  have hext : ∀ op ∈ ([.construct .Owning .square 0, .construct .Ref .square 0,
      .copyConstruct 0, .moveAssign 0 2, .setName 1 "Wurst"] : List (Op MainType)),
      op.onExternal mainWorld := by
    intro op hop
    simp only [List.mem_cons, List.mem_singleton, List.not_mem_nil, or_false] at hop
    rcases hop with rfl | rfl | rfl | rfl | rfl
    · exact fun h => absurd rfl h
    · exact fun _ => rfl
    · trivial
    · trivial
    · trivial
  ⟨_, rfl, rfl, hext, C17_captured_functions_share_the_type mainOps mainWorld
    [.construct .Owning .square 0, .construct .Ref .square 0, .copyConstruct 0,
      .moveAssign 0 2, .setName 1 "Wurst"] _ rfl rfl hext⟩

end TypeCoherenceClaim

/-! ## C18: empty slots, no-op duplicators and null trampolines -/

section EmptySlotClaim

variable {U : Type} [DecidableEq U] {El : U → Type}

omit [DecidableEq U] in
theorem ShapeTECommon.ctor_ne_null (u : U) : ShapeTECommon.ctor u ≠ ShapeTECommon.null U := by
  simp [ShapeTECommon.ctor, ShapeTECommon.null]

/-- In a program in which no allocation fails, the slot of an Owning wrapper is
empty exactly if its duplicator is `noopDuplicator`, and exactly if its
trampolines are null. -/
theorem owning_empty_iff_of_allocationSucceeds (ops : ∀ u, Conforming (El u))
    (σ0 : World U El) (trace : List (Op U)) (st : State U El)
    (hrun : run ops (State.init σ0) trace = some st)
    (halloc : allocationSucceeds ops (State.init σ0) trace = true)
    (hext : ∀ op ∈ trace, op.onExternal σ0) (i : Nat) (w : ShapeTE U .Owning)
    (hw : st.wrapper? i = some ⟨.Owning, w⟩) :
    (OwningPtrType.ptr w.base.mData = none ↔ w.base.mDuplicator = ⟨some .noopDuplicator⟩) ∧
    (OwningPtrType.ptr w.base.mData = none ↔ w.common = ShapeTECommon.null U) := by
  have hcoh : st.Coherent true σ0 :=
    run_coherent_strict ops trace hext (State.Coherent.init true σ0) halloc hrun
  have hsound : w.SoundOwning true σ0.cells.length st.world := hcoh.each i _ hw
  rcases hsound with ⟨hp, hs⟩ | ⟨u, a, _, hd, _, hs⟩
  · exact ⟨⟨fun _ => (hs rfl).1, fun _ => hp⟩, ⟨fun _ => (hs rfl).2, fun _ => hp⟩⟩
  · have hp : OwningPtrType.ptr w.base.mData ≠ none := by rw [hd]; simp
    have hdup : w.base.mDuplicator ≠ ⟨some .noopDuplicator⟩ := by
      rw [(hs rfl).1]
      intro h
      have h2 := congrArg FunctionPtr.mPtr h
      simp [createDuplicator] at h2
    have hcom : w.common ≠ ShapeTECommon.null U := by
      rw [(hs rfl).2]
      exact ShapeTECommon.ctor_ne_null u
    exact ⟨⟨fun h => absurd h hp, fun h => absurd h hdup⟩,
      ⟨fun h => absurd h hp, fun h => absurd h hcom⟩⟩

/-- The stored pointer of a reference wrapper is never null. -/
theorem reference_pointer_ne_null (ops : ∀ u, Conforming (El u))
    (σ0 : World U El) (trace : List (Op U)) (st : State U El)
    (hrun : run ops (State.init σ0) trace = some st) (i : Nat) (setup : TypeErasureSetup)
    (hs : setup ≠ .Owning) (w : ShapeTE U setup) (hw : st.wrapper? i = some ⟨setup, w⟩) :
    w.base.get ≠ none := by
  have hcoh : st.Coherent false σ0 := run_coherent ops trace (State.Coherent.init false σ0) hrun
  have hsound := hcoh.each i _ hw
  cases setup with
  | Owning => exact absurd rfl hs
  | Ref =>
    obtain ⟨r, hr, _⟩ := hsound
    rw [hr]
    simp
  | ConstRef =>
    obtain ⟨r, hr, _⟩ := hsound
    rw [hr]
    simp

end EmptySlotClaim

/-- C18, as the code has it: the program `Shape w{sq}; Shape d{std::move(w)};
w = d;` in which the allocation of the copy assignment fails with
`std::bad_alloc` (which the program catches) reaches a state in which the
Owning wrapper `w` has an empty slot and null trampolines, but its duplicator
is the duplicator captured for `Square`, not `noopDuplicator`.  Copying `w`
then runs the type-specific duplicator on the null pointer: while no memory is
left the copy throws `std::bad_alloc` instead of giving an empty wrapper, and
once the value has been moved on and destroyed (`Shape e{std::move(d)};` and
the end of the lifetime of `e`) and memory is available again, copy
construction from `w` and copy assignment from `w` to `d` dereference the null
pointer, which is undefined. -/
theorem C18_empty_slot_with_typed_duplicator :
    run mainOps (State.init mainWorldOne)
        [.construct .Owning .square 0, .moveConstruct 0, .copyAssign 0 1] =
      some ⟨mainWorldFull, [some ⟨.Owning, mainShapeHalfAssigned⟩, some ⟨.Owning, mainShape⟩]⟩ ∧
    OwningPtrType.ptr mainShapeHalfAssigned.base.mData = none ∧
    mainShapeHalfAssigned.common = ShapeTECommon.null MainType ∧
    mainShapeHalfAssigned.base.mDuplicator = ⟨some (createDuplicator .square)⟩ ∧
    mainShapeHalfAssigned.base.mDuplicator ≠ ⟨some .noopDuplicator⟩ ∧
    step mainOps ⟨mainWorldFull, [some ⟨.Owning, mainShapeHalfAssigned⟩,
        some ⟨.Owning, mainShape⟩]⟩ (.copyConstruct 0) =
      .threw .bad_alloc ⟨mainWorldFull, [some ⟨.Owning, mainShapeHalfAssigned⟩,
        some ⟨.Owning, mainShape⟩]⟩ ∧
    (∃ st, run mainOps (State.init mainWorldOne)
        [.construct .Owning .square 0, .moveConstruct 0, .copyAssign 0 1, .moveConstruct 1,
          .destroy 2] = some st ∧
      st.wrapper? 0 = some ⟨.Owning, mainShapeHalfAssigned⟩ ∧
      st.wrapper? 1 = some ⟨.Owning, mainShapeMoved⟩ ∧
      st.world.budget = 1 ∧
      ShapeTE.copyCtor mainShapeHalfAssigned st.world = .undefined ∧
      step mainOps st (.copyConstruct 0) = .undefined ∧
      ShapeTE.copyAssign mainOps false mainShapeMoved mainShapeHalfAssigned st.world =
        .undefined ∧
      step mainOps st (.copyAssign 1 0) = .undefined) :=
  ⟨rfl, rfl, rfl, rfl, by decide, rfl, ⟨_, rfl, rfl, rfl, rfl, rfl, rfl, rfl, rfl⟩⟩

end TypeErasure
